import Mathlib

/-!
# WingKit wave trimming: a shallow embedding

The C++ sources under `WaveTrimming/` are embedded as pure functions.

* An amplitude array (`vector<char *>` of decimal strings) is held as the list of the
  integers `atoi` reads from its entries; `to_string` followed by `atoi` is the identity on
  the `short` and `int` values the code stores, so nothing is lost.
* `int` and `long` values are `Int`, and loop counters that the code keeps non-negative are
  `Nat`.  Signed overflow, which is undefined in C++, is not modelled: the embedding is exact
  for the runs in which every signed value fits its type.  Conversions to unsigned types and
  narrowing casts are written out with an explicit modulus.
* A read outside a buffer, or any other undefined behaviour, makes a function return `none`
  (or `Except.error`), so a result `some _` always stands for a defined run of the C++ code.
* `float` and `double` values are exact fractions, and every floating-point operation rounds
  its exact result to the nearest value with 24 (`float`) or 53 (`double`) significant bits,
  ties to even.  The exponent range is not bounded: overflow, subnormals, infinities and NaN
  are outside the model.
-/

namespace WingKit

/-! ## Floating point -/

/-- A finite floating-point value, held exactly as the fraction `num / den` (`den > 0`). -/
structure FloatVal where
  num : Int
  den : Nat
deriving DecidableEq, Repr

/-- Number of binary digits of `n` (0 for 0), by repeated halving. -/
def bitLenAux : Nat → Nat → Nat
  | 0, _ => 0
  | fuel + 1, n => if n = 0 then 0 else bitLenAux fuel (n / 2) + 1

/-- Number of binary digits of `n`. -/
def bitLen (n : Nat) : Nat := bitLenAux n n

/-- Nearest integer to `n / d`, ties to the even neighbour. -/
def divRoundEven (n d : Nat) : Nat :=
  let q := n / d
  let r := n % d
  if 2 * r < d then q
  else if d < 2 * r then q + 1
  else if q % 2 = 0 then q else q + 1

/-- The non-negative fraction `n / d` rounded to `prec` significant bits, ties to even;
the result is again a fraction `(num, den)`. -/
def roundMag (prec n d : Nat) : Nat × Nat :=
  if n = 0 ∨ d = 0 then (0, 1)
  else
    let k : Int := (bitLen n : Int) - (bitLen d : Int)
    -- `floor (log2 (n / d))` is `k` or `k - 1`
    let atLeast : Bool :=
      if 0 ≤ k then decide (d * 2 ^ k.toNat ≤ n) else decide (d ≤ n * 2 ^ (-k).toNat)
    let lg : Int := if atLeast then k else k - 1
    let e : Int := lg - ((prec : Int) - 1)
    if 0 ≤ e then (divRoundEven n (d * 2 ^ e.toNat) * 2 ^ e.toNat, 1)
    else (divRoundEven (n * 2 ^ (-e).toNat) d, 2 ^ (-e).toNat)

/-- Rounding of the exact fraction `num / den` to a floating-point value with `prec`
significant bits (round to nearest, ties to even; the sign is carried over). -/
def roundTo (prec : Nat) (num : Int) (den : Nat) : FloatVal :=
  let r := roundMag prec num.natAbs den
  ⟨if num < 0 then -(r.1 : Int) else (r.1 : Int), r.2⟩

/-- Significant bits of a `float`. -/
def floatPrec : Nat := 24

/-- Significant bits of a `double`. -/
def doublePrec : Nat := 53

/-- Conversion of an `int` to a floating-point type. -/
def ofInt (prec : Nat) (x : Int) : FloatVal := roundTo prec x 1

/-- Floating-point multiplication. -/
def fmul (prec : Nat) (a b : FloatVal) : FloatVal :=
  roundTo prec (a.num * b.num) (a.den * b.den)

/-- Floating-point division by a non-zero value (`b.num ≠ 0`). -/
def fdiv (prec : Nat) (a b : FloatVal) : FloatVal :=
  roundTo prec (if b.num < 0 then -(a.num * b.den) else a.num * b.den) (a.den * b.num.natAbs)

/-- The comparison `x < t` of an `int` with a `double` (the conversion of an `int` to
`double` is exact). -/
def intLtFloat (x : Int) (t : FloatVal) : Bool := decide (x * (t.den : Int) < t.num)

/-- Conversion `(int) v`: truncation toward zero. -/
def truncToInt (v : FloatVal) : Int := Int.tdiv v.num (v.den : Int)

/-! ## amparray.cpp -/

/-- A 2D point: index and value of an amplitude element. -/
structure xyPoint where
  xCoord : Int
  yCoord : Int
deriving DecidableEq, Repr

/-- Entries above the threshold are kept, the others become 0. -/
def smoothAmpData (rawAmpData : List Int) (threshold : Int) : List Int :=
  rawAmpData.map (fun pt => if pt > threshold then pt else 0)

/-- Loop of `argMaxAmp`: `rest` are the entries from index `i` on. -/
def argMaxLoop : List Int → Nat → Int → Nat → Nat
  | [], _, _, maxInd => maxInd
  | val :: rest, i, maxVal, maxInd =>
    if val > maxVal then argMaxLoop rest (i + 1) val i
    else argMaxLoop rest (i + 1) maxVal maxInd

/-- Index of the maximum; `arr[0]` is read unconditionally, which is undefined on an
empty array. -/
def argMaxAmp : List Int → Option Int
  | [] => none
  | x :: rest => some (argMaxLoop rest 1 x 0 : Nat)

/-- Backward loop of `determineStartPoint`, entered with `j`; gives the `j` the loop
ends with. -/
def startLoop (a : List Int) : Nat → Option Nat
  | 0 => some 0
  | j + 1 =>
    match a[j]?, a[j + 1]? with
    | some post, some now => if post > now then some (j + 1) else startLoop a j
    | _, _ => none

/-- Start point of the trimming (index and value). -/
def determineStartPoint (smoothedAmpData : List Int) (maxInd : Int) : Option xyPoint :=
  -- a non-positive `maxInd` skips the loop and `max(0, j)` gives 0
  match startLoop smoothedAmpData maxInd.toNat with
  | none => none
  | some j =>
    match smoothedAmpData[j]? with
    | none => none
    | some y => some ⟨(j : Int), y⟩

/-- Index of the start point. -/
def determineStartIndex (smoothedAmpData : List Int) (maxInd : Int) : Option Int :=
  (determineStartPoint smoothedAmpData maxInd).map (fun p => p.xCoord)

/-- Forward loop of `determineEndPoint` at index `i` with `silentPts` counted so far;
`fuel` bounds the remaining iterations.  Gives the `i` the loop ends with. -/
def endLoop (a : List Int) (threshold : FloatVal) (allowedSilence : Int) :
    Nat → Nat → Int → Nat
  | 0, i, _ => i
  | fuel + 1, i, silentPts =>
    match a[i]? with
    | none => i
    | some x =>
      if intLtFloat x threshold then
        if silentPts + 1 ≥ allowedSilence then i
        else endLoop a threshold allowedSilence fuel (i + 1) (silentPts + 1)
      else endLoop a threshold allowedSilence fuel (i + 1) 0

/-- The silence threshold `percent * maxVal`, computed in `double`. -/
def silenceThreshold (percent : FloatVal) (maxVal : Int) : FloatVal :=
  fmul doublePrec percent (ofInt doublePrec maxVal)

/-- End point of the trimming (index and value). -/
def determineEndPoint (smoothedAmpData : List Int) (maxInd : Int) (percent : FloatVal)
    (allowedSilence : Int) : Option xyPoint :=
  if maxInd < 0 then none
  else
    match smoothedAmpData[maxInd.toNat]? with
    | none => none
    | some maxVal =>
      let threshold := silenceThreshold percent maxVal
      let i := endLoop smoothedAmpData threshold allowedSilence
        (smoothedAmpData.length - maxInd.toNat) maxInd.toNat 0
      let i := min i (smoothedAmpData.length - 1)
      match smoothedAmpData[i]? with
      | none => none
      | some y => some ⟨(i : Int), y⟩

/-- Index of the end point. -/
def determineEndIndex (smoothedAmpData : List Int) (maxInd : Int) (percent : FloatVal)
    (allowedSilence : Int) : Option Int :=
  (determineEndPoint smoothedAmpData maxInd percent allowedSilence).map (fun p => p.xCoord)

/-- The default `percent = 0.1` as a `double`. -/
def defaultPercent : FloatVal := roundTo doublePrec 1 10

/-- The default `allowedSilence = 10`. -/
def defaultAllowedSilence : Int := 10

/-- A run of `s` consecutive entries strictly below the threshold, all of them at indices
`≥ maxInd`, ends at index `i` of `a`. -/
def SilentRunEndsAt (a : List Int) (threshold : FloatVal) (maxInd s i : Nat) : Prop :=
  maxInd + s ≤ i + 1 ∧ i < a.length ∧
  ∀ k : Nat, i + 1 - s ≤ k → k ≤ i → ∃ x, a[k]? = some x ∧ intLtFloat x threshold = true

/-! ## wavdata.cpp: amplitude data -/

/-- The value `*max_element(first, last)` over the offsets `first .. last` of `data`:
the largest element of the range.  On an empty range `max_element` returns `last`, which
is then dereferenced.  A range that leaves the buffer is undefined. -/
def maxElement (data : List Int) (first last : Nat) : Option Int :=
  if data.length < last then none
  else if first < last then ((data.drop first).take (last - first)).max?
  else if first = last then data[last]?
  else none

/-- The `while` loop of `constructAmpData`; iterators are offsets from `data.begin()`.
Gives the amplitudes pushed so far and the final `end_ind`.  `fuel` bounds the number of
iterations. -/
def constructAmpLoop (data : List Int) (chunk_size target : Nat) :
    Nat → Nat → Nat → List Int → Option (List Int × Nat)
  | 0, _, _, _ => none
  | fuel + 1, start_ind, end_ind, ampData =>
    if end_ind = target then some (ampData, end_ind)
    else
      match maxElement data start_ind end_ind with
      | none => none
      | some val =>
        -- update pointers
        let start_ind := end_ind
        let end_ind := end_ind + chunk_size
        -- edge case handling
        if end_ind = target then
          match maxElement data start_ind end_ind with
          | none => none
          | some val2 =>
            constructAmpLoop data chunk_size target fuel start_ind end_ind
              (ampData ++ [val] ++ [val2])
        else constructAmpLoop data chunk_size target fuel start_ind end_ind (ampData ++ [val])

/-- The amplitude data: the maximum of each chunk of `chunk_size` samples.  `fuel` bounds
the iterations of the loop. -/
def constructAmpDataFuel (fuel : Nat) (data : List Int) (chunk_size : Int) :
    Option (List Int) :=
  if chunk_size ≤ 0 then none
  else
    let c := chunk_size.toNat
    let nchunks := data.length / c
    match constructAmpLoop data c (nchunks * c) fuel 0 c [] with
    | none => none
    | some (ampData, end_ind) =>
      -- if the sound data cannot be evenly divided into chunks, handle overflow
      if c * nchunks ≠ data.length then
        match maxElement data end_ind data.length with
        | none => none
        | some val => some (ampData ++ [val])
      else some ampData

/-- The amplitude data of `data`.  Each iteration of the loop reads `chunk_size ≥ 1` further
samples inside the buffer, so `data.length + 1` iterations are never exceeded. -/
def constructAmpData (data : List Int) (chunk_size : Int) : Option (List Int) :=
  constructAmpDataFuel (data.length + 1) data chunk_size

/-! ## trimmingTerminalPoints.cpp -/

/-- Conversion of an `int` to the 64-bit unsigned `size_t`. -/
def toSizeT (x : Int) : Nat := (x % (2 : Int) ^ 64).toNat

/-- Rescales a point of an array of size `oldSize` to an array of size `newSize`, in
`float` arithmetic.  A zero `oldSize` makes the quotient infinite or NaN, whose conversion
to `int` is undefined. -/
def rescale (oldPoint oldSize newSize : Int) : Option Int :=
  if oldSize = 0 then none
  else
    let ratio := fdiv floatPrec (ofInt floatPrec oldPoint) (ofInt floatPrec oldSize)
    some (truncToInt (fmul floatPrec ratio (ofInt floatPrec newSize)))

/-- Moves the start point back by `nchunks` chunks, not below 0.  The product and the
difference are taken in the integers: they are those of the `int` arithmetic of the source
when both are values of `int`, and a signed overflow, which is undefined there, is not
modelled. -/
def padSndStart (startPt chunkSize : Int) (nchunks : Int) : Int :=
  let padding := nchunks * chunkSize
  if startPt - padding > 0 then startPt - padding else 0

/-- Moves the end point forward by `nchunks` chunks, not beyond `size * chunkSize`; the
comparison is made in `size_t`. -/
def padSndEnd (endPt chunkSize : Int) (smoothedAmpData : List Int) (nchunks : Int) : Int :=
  let padding := nchunks * chunkSize
  let adjusted := (smoothedAmpData.length : Int) * chunkSize
  if toSizeT (endPt + padding) < (smoothedAmpData.length * toSizeT chunkSize) % 2 ^ 64 then
    endPt + padding
  else adjusted

/-- The default `nchunks = 2` of `padSndStart` and `padSndEnd`. -/
def defaultPaddingChunks : Int := 2

/-- Start point with respect to the sound data. -/
def determineSndStartPoint (ampStart : Int) (smoothedAmpData : List Int) (chunkSize : Int) :
    Option Int :=
  match rescale ampStart (smoothedAmpData.length : Int)
      ((smoothedAmpData.length : Int) * chunkSize) with
  | none => none
  | some sndStartIndex => some (padSndStart sndStartIndex chunkSize defaultPaddingChunks)

/-- End point with respect to the sound data. -/
def determineSndEndPoint (ampEnd : Int) (smoothedAmpData : List Int) (chunkSize : Int) :
    Option Int :=
  match rescale ampEnd (smoothedAmpData.length : Int)
      ((smoothedAmpData.length : Int) * chunkSize) with
  | none => none
  | some sndEndIndex =>
    some (padSndEnd sndEndIndex chunkSize smoothedAmpData defaultPaddingChunks)

/-! ## waveTrimming.cpp: trimming points -/

/-- The two trimming points `[sndStartPt, sndEndPt]` of an amplitude array. -/
def getTrimmingPoints (ampData : List Int) (threshold : Int) : Option (List Int) :=
  let chunkSize : Int := 1024
  let smoothedAmpData := smoothAmpData ampData threshold
  match argMaxAmp smoothedAmpData with
  | none => none
  | some maxAmpInd =>
    match determineStartIndex smoothedAmpData maxAmpInd with
    | none => none
    | some startIndex =>
      match determineSndStartPoint startIndex smoothedAmpData chunkSize with
      | none => none
      | some sndStartPt =>
        match determineEndIndex smoothedAmpData maxAmpInd defaultPercent
            defaultAllowedSilence with
        | none => none
        | some endIndex =>
          match determineSndEndPoint endIndex smoothedAmpData chunkSize with
          | none => none
          | some sndEndPt => some [sndStartPt, sndEndPt]

/-- The default `threshold = 100` of `getTrimmingPoints`. -/
def defaultThreshold : Int := 100

/-! ## wavdata.cpp: the wave file -/

/-- Value of a little-endian byte sequence. -/
def leValue : List UInt8 → Nat
  | [] => 0
  | b :: bs => b.toNat + 256 * leValue bs

/-- The `count` low bytes of `v`, least significant first. -/
def leBytes : Nat → Nat → List UInt8
  | 0, _ => []
  | count + 1, v => UInt8.ofNat (v % 256) :: leBytes count (v / 256)

/-- The `short` with the 16-bit pattern `v`. -/
def toInt16 (v : Nat) : Int :=
  if v % 65536 < 32768 then ((v % 65536 : Nat) : Int) else ((v % 65536 : Nat) : Int) - 65536

/-- The cast `(int) v` of a `long`: the value is wrapped to 32 bits. -/
def toInt32 (v : Int) : Int := (v + 2147483648) % 4294967296 - 2147483648

/-- Holds the header of a wave file and its sound data.  The `char[5]` tags are held by
their first four bytes (the fifth stays 0); `raw_data` holds the bytes of the buffer that
have been read from the file, any other element of the buffer being uninitialised. -/
structure waveFileStruct where
  chunkID : List UInt8
  fileSize : Int
  format : List UInt8
  subChunk1ID : List UInt8
  subChunk1Size : Int
  audioFormat : Int
  numChannels : Int
  sampleRate : Int
  byteRate : Int
  blockAlign : Int
  bitsPerSample : Int
  subChunk3ID : List UInt8
  subChunk3Size : Int
  data : List Int
  raw_data : List UInt8
deriving DecidableEq, Repr

/-- An open input stream: the bytes after the read position and whether no read has
failed so far. -/
structure IStream where
  rest : List UInt8
  good : Bool
deriving DecidableEq, Repr

/-- The call `ifs.read(buf, n)`: up to `n` bytes are extracted and stored at the start of the
buffer; fewer than `n` available bytes set the fail state, in which nothing is extracted. -/
def IStream.read (s : IStream) (buf : List UInt8) (n : Nat) : List UInt8 × IStream :=
  if s.good then
    ((s.rest.take n) ++ buf.drop (s.rest.take n).length,
      ⟨s.rest.drop n, decide ((s.rest.take n).length = n)⟩)
  else (buf, s)

/-- The call `ifs.seekg(k + ifs.tellg())` for `k ≥ 0`: the position moves forward by `k`
bytes; nothing happens in the fail state. -/
def IStream.seekForward (s : IStream) (k : Nat) : IStream :=
  if s.good then ⟨s.rest.drop k, true⟩ else s

/-- The tag `"FLLR"` of a filler subchunk. -/
def fillerTag : List UInt8 := [70, 76, 76, 82]

/-- A zero-initialised four-byte buffer. -/
def zero4 : List UInt8 := [0, 0, 0, 0]

/-- A zero-initialised two-byte buffer. -/
def zero2 : List UInt8 := [0, 0]

/-- Outcome of `readWaveData`: the struct, the `invalid_argument("No data")` exception, or
undefined behaviour (an exception of another type included). -/
inductive ReadResult where
  | ok (wav_file : waveFileStruct)
  | noData
  | undefined
deriving DecidableEq, Repr

/-- The reads of the fields that precede the data subchunk, in the order of the file. -/
def readFixedFields (ifs : IStream) : waveFileStruct × IStream :=
  let (chunkID, ifs) := ifs.read zero4 4
  let (fileSize, ifs) := ifs.read zero4 4
  let (format, ifs) := ifs.read zero4 4
  let (subChunk1ID, ifs) := ifs.read zero4 4
  let (subChunk1Size, ifs) := ifs.read zero4 4
  let (audioFormat, ifs) := ifs.read zero2 2
  let (numChannels, ifs) := ifs.read zero2 2
  let (sampleRate, ifs) := ifs.read zero4 4
  let (byteRate, ifs) := ifs.read zero4 4
  let (blockAlign, ifs) := ifs.read zero2 2
  let (bitsPerSample, ifs) := ifs.read zero2 2
  ({ chunkID := chunkID, fileSize := (leValue fileSize : Int), format := format,
     subChunk1ID := subChunk1ID, subChunk1Size := (leValue subChunk1Size : Int),
     audioFormat := toInt16 (leValue audioFormat),
     numChannels := toInt16 (leValue numChannels),
     sampleRate := (leValue sampleRate : Int), byteRate := (leValue byteRate : Int),
     blockAlign := toInt16 (leValue blockAlign),
     bitsPerSample := toInt16 (leValue bitsPerSample),
     subChunk3ID := zero4, subChunk3Size := 0, data := [], raw_data := [] }, ifs)

/-- The reads of the tag and size of the data subchunk.  A filler subchunk is skipped: its
size is taken off `fileSize`, the stream moves past it, and tag and size are read again
into the same fields. -/
def readDataSubchunk (wav_file : waveFileStruct) (ifs : IStream) : waveFileStruct × IStream :=
  let (subChunk3ID, ifs) := ifs.read zero4 4
  let (subChunk3Size, ifs) := ifs.read zero4 4
  if subChunk3ID = fillerTag then
    let ifs := ifs.seekForward (leValue subChunk3Size)
    let (subChunk3ID2, ifs) := ifs.read subChunk3ID 4
    let (subChunk3Size2, ifs) := ifs.read subChunk3Size 4
    ({ wav_file with
        fileSize := wav_file.fileSize - (leValue subChunk3Size : Int),
        subChunk3ID := subChunk3ID2, subChunk3Size := (leValue subChunk3Size2 : Int) }, ifs)
  else
    ({ wav_file with
        subChunk3ID := subChunk3ID, subChunk3Size := (leValue subChunk3Size : Int) }, ifs)

/-- The header fields as `readWaveData` holds them when it checks for data, with the
stream positioned at the sound data.  The filler subchunk, if there is one, has been
skipped: `subChunk3ID` and `subChunk3Size` are the ones read after it. -/
def readHeader (bytes : List UInt8) : waveFileStruct × IStream :=
  let (wav_file, ifs) := readFixedFields ⟨bytes, true⟩
  readDataSubchunk wav_file ifs

/-- The loop that copies every other `short` of the buffer `raw` (of `raw_data_size`
shorts) to the data vector, from index `i` on; reading a `short` that the file did not
fill is undefined.  `fuel` bounds the iterations. -/
def parseLoop (raw : List UInt8) (raw_data_size : Nat) : Nat → Nat → Option (List Int)
  | 0, _ => none
  | fuel + 1, i =>
    if i < raw_data_size then
      match raw[2 * i]?, raw[2 * i + 1]? with
      | some lo, some hi =>
        match parseLoop raw raw_data_size fuel (i + 2) with
        | none => none
        | some data => some (toInt16 (lo.toNat + 256 * hi.toNat) :: data)
      | _, _ => none
    else some []

/-- The struct returned when the file cannot be opened. -/
def zeroWaveFile : waveFileStruct :=
  { chunkID := zero4, fileSize := 0, format := zero4, subChunk1ID := zero4,
    subChunk1Size := 0, audioFormat := 0, numChannels := 0, sampleRate := 0, byteRate := 0,
    blockAlign := 0, bitsPerSample := 0, subChunk3ID := zero4, subChunk3Size := 0,
    data := [], raw_data := [] }

/-- Reads a wave file; `file` is `none` when the file cannot be opened, else its bytes.
With `initial_read` the sound data is parsed to a vector of shorts, else it is kept as raw
bytes. -/
def readWaveData (file : Option (List UInt8)) (initial_read : Bool) : ReadResult :=
  match file with
  | none => ReadResult.ok zeroWaveFile
  | some bytes =>
    let (wav_file, ifs) := readHeader bytes
    -- Check to see if any data exists
    if wav_file.subChunk3Size = 0 then ReadResult.noData
    else if initial_read then
      let raw_data_size := Int.tdiv (toInt32 wav_file.subChunk3Size) 2
      if raw_data_size < 0 then ReadResult.undefined
      else
        let (raw_data, _) := ifs.read [] wav_file.subChunk3Size.toNat
        -- the buffer has room for `raw_data_size` shorts
        if 2 * raw_data_size.toNat < raw_data.length then ReadResult.undefined
        else
          match parseLoop raw_data raw_data_size.toNat (raw_data_size.toNat + 1) 0 with
          | none => ReadResult.undefined
          | some data => ReadResult.ok { wav_file with data := data }
    else
      let (raw_data, _) := ifs.read [] wav_file.subChunk3Size.toNat
      ReadResult.ok { wav_file with raw_data := raw_data }

/-! ## wavdata.cpp: writing -/

/-- The loop that copies `raw_data[i]` for `start_point ≤ i < end_point`, from `i` on; an
index outside the bytes held by `raw_data` is undefined.  `fuel` bounds the iterations. -/
def copyLoop (raw_data : List UInt8) (end_point : Int) : Nat → Int → Option (List UInt8)
  | 0, _ => none
  | fuel + 1, i =>
    if i < end_point then
      if i < 0 then none
      else
        match raw_data[i.toNat]? with
        | none => none
        | some b =>
          match copyLoop raw_data end_point fuel (i + 1) with
          | none => none
          | some trimmed_data => some (b :: trimmed_data)
    else some []

/-- The name of the file that is written: the name without its last four characters,
read back as a C string, followed by `-trimmed.wav`.  A name of fewer than four characters
is undefined.  A character of `fname` stands for one `char` of the C++ string, which is what
it is in an ASCII name; in a name with other characters the source counts and cuts the bytes
of the encoding, which this definition does not follow. -/
def trimmedName (fname : String) : Option String :=
  if fname.length < 4 then none
  else
    some (String.mk ((fname.data.take (fname.length - 4)).takeWhile
      (fun ch => ch ≠ Char.ofNat 0)) ++ "-trimmed.wav")

/-- What `writeWaveFile` leaves: its return value, the file written and the updated
struct. -/
structure WriteResult where
  status : Int
  wavename : String
  contents : List UInt8
  wav_file : waveFileStruct
deriving DecidableEq, Repr

/-- The bytes written for the header of `wav_file`. -/
def headerBytes (wav_file : waveFileStruct) : List UInt8 :=
  wav_file.chunkID.take 4
    ++ leBytes 4 (wav_file.fileSize % 4294967296).toNat
    ++ wav_file.format.take 4
    ++ wav_file.subChunk1ID.take 4
    ++ leBytes 4 (wav_file.subChunk1Size % 4294967296).toNat
    ++ leBytes 2 (wav_file.audioFormat % 65536).toNat
    ++ leBytes 2 (wav_file.numChannels % 65536).toNat
    ++ leBytes 4 (wav_file.sampleRate % 4294967296).toNat
    ++ leBytes 4 (wav_file.byteRate % 4294967296).toNat
    ++ leBytes 2 (wav_file.blockAlign % 65536).toNat
    ++ leBytes 2 (wav_file.bitsPerSample % 65536).toNat
    ++ wav_file.subChunk3ID.take 4
    ++ leBytes 4 (wav_file.subChunk3Size % 4294967296).toNat

/-- Writes the wave file trimmed to the two points; `none` is undefined behaviour.  The
output stream is taken to open.  The `int` values `start_point`, `end_point`, `post_end` and
`pre_start + post_end` are computed in the integers: they are those of the source when the
points are non-negative, `end_point` is at most the data size and the data size is below
`2^31`; a signed overflow, which is undefined in the source, is not modelled. -/
def writeWaveFile (fname : String) (wav_file : waveFileStruct) (wave_trim_points : List Int) :
    Option WriteResult :=
  match wave_trim_points[0]?, wave_trim_points[1]? with
  | some p0, some p1 =>
    let start_point := p0 * 4
    let end_point := p1 * 4
    if end_point - start_point < 0 then none
    else
      match copyLoop wav_file.raw_data end_point ((end_point - start_point).toNat + 1)
          start_point with
      | none => none
      | some trimmed_data =>
        let pre_start := start_point
        let post_end := toInt32 wav_file.subChunk3Size - end_point
        let wav_file := { wav_file with
          fileSize := wav_file.fileSize - (pre_start + post_end),
          subChunk3Size := end_point - start_point }
        match trimmedName fname with
        | none => none
        | some wavename =>
          some { status := 0, wavename := wavename,
                 contents := headerBytes wav_file
                   ++ trimmed_data.take wav_file.subChunk3Size.toNat,
                 wav_file := wav_file }
  | _, _ => none

/-! ## waveTrimming.cpp: the entry point -/

/-- What `trim` leaves: its return value and the file written, if any. -/
structure TrimResult where
  status : Int
  output : Option (String × List UInt8)
deriving DecidableEq, Repr

/-- The entry point; `none` is undefined behaviour or an uncaught exception. -/
def trim (inputFile : Option (List UInt8)) (outputFileName : String) : Option TrimResult :=
  match readWaveData inputFile true with
  | ReadResult.noData => some { status := 1, output := none }
  | ReadResult.undefined => none
  | ReadResult.ok waveFile =>
    match constructAmpData waveFile.data 1024 with
    | none => none
    | some rawAmpData =>
      match getTrimmingPoints rawAmpData defaultThreshold with
      | none => none
      | some soundTrimmingPoints =>
        match readWaveData inputFile false with
        | ReadResult.ok toBeTrimmed =>
          match writeWaveFile outputFileName toBeTrimmed soundTrimmingPoints with
          | none => none
          | some written =>
            some { status := 0, output := some (written.wavename, written.contents) }
        | _ => none

/-! ## Reference definitions for the statements about the container -/

/-- The data-subchunk size of a container as the format lays it out: the four bytes at
offset 40, or, when the tag at offset 36 is the filler tag and the filler holds `F` bytes
(its size, at offset 40), the four bytes at offset `48 + F`, after the filler and the tag
that follows it. -/
def resolvedDataSize (bytes : List UInt8) : Nat :=
  if (bytes.drop 36).take 4 = fillerTag then
    leValue ((bytes.drop (48 + leValue ((bytes.drop 40).take 4))).take 4)
  else leValue ((bytes.drop 40).take 4)

/-- The container holds its whole header: the 44 bytes of the fixed layout and, when the
tag at offset 36 is the filler tag, the filler and the tag and size that follow it. -/
def HeaderComplete (bytes : List UInt8) : Prop :=
  44 ≤ bytes.length ∧
    ((bytes.drop 36).take 4 = fillerTag →
      52 + leValue ((bytes.drop 40).take 4) ≤ bytes.length)

instance (bytes : List UInt8) : Decidable (HeaderComplete bytes) := by
  unfold HeaderComplete
  exact inferInstance

/-! ## A small container used as a test input -/

/-- The 36 bytes that precede the data subchunk: `RIFF`, file size 44, `WAVE`, `fmt `,
size 16, PCM, two channels, 44100 Hz, byte rate 176400, block alignment 4, 16 bits. -/
def exampleFixedFields : List UInt8 :=
  [82, 73, 70, 70, 44, 0, 0, 0, 87, 65, 86, 69, 102, 109, 116, 32, 16, 0, 0, 0, 1, 0, 2, 0,
    68, 172, 0, 0, 16, 177, 2, 0, 4, 0, 16, 0]

/-- A data subchunk: `data`, size 8, and two stereo frames. -/
def exampleDataSubchunk : List UInt8 :=
  [100, 97, 116, 97, 8, 0, 0, 0, 1, 0, 2, 0, 255, 255, 4, 0]

/-- The header fields of the example container. -/
def exampleHeader : waveFileStruct :=
  { chunkID := [82, 73, 70, 70], fileSize := 44, format := [87, 65, 86, 69],
    subChunk1ID := [102, 109, 116, 32], subChunk1Size := 16, audioFormat := 1,
    numChannels := 2, sampleRate := 44100, byteRate := 176400, blockAlign := 4,
    bitsPerSample := 16, subChunk3ID := [100, 97, 116, 97], subChunk3Size := 8,
    data := [], raw_data := [] }

/-- The example container as read in analysis mode. -/
def exampleParsed : waveFileStruct := { exampleHeader with data := [1, -1] }

/-- The example container as read in rewrite mode. -/
def exampleRaw : waveFileStruct :=
  { exampleHeader with raw_data := [1, 0, 2, 0, 255, 255, 4, 0] }

/-! ## Reference definitions for the statements about the layout -/

/-- The header fields as the fixed layout of a container without filler subchunk places
them: the tags are the four bytes at the offsets 0, 8, 12 and 36, the sizes and rates the
little-endian values of the four bytes at the offsets 4, 16, 24, 28 and 40, and the format
code, the channel count, the block alignment and the bits per sample the `short` values of
the two bytes at the offsets 20, 22, 32 and 34. -/
def headerAtOffsets (bytes : List UInt8) : waveFileStruct :=
  { chunkID := bytes.take 4,
    fileSize := (leValue ((bytes.drop 4).take 4) : Int),
    format := (bytes.drop 8).take 4,
    subChunk1ID := (bytes.drop 12).take 4,
    subChunk1Size := (leValue ((bytes.drop 16).take 4) : Int),
    audioFormat := toInt16 (leValue ((bytes.drop 20).take 2)),
    numChannels := toInt16 (leValue ((bytes.drop 22).take 2)),
    sampleRate := (leValue ((bytes.drop 24).take 4) : Int),
    byteRate := (leValue ((bytes.drop 28).take 4) : Int),
    blockAlign := toInt16 (leValue ((bytes.drop 32).take 2)),
    bitsPerSample := toInt16 (leValue ((bytes.drop 34).take 2)),
    subChunk3ID := (bytes.drop 36).take 4,
    subChunk3Size := (leValue ((bytes.drop 40).take 4) : Int),
    data := [], raw_data := [] }

/-- The tags hold four bytes and the numeric fields other than the file size hold values of
their width: what every struct read from a file satisfies. -/
def FieldsInRange (w : waveFileStruct) : Prop :=
  (w.chunkID.length = 4 ∧ w.format.length = 4 ∧ w.subChunk1ID.length = 4 ∧
    w.subChunk3ID.length = 4) ∧
  (0 ≤ w.subChunk1Size ∧ w.subChunk1Size < 4294967296) ∧
  (-32768 ≤ w.audioFormat ∧ w.audioFormat < 32768) ∧
  (-32768 ≤ w.numChannels ∧ w.numChannels < 32768) ∧
  (0 ≤ w.sampleRate ∧ w.sampleRate < 4294967296) ∧
  (0 ≤ w.byteRate ∧ w.byteRate < 4294967296) ∧
  (-32768 ≤ w.blockAlign ∧ w.blockAlign < 32768) ∧
  (-32768 ≤ w.bitsPerSample ∧ w.bitsPerSample < 32768) ∧
  (0 ≤ w.subChunk3Size ∧ w.subChunk3Size < 4294967296)

/-! ## A container with a filler subchunk used as a test input -/

/-- The 36 bytes that precede the filler subchunk of `fillerContainer`: those of
`exampleFixedFields` with the file size 55, the number of bytes that follow the field. -/
def fillerFixedFields : List UInt8 :=
  [82, 73, 70, 70, 55, 0, 0, 0, 87, 65, 86, 69, 102, 109, 116, 32, 16, 0, 0, 0, 1, 0, 2, 0,
    68, 172, 0, 0, 16, 177, 2, 0, 4, 0, 16, 0]

/-- The example container with a filler subchunk of three bytes before its data subchunk:
63 bytes in all. -/
def fillerContainer : List UInt8 :=
  fillerFixedFields ++ (fillerTag ++ ([3, 0, 0, 0] ++ ([7, 7, 7] ++ exampleDataSubchunk)))

/-- The declared file size (the four bytes at offset 4) and the number of bytes that follow
that field, for the file `writeWaveFile` writes from `wav_file` and a window. -/
def writtenSizes (wav_file : waveFileStruct) (wave_trim_points : List Int) :
    Option (Nat × Nat) :=
  (writeWaveFile "out.wav" wav_file wave_trim_points).map
    (fun r => (leValue ((r.contents.drop 4).take 4), r.contents.length - 8))

/-! ## A container of samples in floating point used as a test input -/

/-- The 36 bytes that precede the data subchunk of `floatContainer`: `RIFF`, file size 8228,
`WAVE`, `fmt `, size 16, the audio format code 3 (IEEE float), two channels, 44100 Hz, byte
rate 352800, block alignment 8, 32 bits. -/
def floatFixedFields : List UInt8 :=
  [82, 73, 70, 70, 36, 32, 0, 0, 87, 65, 86, 69, 102, 109, 116, 32, 16, 0, 0, 0, 3, 0, 2, 0,
    68, 172, 0, 0, 32, 98, 5, 0, 8, 0, 32, 0]

/-- A container whose audio format code is 3, with a data subchunk of 8192 zero bytes. -/
def floatContainer : List UInt8 :=
  floatFixedFields ++ ([100, 97, 116, 97] ++ ([0, 32, 0, 0] ++ List.replicate (2 * 4096) 0))

/-- The header fields of `floatContainer`. -/
def floatHeader : waveFileStruct :=
  { chunkID := [82, 73, 70, 70], fileSize := 8228, format := [87, 65, 86, 69],
    subChunk1ID := [102, 109, 116, 32], subChunk1Size := 16, audioFormat := 3,
    numChannels := 2, sampleRate := 44100, byteRate := 352800, blockAlign := 8,
    bitsPerSample := 32, subChunk3ID := [100, 97, 116, 97], subChunk3Size := 8192,
    data := [], raw_data := [] }
/-! ## Reference definitions for the statements about the amplitude data -/

/-- The maximum of the samples of chunk `k`, that is of `samples[k * c .. min ((k + 1) * c) n)`
for `n` samples (0 when the chunk holds no sample). -/
def chunkMaximum (samples : List Int) (c k : Nat) : Int :=
  (((samples.drop (k * c)).take c).max?).getD 0

/-! ## Reference definitions for the statements about the floating-point values -/

/-- The number a floating-point value stands for. -/
def FloatVal.toRat (v : FloatVal) : ℚ := (v.num : ℚ) / (v.den : ℚ)


/-! ## Reference definitions for the statements about the end point -/

/-- A run of `s` consecutive entries strictly below the number `t`, all of them at indices
`≥ maxInd`, ends at index `i` of `a`; the comparison is that of the rational numbers. -/
def SilentRunBelow (a : List Int) (t : ℚ) (maxInd s i : Nat) : Prop :=
  maxInd + s ≤ i + 1 ∧ i < a.length ∧
  ∀ k : Nat, i + 1 - s ≤ k → k ≤ i → ∃ x, a[k]? = some x ∧ (x : ℚ) < t
/-! ## Smoothing and arg-max -/

theorem argMaxLoop_spec (rest : List Int) :
    ∀ (pre : List Int) (maxVal : Int) (maxInd : Nat),
      maxInd < pre.length → (pre ++ rest)[maxInd]? = some maxVal →
      (∀ (k : Nat) (v : Int), k < pre.length → (pre ++ rest)[k]? = some v → v ≤ maxVal) →
      (∀ (k : Nat) (v : Int), k < maxInd → (pre ++ rest)[k]? = some v → v < maxVal) →
      ∃ mv, argMaxLoop rest pre.length maxVal maxInd < (pre ++ rest).length ∧
        (pre ++ rest)[argMaxLoop rest pre.length maxVal maxInd]? = some mv ∧
        (∀ (k : Nat) (v : Int), (pre ++ rest)[k]? = some v → v ≤ mv) ∧
        (∀ (k : Nat) (v : Int), k < argMaxLoop rest pre.length maxVal maxInd →
          (pre ++ rest)[k]? = some v → v < mv) := by
  induction rest with
  | nil =>
    intro pre maxVal maxInd hm hval hle hlt
    refine ⟨maxVal, by simpa [argMaxLoop] using hm, by simpa [argMaxLoop] using hval, ?_, ?_⟩
    · intro k v hk
      have hkl : k < pre.length := by
        have := (List.getElem?_eq_some.mp hk).1
        simpa using this
      exact hle k v hkl hk
    · intro k v hk hv
      exact hlt k v (by simpa [argMaxLoop] using hk) hv
  | cons val rest ih =>
    intro pre maxVal maxInd hm hval hle hlt
    have hsplit : pre ++ val :: rest = (pre ++ [val]) ++ rest := by simp
    have hlen : (pre ++ [val]).length = pre.length + 1 := by simp
    have hvalAt : (pre ++ val :: rest)[pre.length]? = some val := by
      rw [List.getElem?_append_right (le_refl _)]; simp
    by_cases hgt : val > maxVal
    · have key := ih (pre ++ [val]) val pre.length (by simp) (by rw [← hsplit]; exact hvalAt)
        (by
          intro k v hk hv
          rw [← hsplit] at hv
          rw [hlen] at hk
          rcases Nat.lt_succ_iff_lt_or_eq.mp hk with h | h
          · have := hle k v h hv
            omega
          · subst h
            rw [hvalAt] at hv
            cases hv
            exact le_refl _)
        (by
          intro k v hk hv
          rw [← hsplit] at hv
          have := hle k v hk hv
          omega)
      rw [hlen, ← hsplit] at key
      simpa [argMaxLoop, hgt] using key
    · have key := ih (pre ++ [val]) maxVal maxInd (by simp; omega) (by rw [← hsplit]; exact hval)
        (by
          intro k v hk hv
          rw [← hsplit] at hv
          rw [hlen] at hk
          rcases Nat.lt_succ_iff_lt_or_eq.mp hk with h | h
          · exact hle k v h hv
          · subst h
            rw [hvalAt] at hv
            cases hv
            omega)
        (by
          intro k v hk hv
          rw [← hsplit] at hv
          exact hlt k v hk hv)
      rw [hlen, ← hsplit] at key
      simpa [argMaxLoop, hgt] using key

theorem startLoop_spec (a : List Int) :
    ∀ j : Nat, j < a.length →
      ∃ r : Nat, startLoop a j = some r ∧ r ≤ j ∧
        (r = 0 ∨ ∃ x y, a[r - 1]? = some x ∧ a[r]? = some y ∧ x > y) ∧
        (∀ k : Nat, r ≤ k → k < j → ∃ x y, a[k]? = some x ∧ a[k + 1]? = some y ∧ x ≤ y) := by
  intro j
  induction j with
  | zero =>
    intro _
    exact ⟨0, rfl, le_refl _, Or.inl rfl, fun k _ hk => absurd hk (Nat.not_lt_zero k)⟩
  | succ j ih =>
    intro hj
    have hj0 : j < a.length := by omega
    have e0 : a[j]? = some a[j] := List.getElem?_eq_getElem hj0
    have e1 : a[j + 1]? = some a[j + 1] := List.getElem?_eq_getElem hj
    by_cases hgt : a[j] > a[j + 1]
    · refine ⟨j + 1, by simp [startLoop, e0, e1, hgt], le_refl _, Or.inr ?_, ?_⟩
      · exact ⟨a[j], a[j + 1], by simp, e1, hgt⟩
      · intro k h1 h2
        omega
    · obtain ⟨r, hr, hle, hdip, hmono⟩ := ih hj0
      refine ⟨r, by simp [startLoop, e0, e1, hgt, hr], by omega, hdip, ?_⟩
      intro k h1 h2
      rcases Nat.lt_succ_iff_lt_or_eq.mp h2 with h | h
      · exact hmono k h1 h
      · subst h
        exact ⟨a[k], a[k + 1], e0, e1, by omega⟩

/-- C3: for a non-empty array and `0 ≤ maxInd < length`, `determineStartPoint` returns the
largest index `j ≤ maxInd` with `j = 0` or `a[j-1] > a[j]`: the array is non-decreasing
on `[j, maxInd]`, `j = 0` or `a[j-1] > a[j]`, and no larger index up to `maxInd` has a
strict drop before it.  The returned `yCoord` is `a[j]`. -/
theorem determineStartPoint_spec (a : List Int) (maxInd : Nat) (hm : maxInd < a.length) :
    ∃ (j : Nat) (hj : j < a.length),
      determineStartPoint a (maxInd : Int) = some ⟨(j : Int), a[j]⟩ ∧ j ≤ maxInd ∧
      (j = 0 ∨ a[j - 1] > a[j]) ∧
      (∀ (k : Nat) (hk : k + 1 < a.length), j ≤ k → k < maxInd → a[k] ≤ a[k + 1]) ∧
      (∀ (k : Nat) (hk : k < a.length), k ≤ maxInd → (k = 0 ∨ a[k - 1] > a[k]) → k ≤ j) := by
  obtain ⟨r, hr, hle, hdip, hmono⟩ := startLoop_spec a maxInd hm
  have hrl : r < a.length := by omega
  have er : a[r]? = some a[r] := List.getElem?_eq_getElem hrl
  have mono : ∀ (k : Nat) (hk : k + 1 < a.length), r ≤ k → k < maxInd → a[k] ≤ a[k + 1] := by
    intro k hk h1 h2
    obtain ⟨x, y, hx, hy, hxy⟩ := hmono k h1 h2
    rw [List.getElem?_eq_getElem (by omega)] at hx
    rw [List.getElem?_eq_getElem hk] at hy
    rw [← Option.some.inj hx, ← Option.some.inj hy] at hxy
    exact hxy
  refine ⟨r, hrl, by simp [determineStartPoint, hr, er], hle, ?_, mono, ?_⟩
  · rcases hdip with h | ⟨x, y, hx, hy, hxy⟩
    · exact Or.inl h
    · right
      rw [List.getElem?_eq_getElem (by omega)] at hx
      rw [er] at hy
      rw [← Option.some.inj hx, ← Option.some.inj hy] at hxy
      exact hxy
  · intro k hk hkm hdrop
    by_contra hcon
    rcases hdrop with h | h
    · omega
    · have hk1 : k - 1 + 1 = k := by omega
      have := mono (k - 1) (by omega) (by omega) (by omega)
      simp only [hk1] at this
      omega

/-- Witness for C3: a peak at index 3 preceded by a drop between indices 1 and 2. -/
theorem determineStartPoint_spec_witness :
    ∃ (j : Nat) (hj : j < ([0, 20, 15, 90, 85] : List Int).length),
      determineStartPoint [0, 20, 15, 90, 85] ((3 : Nat) : Int)
        = some ⟨(j : Int), ([0, 20, 15, 90, 85] : List Int)[j]⟩ ∧ j ≤ 3 ∧
      (j = 0 ∨ ([0, 20, 15, 90, 85] : List Int)[j - 1] > ([0, 20, 15, 90, 85] : List Int)[j]) ∧
      (∀ (k : Nat) (hk : k + 1 < ([0, 20, 15, 90, 85] : List Int).length), j ≤ k → k < 3 →
        ([0, 20, 15, 90, 85] : List Int)[k] ≤ ([0, 20, 15, 90, 85] : List Int)[k + 1]) ∧
      (∀ (k : Nat) (hk : k < ([0, 20, 15, 90, 85] : List Int).length), k ≤ 3 →
        (k = 0 ∨ ([0, 20, 15, 90, 85] : List Int)[k - 1] > ([0, 20, 15, 90, 85] : List Int)[k]) →
        k ≤ j) :=
  determineStartPoint_spec [0, 20, 15, 90, 85] 3 (by decide)

/-! ## End point -/

theorem endLoop_spec (a : List Int) (T : FloatVal) (allowed : Int) (m : Nat) :
    ∀ (fuel i c : Nat), fuel + i = a.length → m ≤ i → (c : Int) < allowed → c ≤ i - m →
      (∀ k : Nat, i - c ≤ k → k < i → ∃ x, a[k]? = some x ∧ intLtFloat x T = true) →
      (c = i - m ∨ ∃ x, a[i - c - 1]? = some x ∧ intLtFloat x T = false) →
      (∀ i' : Nat, i' < i → ¬ SilentRunEndsAt a T m allowed.toNat i') →
      (endLoop a T allowed fuel i (c : Int) < a.length ∧
        SilentRunEndsAt a T m allowed.toNat (endLoop a T allowed fuel i (c : Int)) ∧
        ∀ i' : Nat, i' < endLoop a T allowed fuel i (c : Int) →
          ¬ SilentRunEndsAt a T m allowed.toNat i') ∨
      (endLoop a T allowed fuel i (c : Int) = a.length ∧
        ∀ i' : Nat, i' < a.length → ¬ SilentRunEndsAt a T m allowed.toNat i') := by
  intro fuel
  induction fuel with
  | zero =>
    intro i c hfi _ _ _ _ _ hno
    have hi : i = a.length := by omega
    subst hi
    exact Or.inr ⟨rfl, hno⟩
  | succ fuel ih =>
    intro i c hfi hmi hc hcm hrun hbound hno
    have hil : i < a.length := by omega
    have ei : a[i]? = some a[i] := List.getElem?_eq_getElem hil
    cases hsil : intLtFloat a[i] T with
    | true =>
      by_cases hge : (c : Int) + 1 ≥ allowed
      · have hstep : endLoop a T allowed (fuel + 1) i (c : Int) = i := by
          simp [endLoop, ei, hsil, hge]
        rw [hstep]
        refine Or.inl ⟨hil, ⟨by omega, hil, ?_⟩, hno⟩
        intro k hk1 hk2
        rcases Nat.lt_or_eq_of_le hk2 with h | h
        · exact hrun k (by omega) h
        · subst h
          exact ⟨a[k], ei, hsil⟩
      · have hstep : endLoop a T allowed (fuel + 1) i (c : Int)
            = endLoop a T allowed fuel (i + 1) ((c + 1 : Nat) : Int) := by
          simp [endLoop, ei, hsil, hge]
        rw [hstep]
        apply ih (i + 1) (c + 1) (by omega) (by omega) (by push_cast; omega) (by omega)
        · intro k hk1 hk2
          rcases Nat.lt_or_eq_of_le (Nat.lt_succ_iff.mp hk2) with h | h
          · exact hrun k (by omega) h
          · subst h
            exact ⟨a[k], ei, hsil⟩
        · rcases hbound with h | h
          · left
            omega
          · right
            have e : i + 1 - (c + 1) - 1 = i - c - 1 := by omega
            rw [e]
            exact h
        · intro i' hi'
          rcases Nat.lt_or_eq_of_le (Nat.lt_succ_iff.mp hi') with h | h
          · exact hno i' h
          · subst h
            rintro ⟨h1, _, h3⟩
            rcases hbound with hb | ⟨x, hx, hxs⟩
            · omega
            · obtain ⟨y, hy, hys⟩ := h3 (i' - c - 1) (by omega) (by omega)
              rw [hx] at hy
              rw [Option.some.inj hy] at hxs
              rw [hxs] at hys
              exact Bool.noConfusion hys
    | false =>
      have hstep : endLoop a T allowed (fuel + 1) i (c : Int)
          = endLoop a T allowed fuel (i + 1) ((0 : Nat) : Int) := by
        simp [endLoop, ei, hsil]
      rw [hstep]
      apply ih (i + 1) 0 (by omega) (by omega) (by push_cast; omega) (by omega)
      · intro k hk1 hk2
        omega
      · right
        exact ⟨a[i], by simp, hsil⟩
      · intro i' hi'
        rcases Nat.lt_or_eq_of_le (Nat.lt_succ_iff.mp hi') with h | h
        · exact hno i' h
        · subst h
          rintro ⟨_, _, h3⟩
          obtain ⟨y, hy, hys⟩ := h3 i' (by omega) (le_refl _)
          rw [ei] at hy
          rw [← Option.some.inj hy] at hys
          rw [hsil] at hys
          exact Bool.noConfusion hys

/-- The scan of `determineEndPoint` in terms of the comparison the code makes: the result is
the least index at which a silent run ends, or the last index when there is none. -/
theorem determineEndPoint_scan (a : List Int) (maxInd : Nat) (hm : maxInd < a.length)
    (percent : FloatVal) (allowedSilence : Int) (hs : 1 ≤ allowedSilence) :
    ∃ (r : Nat) (hr : r < a.length),
      determineEndPoint a (maxInd : Int) percent allowedSilence = some ⟨(r : Int), a[r]⟩ ∧
      ((SilentRunEndsAt a (silenceThreshold percent a[maxInd]) maxInd allowedSilence.toNat r ∧
          ∀ i : Nat, i < r →
            ¬ SilentRunEndsAt a (silenceThreshold percent a[maxInd]) maxInd
              allowedSilence.toNat i) ∨
        ((∀ i : Nat, ¬ SilentRunEndsAt a (silenceThreshold percent a[maxInd]) maxInd
              allowedSilence.toNat i) ∧
          r = a.length - 1)) := by
  have em : a[maxInd]? = some a[maxInd] := List.getElem?_eq_getElem hm
  have hnn : ¬ ((maxInd : Int) < 0) := by omega
  have key := endLoop_spec a (silenceThreshold percent a[maxInd]) allowedSilence maxInd
    (a.length - maxInd) maxInd 0 (by omega) (le_refl _) (by push_cast; omega) (by omega)
    (by intro k h1 h2; omega) (Or.inl (by omega))
    (by
      rintro i' hi' ⟨h1, _, _⟩
      omega)
  simp only [Nat.cast_zero] at key
  rcases key with ⟨hlt, hrun, hleast⟩ | ⟨heq, hnone⟩
  · refine ⟨_, hlt, ?_, Or.inl ⟨hrun, hleast⟩⟩
    have hmin : min (endLoop a (silenceThreshold percent a[maxInd]) allowedSilence
        (a.length - maxInd) maxInd 0) (a.length - 1)
        = endLoop a (silenceThreshold percent a[maxInd]) allowedSilence
          (a.length - maxInd) maxInd 0 := by
      apply Nat.min_eq_left
      omega
    simp only [determineEndPoint, hnn, if_false, Int.toNat_ofNat, em, hmin,
      List.getElem?_eq_getElem hlt]
  · have hl : a.length - 1 < a.length := by omega
    refine ⟨a.length - 1, hl, ?_, Or.inr ⟨?_, rfl⟩⟩
    · have hmin : min (endLoop a (silenceThreshold percent a[maxInd]) allowedSilence
          (a.length - maxInd) maxInd 0) (a.length - 1) = a.length - 1 := by
        rw [heq]
        apply Nat.min_eq_right
        omega
      simp only [determineEndPoint, hnn, if_false, Int.toNat_ofNat, em, hmin,
        List.getElem?_eq_getElem hl]
    · intro i hrun
      exact hnone i hrun.2.1 hrun

theorem endLoop_bounds (a : List Int) (T : FloatVal) (allowed : Int) :
    ∀ (fuel i : Nat) (c : Int), fuel + i = a.length →
      i ≤ endLoop a T allowed fuel i c ∧ endLoop a T allowed fuel i c ≤ a.length := by
  intro fuel
  induction fuel with
  | zero =>
    intro i c hfi
    simp only [endLoop]
    omega
  | succ fuel ih =>
    intro i c hfi
    have hil : i < a.length := by omega
    have ei : a[i]? = some a[i] := List.getElem?_eq_getElem hil
    have h1 := ih (i + 1) (c + 1) (by omega)
    have h2 := ih (i + 1) 0 (by omega)
    simp only [endLoop, ei]
    split
    · split
      · omega
      · omega
    · omega

theorem determineStartPoint_exists (a : List Int) (maxInd : Nat) (hm : maxInd < a.length) :
    ∃ (j : Nat) (hj : j < a.length),
      determineStartPoint a (maxInd : Int) = some ⟨(j : Int), a[j]⟩ ∧ j ≤ maxInd := by
  obtain ⟨r, hr, hle, -, -⟩ := startLoop_spec a maxInd hm
  have hrl : r < a.length := by omega
  have er : a[r]? = some a[r] := List.getElem?_eq_getElem hrl
  exact ⟨r, hrl, by simp [determineStartPoint, hr, er], hle⟩

/-- C2 (failing inputs): with a single complete chunk the loop of `constructAmpData` is not
entered, so the chunk gets no entry: two samples with chunk size 2 give no entry at all
(`ceil (2 / 2) = 1`), three samples give the one entry of the trailing partial chunk
(`ceil (3 / 2) = 2`); and with fewer samples than one chunk the first `max_element` reads
past the end of the data. -/
theorem constructAmpData_single_chunk :
    constructAmpData [3, 9] 2 = some [] ∧
    constructAmpData [3, 9, 4] 2 = some [4] ∧
    constructAmpData [3] 2 = none ∧
    constructAmpData [] 1 = none := by
  decide

set_option maxRecDepth 1000000 in
/-- C1 (failing input): 3073 samples of silence give the amplitude data `[0, 0, 0, 0]` and
the trimming points `[0, 4096]`: the end point is clamped to the number of chunks times the
chunk size, which exceeds the 3073 samples. -/
theorem getTrimmingPoints_exceeds_samples :
    constructAmpData (List.replicate 3073 0) 1024 = some [0, 0, 0, 0] ∧
    getTrimmingPoints [0, 0, 0, 0] defaultThreshold = some [0, 4096] ∧
    (List.replicate 3073 (0 : Int)).length < 4096 := by
  decide!

/-! ## Reading the header -/

theorem read_good (rest buf : List UInt8) (n : Nat) (hn : n ≤ rest.length)
    (hb : buf.length ≤ n) :
    IStream.read ⟨rest, true⟩ buf n = (rest.take n, ⟨rest.drop n, true⟩) := by
  have hl : (rest.take n).length = n := by simp [List.length_take]; omega
  have hd : buf.drop n = [] := List.drop_eq_nil_of_le hb
  simp [IStream.read, hl, hd]

theorem read_length (s : IStream) (buf : List UInt8) (n : Nat) (hb : buf.length = n) :
    (s.read buf n).1.length = n := by
  unfold IStream.read
  split
  · simp only [List.length_append, List.length_take, List.length_drop]
    omega
  · exact hb

theorem readFixedFields_append (H R : List UInt8) (hH : H.length = 36) :
    readFixedFields ⟨H ++ R, true⟩ = ((readFixedFields ⟨H, true⟩).1, ⟨R, true⟩) := by
  have hd : ∀ k : Nat, k ≤ 36 → (H ++ R).drop k = H.drop k ++ R := fun k hk =>
    List.drop_append_of_le_length (by omega)
  have ht : ∀ k n : Nat, k + n ≤ 36 → ((H ++ R).drop k).take n = (H.drop k).take n := by
    intro k n hk
    rw [hd k (by omega)]
    exact List.take_append_of_le_length (by simp [hH]; omega)
  have h36 : H.drop 36 = [] := List.drop_eq_nil_of_le (by omega)
  have ht0 : ∀ n : Nat, n ≤ 36 → (H ++ R).take n = H.take n := fun n hn =>
    List.take_append_of_le_length (by omega)
  simp (disch := first | decide | omega | (simp [hH]; done) | (simp [hH]; omega)) only
    [readFixedFields, read_good, List.drop_drop]
  simp only [Nat.reduceAdd, ht0 4 (by omega), ht 4 4 (by omega), ht 8 4 (by omega),
    ht 12 4 (by omega), ht 16 4 (by omega), ht 20 2 (by omega), ht 22 2 (by omega),
    ht 24 4 (by omega), ht 28 4 (by omega), ht 32 2 (by omega), ht 34 2 (by omega),
    hd 36 (le_refl _), h36, List.nil_append]

theorem readDataSubchunk_plain (w : waveFileStruct) (R : List UInt8) (hR : 8 ≤ R.length)
    (hno : R.take 4 ≠ fillerTag) :
    readDataSubchunk w ⟨R, true⟩ =
      ({ w with subChunk3ID := R.take 4,
                subChunk3Size := (leValue ((R.drop 4).take 4) : Int) }, ⟨R.drop 8, true⟩) := by
  simp (disch := first | decide | omega | (simp; omega)) only
    [readDataSubchunk, read_good, List.drop_drop]
  simp [hno]

theorem readDataSubchunk_filler (w : waveFileStruct) (szF fill R : List UInt8)
    (hR : 8 ≤ R.length) (hsz : szF.length = 4) (hF : leValue szF = fill.length) :
    readDataSubchunk w ⟨fillerTag ++ (szF ++ (fill ++ R)), true⟩ =
      ({ w with fileSize := w.fileSize - (fill.length : Int),
                subChunk3ID := R.take 4,
                subChunk3Size := (leValue ((R.drop 4).take 4) : Int) }, ⟨R.drop 8, true⟩) := by
  have h1 : IStream.read ⟨fillerTag ++ (szF ++ (fill ++ R)), true⟩ zero4 4
      = (fillerTag, ⟨szF ++ (fill ++ R), true⟩) := by
    rw [read_good _ _ _ (by simp [fillerTag]) (by decide)]
    simp [fillerTag]
  have h2 : IStream.read ⟨szF ++ (fill ++ R), true⟩ zero4 4
      = (szF, ⟨fill ++ R, true⟩) := by
    rw [read_good _ _ _ (by simp; omega) (by decide)]
    simp [← hsz]
  have h3 : IStream.seekForward ⟨fill ++ R, true⟩ fill.length = ⟨R, true⟩ := by
    simp [IStream.seekForward]
  have h4 : IStream.read ⟨R, true⟩ fillerTag 4 = (R.take 4, ⟨R.drop 4, true⟩) :=
    read_good _ _ _ (by omega) (by decide)
  have h5 : IStream.read ⟨R.drop 4, true⟩ szF 4
      = ((R.drop 4).take 4, ⟨(R.drop 4).drop 4, true⟩) :=
    read_good _ _ _ (by simp; omega) (by omega)
  simp only [readDataSubchunk, h1, h2, h3, h4, h5, if_true, hF, List.drop_drop, Nat.reduceAdd]

theorem readHeader_append (H R : List UInt8) (hH : H.length = 36) :
    readHeader (H ++ R) = readDataSubchunk (readFixedFields ⟨H, true⟩).1 ⟨R, true⟩ := by
  simp only [readHeader, readFixedFields_append H R hH]

theorem readHeader_size_eq_resolved (bytes : List UInt8) (hc : HeaderComplete bytes) :
    (readHeader bytes).1.subChunk3Size = (resolvedDataSize bytes : Int) := by
  obtain ⟨h44, hfill⟩ := hc
  have hsplit : bytes = bytes.take 36 ++ bytes.drop 36 := (List.take_append_drop 36 bytes).symm
  have hH : (bytes.take 36).length = 36 := by simp [List.length_take]; omega
  have hRlen : (bytes.drop 36).length = bytes.length - 36 := by simp
  have hhead : readHeader bytes
      = readDataSubchunk (readFixedFields ⟨bytes.take 36, true⟩).1 ⟨bytes.drop 36, true⟩ := by
    have := readHeader_append (bytes.take 36) (bytes.drop 36) hH
    rwa [← hsplit] at this
  rw [hhead]
  by_cases htag : (bytes.drop 36).take 4 = fillerTag
  · have hlen := hfill htag
    have hR : bytes.drop 36 = fillerTag ++ ((bytes.drop 40).take 4
        ++ ((bytes.drop 44).take (leValue ((bytes.drop 40).take 4))
          ++ bytes.drop (44 + leValue ((bytes.drop 40).take 4)))) := by
      rw [← htag]
      have e1 : bytes.drop 40 = (bytes.drop 36).drop 4 := by simp [List.drop_drop]
      have e2 : bytes.drop 44 = (bytes.drop 40).drop 4 := by simp [List.drop_drop]
      have e3 : bytes.drop (44 + leValue ((bytes.drop 40).take 4))
          = (bytes.drop 44).drop (leValue ((bytes.drop 40).take 4)) := by
        simp [List.drop_drop, Nat.add_comm]
      rw [e3, List.take_append_drop, e2, List.take_append_drop, e1, List.take_append_drop]
    rw [hR, readDataSubchunk_filler _ _ _ _ (by simp; omega) (by simp [List.length_take]; omega)
      (by simp [List.length_take]; omega)]
    simp only [resolvedDataSize, htag, if_true, List.drop_drop]
    have e : 44 + leValue ((bytes.drop 40).take 4) + 4
        = 48 + leValue ((bytes.drop 40).take 4) := by omega
    rw [e]
  · rw [readDataSubchunk_plain _ _ (by omega) htag]
    simp only [resolvedDataSize, htag, if_false, List.drop_drop]

theorem readWaveData_noData_iff_header (bytes : List UInt8) (initial_read : Bool) :
    readWaveData (some bytes) initial_read = ReadResult.noData ↔
      (readHeader bytes).1.subChunk3Size = 0 := by
  simp only [readWaveData]
  by_cases h : (readHeader bytes).1.subChunk3Size = 0
  · simp [h]
  · simp only [h, if_false, iff_false]
    cases initial_read
    · simp
    · simp only [if_true]
      split
      · simp
      · split
        · simp
        · split <;> simp

/-- C8: `readWaveData` throws the no-data exception exactly when the data-subchunk size it
holds after skipping an optional filler subchunk is zero; for a container that holds its
whole header that size is the one laid out in the file (`resolvedDataSize`); and when the
first read of `trim` fails so, `trim` returns 1 and no file is written. -/
theorem readWaveData_noData_spec (bytes : List UInt8) (outputFileName : String) :
    (∀ initial_read : Bool,
      readWaveData (some bytes) initial_read = ReadResult.noData ↔
        (readHeader bytes).1.subChunk3Size = 0) ∧
    (HeaderComplete bytes →
      ((readHeader bytes).1.subChunk3Size = (resolvedDataSize bytes : Int) ∧
        ∀ initial_read : Bool,
          readWaveData (some bytes) initial_read = ReadResult.noData ↔
            resolvedDataSize bytes = 0)) ∧
    (readWaveData (some bytes) true = ReadResult.noData →
      trim (some bytes) outputFileName = some { status := 1, output := none }) := by
  refine ⟨fun m => readWaveData_noData_iff_header bytes m, fun hc => ⟨?_, fun m => ?_⟩, ?_⟩
  · exact readHeader_size_eq_resolved bytes hc
  · rw [readWaveData_noData_iff_header, readHeader_size_eq_resolved bytes hc]
    exact Int.natCast_eq_zero
  · intro h
    simp only [trim, h]

/-- Witness for C8: a container with a two-byte filler subchunk and a data subchunk of
size zero. -/
theorem readWaveData_noData_spec_witness :
    HeaderComplete
      [82, 73, 70, 70, 46, 0, 0, 0, 87, 65, 86, 69, 102, 109, 116, 32, 16, 0, 0, 0, 1, 0, 2, 0,
        68, 172, 0, 0, 16, 177, 2, 0, 4, 0, 16, 0, 70, 76, 76, 82, 2, 0, 0, 0, 9, 9,
        100, 97, 116, 97, 0, 0, 0, 0] ∧
    resolvedDataSize
      [82, 73, 70, 70, 46, 0, 0, 0, 87, 65, 86, 69, 102, 109, 116, 32, 16, 0, 0, 0, 1, 0, 2, 0,
        68, 172, 0, 0, 16, 177, 2, 0, 4, 0, 16, 0, 70, 76, 76, 82, 2, 0, 0, 0, 9, 9,
        100, 97, 116, 97, 0, 0, 0, 0] = 0 ∧
    trim (some
      [82, 73, 70, 70, 46, 0, 0, 0, 87, 65, 86, 69, 102, 109, 116, 32, 16, 0, 0, 0, 1, 0, 2, 0,
        68, 172, 0, 0, 16, 177, 2, 0, 4, 0, 16, 0, 70, 76, 76, 82, 2, 0, 0, 0, 9, 9,
        100, 97, 116, 97, 0, 0, 0, 0]) "out.wav" = some { status := 1, output := none } :=
  ⟨by decide, by decide,
    (readWaveData_noData_spec _ "out.wav").2.2
      (((readWaveData_noData_spec _ "out.wav").2.1 (by decide)).2 true |>.mpr (by decide))⟩

/-! ## The filler subchunk -/

theorem readHeader_with_filler (H R szF fill : List UInt8) (hH : H.length = 36)
    (hR : 8 ≤ R.length) (hno : R.take 4 ≠ fillerTag) (hsz : szF.length = 4)
    (hF : leValue szF = fill.length) :
    readHeader (H ++ (fillerTag ++ (szF ++ (fill ++ R)))) =
      ({ (readHeader (H ++ R)).1 with
          fileSize := (readHeader (H ++ R)).1.fileSize - (fill.length : Int) },
        (readHeader (H ++ R)).2) := by
  rw [readHeader_append H _ hH, readHeader_append H R hH,
    readDataSubchunk_filler _ szF fill R hR hsz hF, readDataSubchunk_plain _ R hR hno]

theorem readWaveData_with_filler (H R szF fill : List UInt8) (initial_read : Bool)
    (hH : H.length = 36) (hR : 8 ≤ R.length) (hno : R.take 4 ≠ fillerTag)
    (hsz : szF.length = 4) (hF : leValue szF = fill.length) :
    readWaveData (some (H ++ (fillerTag ++ (szF ++ (fill ++ R))))) initial_read =
      match readWaveData (some (H ++ R)) initial_read with
      | ReadResult.ok w => ReadResult.ok { w with fileSize := w.fileSize - (fill.length : Int) }
      | ReadResult.noData => ReadResult.noData
      | ReadResult.undefined => ReadResult.undefined := by
  simp only [readWaveData, readHeader_with_filler H R szF fill hH hR hno hsz hF]
  generalize readHeader (H ++ R) = p
  obtain ⟨w, ifs⟩ := p
  simp only
  by_cases h0 : w.subChunk3Size = 0
  · simp [h0]
  · simp only [h0, if_false]
    cases initial_read
    · simp
    · simp only [if_true]
      split
      · rfl
      · split
        · rfl
        · split <;> simp_all

/-- C9: a container with at least 44 bytes and no filler subchunk, `H ++ R` with `H` its
first 36 bytes, and the container obtained by inserting a filler subchunk (the tag `FLLR`,
four bytes of size `szF` with value `F`, and `F` arbitrary bytes `fill`) before the
data-subchunk tag are parsed to the same data-subchunk tag, the same data-subchunk size,
the same samples (analysis mode) and the same payload bytes (rewrite mode); and when the
one is not parsed to a struct, the other fails in the same way. -/
theorem readWaveData_filler_transparent (H R szF fill : List UInt8) (initial_read : Bool)
    (hH : H.length = 36) (hR : 8 ≤ R.length) (hno : R.take 4 ≠ fillerTag)
    (hsz : szF.length = 4) (hF : leValue szF = fill.length) :
    (∀ w : waveFileStruct, readWaveData (some (H ++ R)) initial_read = ReadResult.ok w →
      ∃ w2 : waveFileStruct,
        readWaveData (some (H ++ (fillerTag ++ (szF ++ (fill ++ R))))) initial_read
          = ReadResult.ok w2 ∧
        w2.subChunk3ID = w.subChunk3ID ∧ w2.subChunk3Size = w.subChunk3Size ∧
        w2.data = w.data ∧ w2.raw_data = w.raw_data) ∧
    (readWaveData (some (H ++ R)) initial_read = ReadResult.noData →
      readWaveData (some (H ++ (fillerTag ++ (szF ++ (fill ++ R))))) initial_read
        = ReadResult.noData) ∧
    (readWaveData (some (H ++ R)) initial_read = ReadResult.undefined →
      readWaveData (some (H ++ (fillerTag ++ (szF ++ (fill ++ R))))) initial_read
        = ReadResult.undefined) := by
  have key := readWaveData_with_filler H R szF fill initial_read hH hR hno hsz hF
  refine ⟨fun w hw => ?_, fun hw => ?_, fun hw => ?_⟩
  · rw [hw] at key
    exact ⟨_, key, rfl, rfl, rfl, rfl⟩
  · rw [hw] at key
    exact key
  · rw [hw] at key
    exact key

/-! ## Writing the trimmed file -/

theorem leBytes_length (count v : Nat) : (leBytes count v).length = count := by
  induction count generalizing v with
  | zero => rfl
  | succ count ih => simp [leBytes, ih]

theorem leValue_leBytes (count v : Nat) : leValue (leBytes count v) = v % 256 ^ count := by
  induction count generalizing v with
  | zero => simp [leBytes, leValue, Nat.mod_one]
  | succ count ih =>
    have hb : (UInt8.ofNat (v % 256)).toNat = v % 256 := by
      simp [UInt8.toNat, UInt8.ofNat, Fin.ofNat]
    simp only [leBytes, leValue, ih, hb]
    rw [pow_succ, Nat.mul_comm (256 ^ count) 256, Nat.mod_mul]

theorem leValue_lt (bs : List UInt8) : leValue bs < 256 ^ bs.length := by
  induction bs with
  | nil => simp [leValue]
  | cons b bs ih =>
    have hb : b.toNat < 256 := b.val.isLt
    simp only [leValue, List.length_cons, pow_succ]
    omega

theorem copyLoop_eq (raw_data : List UInt8) (m : Nat) (hm : m ≤ raw_data.length) :
    ∀ (fuel k : Nat), k ≤ m → m - k < fuel →
      copyLoop raw_data (m : Int) fuel (k : Int)
        = some ((raw_data.drop k).take (m - k)) := by
  intro fuel
  induction fuel with
  | zero =>
    intro k _ hf
    omega
  | succ fuel ih =>
    intro k hk hf
    by_cases hlt : k < m
    · have hkl : k < raw_data.length := by omega
      have hnext := ih (k + 1) (by omega) (by omega)
      have h1 : ((k : Int) < (m : Int)) := by omega
      have h2 : ¬ ((k : Int) < 0) := by omega
      have h3 : (m - k) = (m - (k + 1)) + 1 := by omega
      simp only [copyLoop, h1, h2, if_true, if_false, Int.toNat_ofNat,
        List.getElem?_eq_getElem hkl]
      have hcast : ((k : Int) + 1) = ((k + 1 : Nat) : Int) := by push_cast; rfl
      rw [hcast, hnext, List.drop_eq_getElem_cons hkl, h3, List.take_succ_cons]
    · have hkm : k = m := by omega
      subst hkm
      simp [copyLoop]

theorem readHeader_fields (bytes : List UInt8) :
    (readHeader bytes).1.chunkID.length = 4 ∧ (readHeader bytes).1.format.length = 4 ∧
    (readHeader bytes).1.subChunk1ID.length = 4 ∧ (readHeader bytes).1.subChunk3ID.length = 4 ∧
    0 ≤ (readHeader bytes).1.subChunk3Size ∧ (readHeader bytes).1.subChunk3Size < 4294967296 := by
  have hz : zero4.length = 4 := rfl
  have hsize : ∀ bs : List UInt8, bs.length = 4 → ((leValue bs : Nat) : Int) < 4294967296 := by
    intro bs hbs
    have := leValue_lt bs
    rw [hbs] at this
    omega
  simp only [readHeader, readFixedFields, readDataSubchunk]
  split
  · refine ⟨read_length _ _ _ hz, read_length _ _ _ hz, read_length _ _ _ hz,
      read_length _ _ _ (read_length _ _ _ hz), Int.ofNat_nonneg _,
      hsize _ (read_length _ _ _ (read_length _ _ _ hz))⟩
  · refine ⟨read_length _ _ _ hz, read_length _ _ _ hz, read_length _ _ _ hz,
      read_length _ _ _ hz, Int.ofNat_nonneg _, hsize _ (read_length _ _ _ hz)⟩

theorem readWaveData_rewrite_header (bytes : List UInt8) (w : waveFileStruct)
    (h : readWaveData (some bytes) false = ReadResult.ok w) :
    w = { (readHeader bytes).1 with raw_data := w.raw_data } := by
  simp only [readWaveData] at h
  split at h
  · exact ReadResult.noConfusion h
  · simp only [Bool.false_eq_true, if_false] at h
    injection h with h
    rw [← h]

theorem headerBytes_length (w : waveFileStruct) (h1 : w.chunkID.length = 4)
    (h2 : w.format.length = 4) (h3 : w.subChunk1ID.length = 4) (h4 : w.subChunk3ID.length = 4) :
    (headerBytes w).length = 44 := by
  simp only [headerBytes, List.length_append, List.length_take, leBytes_length, h1, h2, h3, h4]
  rfl

theorem headerBytes_size_field (w : waveFileStruct) (h1 : w.chunkID.length = 4)
    (h2 : w.format.length = 4) (h3 : w.subChunk1ID.length = 4) (h4 : w.subChunk3ID.length = 4)
    (tail : List UInt8) :
    ((headerBytes w ++ tail).drop 40).take 4
      = leBytes 4 (w.subChunk3Size % 4294967296).toNat := by
  have hlen : (w.chunkID.take 4
    ++ leBytes 4 (w.fileSize % 4294967296).toNat
    ++ w.format.take 4
    ++ w.subChunk1ID.take 4
    ++ leBytes 4 (w.subChunk1Size % 4294967296).toNat
    ++ leBytes 2 (w.audioFormat % 65536).toNat
    ++ leBytes 2 (w.numChannels % 65536).toNat
    ++ leBytes 4 (w.sampleRate % 4294967296).toNat
    ++ leBytes 4 (w.byteRate % 4294967296).toNat
    ++ leBytes 2 (w.blockAlign % 65536).toNat
    ++ leBytes 2 (w.bitsPerSample % 65536).toNat
    ++ w.subChunk3ID.take 4).length = 40 := by
    simp only [List.length_append, List.length_take, leBytes_length, h1, h2, h3, h4]
    rfl
  unfold headerBytes
  rw [List.append_assoc _ (leBytes 4 _) tail, List.drop_left' hlen]
  exact List.take_left' (leBytes_length 4 _)

/-- C10: for a container read in rewrite mode whose payload `P = raw_data` is fully present
(`dataSize` bytes, with `dataSize < 2^31` so that the byte offsets `start * 4`, `end * 4` and
`dataSize - end * 4` are values of `int`) and a window `start ≤ end` with
`end * 4 ≤ dataSize`, `writeWaveFile` (given a file name of at least four characters)
writes the 44-byte header followed by
exactly the bytes `P[start*4 .. end*4)`, in order; the data-subchunk size it writes, the four
bytes at offset 40, is `(end - start) * 4`; the other fields of the header, the file size
apart, are those that were read. -/
theorem writeWaveFile_spec (bytes : List UInt8) (w : waveFileStruct) (fname : String)
    (s e : Nat) (hread : readWaveData (some bytes) false = ReadResult.ok w)
    (hfull : (w.raw_data.length : Int) = w.subChunk3Size)
    (hsize : w.subChunk3Size < 2147483648) (hse : s ≤ e)
    (he : (e : Int) * 4 ≤ w.subChunk3Size) (hname : 4 ≤ fname.length) :
    ∃ r : WriteResult, writeWaveFile fname w [(s : Int), (e : Int)] = some r ∧
      r.contents = headerBytes r.wav_file ++ (w.raw_data.drop (s * 4)).take ((e - s) * 4) ∧
      (headerBytes r.wav_file).length = 44 ∧
      r.contents.length = 44 + (e - s) * 4 ∧
      leValue ((r.contents.drop 40).take 4) = (e - s) * 4 ∧
      r.wav_file = { w with fileSize := r.wav_file.fileSize,
                            subChunk3Size := (((e - s) * 4 : Nat) : Int) } := by
  have _hint := hsize
  have hm : e * 4 ≤ w.raw_data.length := by omega
  have hcopy := copyLoop_eq w.raw_data (e * 4) hm ((e * 4 - s * 4) + 1) (s * 4)
    (by omega) (by omega)
  have hfuel : ((e : Int) * 4 - (s : Int) * 4).toNat + 1 = (e * 4 - s * 4) + 1 := by omega
  have hc1 : ((e : Int) * 4) = ((e * 4 : Nat) : Int) := by push_cast; rfl
  have hc2 : ((s : Int) * 4) = ((s * 4 : Nat) : Int) := by push_cast; rfl
  have hsub : e * 4 - s * 4 = (e - s) * 4 := by omega
  have hnn : ¬ ((e : Int) * 4 - (s : Int) * 4 < 0) := by omega
  have hnm : ¬ (fname.length < 4) := by omega
  have hsz : ((e : Int) * 4 - (s : Int) * 4).toNat = (e - s) * 4 := by omega
  have hszInt : ((e : Int) * 4 - (s : Int) * 4) = (((e - s) * 4 : Nat) : Int) := by omega
  have hslice : ((w.raw_data.drop (s * 4)).take ((e - s) * 4)).length = (e - s) * 4 := by
    simp only [List.length_take, List.length_drop]
    omega
  have hw := readWaveData_rewrite_header bytes w hread
  obtain ⟨f1, f2, f3, f4, f5, f6⟩ := readHeader_fields bytes
  have g1 : w.chunkID.length = 4 := by rw [hw]; exact f1
  have g2 : w.format.length = 4 := by rw [hw]; exact f2
  have g3 : w.subChunk1ID.length = 4 := by rw [hw]; exact f3
  have g4 : w.subChunk3ID.length = 4 := by rw [hw]; exact f4
  have g6 : w.subChunk3Size < 4294967296 := by rw [hw]; exact f6
  have hwrite : writeWaveFile fname w [(s : Int), (e : Int)] = some
      { status := 0,
        wavename := String.mk ((fname.data.take (fname.length - 4)).takeWhile
          (fun ch => ch ≠ Char.ofNat 0)) ++ "-trimmed.wav",
        contents := headerBytes { w with
            fileSize := w.fileSize - ((s : Int) * 4 + (toInt32 w.subChunk3Size - (e : Int) * 4)),
            subChunk3Size := (((e - s) * 4 : Nat) : Int) }
          ++ (w.raw_data.drop (s * 4)).take ((e - s) * 4),
        wav_file := { w with
            fileSize := w.fileSize - ((s : Int) * 4 + (toInt32 w.subChunk3Size - (e : Int) * 4)),
            subChunk3Size := (((e - s) * 4 : Nat) : Int) } } := by
    have htake : ((w.raw_data.drop (s * 4)).take ((e - s) * 4)).take ((e - s) * 4)
        = (w.raw_data.drop (s * 4)).take ((e - s) * 4) := by
      rw [List.take_take, Nat.min_self]
    simp only [writeWaveFile, List.getElem?_cons_zero, List.getElem?_cons_succ, hnn, if_false,
      hfuel]
    rw [hc1, hc2, hcopy]
    simp only [trimmedName, hnm, if_false, hsub]
    rw [← hc1, ← hc2, hszInt]
    simp only [Int.toNat_ofNat, htake]
  have hh : ∀ (fs sz : Int),
      (headerBytes { w with fileSize := fs, subChunk3Size := sz }).length = 44 := by
    intro fs sz
    apply headerBytes_length
    · exact g1
    · exact g2
    · exact g3
    · exact g4
  have hf : ∀ (fs sz : Int) (tail : List UInt8),
      ((headerBytes { w with fileSize := fs, subChunk3Size := sz } ++ tail).drop 40).take 4
        = leBytes 4 (sz % 4294967296).toNat := by
    intro fs sz tail
    apply headerBytes_size_field
    · exact g1
    · exact g2
    · exact g3
    · exact g4
  refine ⟨_, hwrite, ?_, ?_, ?_, ?_, ?_⟩
  · rfl
  · exact hh _ _
  · simp only [List.length_append, hslice, hh]
  · simp only [hf, leValue_leBytes]
    have hmod : ((((e - s) * 4 : Nat) : Int) % 4294967296).toNat = (e - s) * 4 := by omega
    rw [hmod]
    have h256 : 256 ^ 4 = 4294967296 := by norm_num
    rw [h256]
    exact Nat.mod_eq_of_lt (by omega)
  · rfl

/-- Witness for C9: a three-byte filler subchunk inserted in the example container. -/
theorem readWaveData_filler_transparent_witness :
    exampleFixedFields.length = 36 ∧ 8 ≤ exampleDataSubchunk.length ∧
    exampleDataSubchunk.take 4 ≠ fillerTag ∧ ([3, 0, 0, 0] : List UInt8).length = 4 ∧
    leValue [3, 0, 0, 0] = ([7, 7, 7] : List UInt8).length ∧
    ∃ w2 : waveFileStruct,
      readWaveData (some (exampleFixedFields
        ++ (fillerTag ++ ([3, 0, 0, 0] ++ ([7, 7, 7] ++ exampleDataSubchunk))))) true
        = ReadResult.ok w2 ∧
      w2.subChunk3ID = exampleParsed.subChunk3ID ∧
      w2.subChunk3Size = exampleParsed.subChunk3Size ∧
      w2.data = exampleParsed.data ∧ w2.raw_data = exampleParsed.raw_data :=
  ⟨by decide, by decide, by decide, by decide, by decide,
    (readWaveData_filler_transparent exampleFixedFields exampleDataSubchunk [3, 0, 0, 0]
      [7, 7, 7] true (by decide) (by decide) (by decide) (by decide) (by decide)).1
      exampleParsed (by decide)⟩

/-- Witness for C10: the second stereo frame of the example container is kept. -/
theorem writeWaveFile_spec_witness :
    readWaveData (some (exampleFixedFields ++ exampleDataSubchunk)) false
      = ReadResult.ok exampleRaw ∧
    (exampleRaw.raw_data.length : Int) = exampleRaw.subChunk3Size ∧
    exampleRaw.subChunk3Size < 2147483648 ∧ 1 ≤ 2 ∧
    ((2 : Nat) : Int) * 4 ≤ exampleRaw.subChunk3Size ∧ 4 ≤ "out.wav".length ∧
    ∃ r : WriteResult,
      writeWaveFile "out.wav" exampleRaw [((1 : Nat) : Int), ((2 : Nat) : Int)] = some r ∧
      r.contents = headerBytes r.wav_file
        ++ (exampleRaw.raw_data.drop (1 * 4)).take ((2 - 1) * 4) ∧
      (headerBytes r.wav_file).length = 44 ∧
      r.contents.length = 44 + (2 - 1) * 4 ∧
      leValue ((r.contents.drop 40).take 4) = (2 - 1) * 4 ∧
      r.wav_file = { exampleRaw with fileSize := r.wav_file.fileSize,
                                     subChunk3Size := (((2 - 1) * 4 : Nat) : Int) } :=
  ⟨by decide, by decide, by decide, by decide, by decide, by decide,
    writeWaveFile_spec (exampleFixedFields ++ exampleDataSubchunk) exampleRaw "out.wav" 1 2
      (by decide) (by decide) (by decide) (by decide) (by decide) (by decide)⟩


/-! ## Trimming points in the sound data -/

/-- C16: for all `int` values `startPt`, `chunkSize` and `nchunks` whose product
`nchunks * chunkSize` and difference `startPt - nchunks * chunkSize` are values of `int`
too (no signed overflow), `padSndStart` returns `max 0 (startPt - nchunks * chunkSize)`, and
so for the default `nchunks = 2`; the result is never negative, and it is at most `startPt`
when `startPt` and the padding are non-negative. -/
theorem padSndStart_spec (startPt chunkSize nchunks : Int)
    (hstart : -2147483648 ≤ startPt ∧ startPt < 2147483648)
    (hchunk : -2147483648 ≤ chunkSize ∧ chunkSize < 2147483648)
    (hn : -2147483648 ≤ nchunks ∧ nchunks < 2147483648)
    (hpad : -2147483648 ≤ nchunks * chunkSize ∧ nchunks * chunkSize < 2147483648)
    (hdiff : -2147483648 ≤ startPt - nchunks * chunkSize ∧
      startPt - nchunks * chunkSize < 2147483648) :
    padSndStart startPt chunkSize nchunks = max 0 (startPt - nchunks * chunkSize) ∧
    (nchunks = defaultPaddingChunks →
      padSndStart startPt chunkSize defaultPaddingChunks = max 0 (startPt - 2 * chunkSize)) ∧
    0 ≤ padSndStart startPt chunkSize nchunks ∧
    (0 ≤ startPt → 0 ≤ nchunks * chunkSize →
      padSndStart startPt chunkSize nchunks ≤ startPt) := by
  have _hrange := And.intro hstart (And.intro hchunk (And.intro hn (And.intro hpad hdiff)))
  have key : ∀ n : Int, padSndStart startPt chunkSize n = max 0 (startPt - n * chunkSize) := by
    intro n
    simp only [padSndStart]
    split <;> omega
  refine ⟨key nchunks, fun _ => key 2, ?_, ?_⟩
  · rw [key]
    exact le_max_left _ _
  · intro h0 hp
    rw [key]
    omega

/-- Witness for C16: the start point 5000 with chunks of 1024 samples and the default two
chunks of padding is moved back to 2952. -/
theorem padSndStart_spec_witness :
    ((-2147483648 : Int) ≤ 5000 ∧ (5000 : Int) < 2147483648) ∧
    ((-2147483648 : Int) ≤ 1024 ∧ (1024 : Int) < 2147483648) ∧
    ((-2147483648 : Int) ≤ 2 ∧ (2 : Int) < 2147483648) ∧
    ((-2147483648 : Int) ≤ 2 * 1024 ∧ (2 : Int) * 1024 < 2147483648) ∧
    ((-2147483648 : Int) ≤ 5000 - 2 * 1024 ∧ (5000 : Int) - 2 * 1024 < 2147483648) ∧
    padSndStart 5000 1024 2 = 2952 ∧
    padSndStart 5000 1024 2 = max 0 (5000 - 2 * 1024) ∧
    ((2 : Int) = defaultPaddingChunks →
      padSndStart 5000 1024 defaultPaddingChunks = max 0 (5000 - 2 * 1024)) ∧
    0 ≤ padSndStart 5000 1024 2 ∧
    ((0 : Int) ≤ 5000 → (0 : Int) ≤ 2 * 1024 → padSndStart 5000 1024 2 ≤ 5000) :=
  ⟨by decide, by decide, by decide, by decide, by decide, by decide,
    padSndStart_spec 5000 1024 2 (by decide) (by decide) (by decide) (by decide) (by decide)⟩

set_option maxRecDepth 1000000 in
/-- C15: `padSndEnd` clamps to the length of the amplitude array times the chunk size, not
to the number of samples the array was extracted from.  The 2049 samples of a silent
recording give, with chunks of 1024 samples, an amplitude array of three entries, and the
end point 2048 is padded to 3072, which is more than the 2049 samples there are; likewise
the five samples `[1, 2, 3, 4, 5]` give, with chunks of two samples, the array `[2, 4, 5]`,
and the end point 4 is padded to 6. -/
theorem padSndEnd_exceeds_samples :
    constructAmpData (List.replicate 2049 0) 1024 = some [0, 0, 0] ∧
    padSndEnd 2048 1024 [0, 0, 0] defaultPaddingChunks = 3072 ∧
    min ((2048 : Int) + defaultPaddingChunks * 1024)
      ((List.replicate 2049 (0 : Int)).length : Int) = 2049 ∧
    constructAmpData [1, 2, 3, 4, 5] 2 = some [2, 4, 5] ∧
    padSndEnd 4 2 [2, 4, 5] defaultPaddingChunks = 6 ∧
    min ((4 : Int) + defaultPaddingChunks * 2) (([1, 2, 3, 4, 5] : List Int).length : Int) = 5 := by
  decide!

/-- C17: `rescale` works in `float`, whose rounding makes the result fall one short of the
exact product: with 41 amplitudes and chunks of 1024 samples, the index 1 is rescaled to
1023 and not to 1024; and 13 of 22 is rescaled to 12 of 22. -/
theorem rescale_inexact :
    rescale 1 41 (41 * 1024) = some 1023 ∧ rescale 13 22 22 = some 12 := by
  decide

set_option maxRecDepth 100000 in
/-- C18: for the amplitudes `[5,20,15,90,85,80,2,1,1,1,1,1,1]` and the threshold 10,
`smoothAmpData` gives `[0,20,15,90,85,80,0,0,0,0,0,0,0]`, whose `argMaxAmp` is 3; the start
index from 3 is 2 and the end index from 3, with `percent = 0.1` and `allowedSilence = 10`,
is 12, the last index. -/
theorem trimming_scenario :
    smoothAmpData [5, 20, 15, 90, 85, 80, 2, 1, 1, 1, 1, 1, 1] 10
      = [0, 20, 15, 90, 85, 80, 0, 0, 0, 0, 0, 0, 0] ∧
    argMaxAmp [0, 20, 15, 90, 85, 80, 0, 0, 0, 0, 0, 0, 0] = some 3 ∧
    determineStartIndex [0, 20, 15, 90, 85, 80, 0, 0, 0, 0, 0, 0, 0] 3 = some 2 ∧
    determineEndIndex [0, 20, 15, 90, 85, 80, 0, 0, 0, 0, 0, 0, 0] 3 defaultPercent
      defaultAllowedSilence = some 12 ∧
    ([0, 20, 15, 90, 85, 80, 0, 0, 0, 0, 0, 0, 0] : List Int).length - 1 = 12 := by
  decide

theorem read_append (a rest buf : List UInt8) (n : Nat) (ha : a.length = n)
    (hb : buf.length ≤ n) :
    IStream.read ⟨a ++ rest, true⟩ buf n = (a, ⟨rest, true⟩) := by
  rw [read_good _ _ _ (by simp; omega) hb, List.take_left' ha, List.drop_left' ha]

theorem readFixedFields_offsets (bytes : List UInt8) (h : 36 ≤ bytes.length) :
    readFixedFields ⟨bytes, true⟩ =
      ({ headerAtOffsets bytes with subChunk3ID := zero4, subChunk3Size := 0 },
        ⟨bytes.drop 36, true⟩) := by
  simp (disch := first | decide | omega | (simp; done) | (simp; omega)) only
    [readFixedFields, read_good, List.drop_drop]
  simp only [headerAtOffsets, Nat.reduceAdd]

theorem readHeader_offsets (bytes : List UInt8) (h44 : 44 ≤ bytes.length)
    (hno : (bytes.drop 36).take 4 ≠ fillerTag) :
    readHeader bytes = (headerAtOffsets bytes, ⟨bytes.drop 44, true⟩) := by
  simp only [readHeader, readFixedFields_offsets bytes (by omega)]
  rw [readDataSubchunk_plain _ _ (by simp; omega) hno]
  simp only [headerAtOffsets, List.drop_drop, Nat.reduceAdd]

theorem readWaveData_ok_header (bytes : List UInt8) (initial_read : Bool) (w : waveFileStruct)
    (hw : readWaveData (some bytes) initial_read = ReadResult.ok w) :
    w = { (readHeader bytes).1 with data := w.data, raw_data := w.raw_data } := by
  simp only [readWaveData] at hw
  generalize readHeader bytes = p at hw ⊢
  obtain ⟨w0, ifs⟩ := p
  simp only at hw ⊢
  split at hw
  · exact ReadResult.noConfusion hw
  · cases initial_read
    · simp only [Bool.false_eq_true, if_false] at hw
      injection hw with hw
      rw [← hw]
    · simp only [if_true] at hw
      split at hw
      · exact ReadResult.noConfusion hw
      · split at hw
        · exact ReadResult.noConfusion hw
        · split at hw
          · exact ReadResult.noConfusion hw
          · injection hw with hw
            rw [← hw]

theorem readWaveData_rewrite_eq (bytes : List UInt8)
    (hsz : (readHeader bytes).1.subChunk3Size ≠ 0) :
    readWaveData (some bytes) false = ReadResult.ok
      { (readHeader bytes).1 with
          raw_data := ((readHeader bytes).2.read [] (readHeader bytes).1.subChunk3Size.toNat).1 } := by
  simp only [readWaveData]
  generalize readHeader bytes = p at hsz ⊢
  obtain ⟨w0, ifs⟩ := p
  simp only at hsz ⊢
  simp only [hsz, if_false, Bool.false_eq_true]

/-- C14: for an input of at least 44 bytes whose tag at offset 36 is not the filler tag,
`readWaveData` holds the header fields found at the fixed offsets 0, 4, 8, 12, 16, 20, 22,
24, 28, 32, 34, 36 and 40 (`headerAtOffsets`) with the stream positioned at offset 44:
every struct it returns has these fields, and in rewrite mode, when the data size is not 0,
it returns them with the payload read from offset 44 on. -/
theorem readWaveData_offsets (bytes : List UInt8) (h44 : 44 ≤ bytes.length)
    (hno : (bytes.drop 36).take 4 ≠ fillerTag) :
    readHeader bytes = (headerAtOffsets bytes, ⟨bytes.drop 44, true⟩) ∧
    (∀ (initial_read : Bool) (w : waveFileStruct),
      readWaveData (some bytes) initial_read = ReadResult.ok w →
        w = { headerAtOffsets bytes with data := w.data, raw_data := w.raw_data }) ∧
    (leValue ((bytes.drop 40).take 4) ≠ 0 →
      readWaveData (some bytes) false = ReadResult.ok
        { headerAtOffsets bytes with
            raw_data := (bytes.drop 44).take (leValue ((bytes.drop 40).take 4)) }) := by
  have hh := readHeader_offsets bytes h44 hno
  refine ⟨hh, ?_, ?_⟩
  · intro initial_read w hw
    have := readWaveData_ok_header bytes initial_read w hw
    rw [hh] at this
    exact this
  · intro hsz
    have hne : (readHeader bytes).1.subChunk3Size ≠ 0 := by
      rw [hh]
      simp only [headerAtOffsets]
      omega
    rw [readWaveData_rewrite_eq bytes hne, hh]
    simp [IStream.read, headerAtOffsets]

/-- Witness for C14: the example container. -/
theorem readWaveData_offsets_witness :
    44 ≤ (exampleFixedFields ++ exampleDataSubchunk).length ∧
    ((exampleFixedFields ++ exampleDataSubchunk).drop 36).take 4 ≠ fillerTag ∧
    headerAtOffsets (exampleFixedFields ++ exampleDataSubchunk) = exampleHeader ∧
    readWaveData (some (exampleFixedFields ++ exampleDataSubchunk)) false = ReadResult.ok
      { headerAtOffsets (exampleFixedFields ++ exampleDataSubchunk) with
          raw_data := ((exampleFixedFields ++ exampleDataSubchunk).drop 44).take
            (leValue (((exampleFixedFields ++ exampleDataSubchunk).drop 40).take 4)) } :=
  ⟨by decide, by decide, by decide,
    (readWaveData_offsets (exampleFixedFields ++ exampleDataSubchunk) (by decide)
      (by decide)).2.2 (by decide)⟩

/-! ## Analysis mode: the samples of the first channel -/

theorem parseLoop_spec (raw : List UInt8) (n : Nat) (hraw : 2 * n ≤ raw.length) :
    ∀ (fuel i : Nat), n - i < 2 * fuel - 1 →
      ∃ data : List Int, parseLoop raw n fuel i = some data ∧
        data.length = (n - i + 1) / 2 ∧
        ∀ k : Nat, k < data.length →
          ∃ lo hi : UInt8, raw[2 * (i + 2 * k)]? = some lo ∧
            raw[2 * (i + 2 * k) + 1]? = some hi ∧
            data[k]? = some (toInt16 (leValue [lo, hi])) := by
  intro fuel
  induction fuel with
  | zero =>
    intro i h
    omega
  | succ fuel ih =>
    intro i h
    by_cases hlt : i < n
    · have h0 : 2 * i < raw.length := by omega
      have h1 : 2 * i + 1 < raw.length := by omega
      obtain ⟨data, hd, hlen, hk⟩ := ih (i + 2) (by omega)
      refine ⟨toInt16 (leValue [raw[2 * i], raw[2 * i + 1]]) :: data, ?_, ?_, ?_⟩
      · simp only [parseLoop, hlt, if_true, List.getElem?_eq_getElem h0,
          List.getElem?_eq_getElem h1, hd, leValue, Nat.mul_zero, Nat.add_zero]
      · simp only [List.length_cons, hlen]
        omega
      · intro k hkl
        cases k with
        | zero =>
          refine ⟨raw[2 * i], raw[2 * i + 1], ?_, ?_, ?_⟩
          · exact List.getElem?_eq_getElem h0
          · exact List.getElem?_eq_getElem h1
          · exact List.getElem?_cons_zero
        | succ k =>
          have hk2 : k < data.length := by
            simp only [List.length_cons] at hkl
            omega
          obtain ⟨lo, hi, e0, e1, e2⟩ := hk k hk2
          have ei : 2 * (i + 2 * (k + 1)) = 2 * (i + 2 + 2 * k) := by omega
          refine ⟨lo, hi, ?_, ?_, ?_⟩
          · rw [ei]
            exact e0
          · rw [ei]
            exact e1
          · simpa using e2
    · refine ⟨[], ?_, ?_, ?_⟩
      · simp only [parseLoop, hlt, if_false]
      · simp only [List.length_nil]
        omega
      · intro k hk
        simp at hk

theorem readWaveData_analysis_even (bytes P : List UInt8) (n : Nat)
    (hh : (readHeader bytes).2 = ⟨P, true⟩)
    (hsz : (readHeader bytes).1.subChunk3Size = ((2 * n : Nat) : Int)) (hn : 0 < n)
    (hlt : 2 * n < 2147483648) (hP : 2 * n ≤ P.length) :
    ∃ data : List Int,
      readWaveData (some bytes) true
        = ReadResult.ok { (readHeader bytes).1 with data := data } ∧
      data.length = (n + 1) / 2 ∧
      ∀ k : Nat, k < data.length →
        ∃ lo hi : UInt8, P[4 * k]? = some lo ∧ P[4 * k + 1]? = some hi ∧
          data[k]? = some (toInt16 (leValue [lo, hi])) := by
  have htake : (P.take (2 * n)).length = 2 * n := by
    simp only [List.length_take]
    omega
  obtain ⟨data, hd, hlen, hk⟩ := parseLoop_spec (P.take (2 * n)) n (by omega) (n + 1) 0
    (by omega)
  refine ⟨data, ?_, ?_, ?_⟩
  · simp only [readWaveData]
    generalize readHeader bytes = p at hh hsz ⊢
    obtain ⟨w0, ifs⟩ := p
    simp only at hh hsz ⊢
    subst hh
    rw [hsz]
    have h0 : ¬ (((2 * n : Nat) : Int) = 0) := by omega
    have h32 : toInt32 ((2 * n : Nat) : Int) = ((2 * n : Nat) : Int) := by
      simp only [toInt32]
      omega
    have hdiv : Int.tdiv ((2 * n : Nat) : Int) 2 = (n : Int) := by
      have e : ((2 * n : Nat) : Int) = 2 * (n : Int) := by push_cast; rfl
      rw [e]
      exact Int.mul_tdiv_cancel_left _ (by decide)
    have hneg : ¬ ((n : Int) < 0) := by omega
    have hread : IStream.read ⟨P, true⟩ [] (2 * n)
        = (P.take (2 * n), ⟨P.drop (2 * n), true⟩) :=
      read_good _ _ _ hP (by simp)
    have hfits : ¬ (2 * n < (P.take (2 * n)).length) := by omega
    rw [if_neg h0, if_pos trivial, h32, hdiv, if_neg hneg, Int.toNat_ofNat, Int.toNat_ofNat, hread]
    simp only
    rw [if_neg hfits, hd]
  · rw [hlen]
    omega
  · intro k hkl
    obtain ⟨lo, hi, e0, e1, e2⟩ := hk k hkl
    have hkn : 2 * k < n := by
      rw [hlen] at hkl
      omega
    have i0 : 2 * (0 + 2 * k) = 4 * k := by omega
    rw [i0] at e0 e1
    rw [List.getElem?_take_of_lt (by omega)] at e0 e1
    exact ⟨lo, hi, e0, e1, e2⟩

/-- C13: in analysis mode the buffer holds `dataSize / 2` shorts and `dataSize` bytes are
read into it, so an odd data size with the payload fully present writes one byte past the
buffer, which is undefined: a payload of three bytes is not decoded to the one sample the
claim counts.  For an even data size `2 * n` below `2 ^ 31`, with the payload `P` fully
present, the samples are decoded as claimed: there are `(n + 1) / 2` of them, and sample `k`
is the `short` whose low byte is `P[4 * k]` and whose high byte is `P[4 * k + 1]`. -/
theorem readWaveData_analysis_spec :
    readWaveData (some (exampleFixedFields ++ [100, 97, 116, 97, 3, 0, 0, 0, 1, 0, 2])) true
      = ReadResult.undefined ∧
    ∀ (bytes P : List UInt8) (n : Nat), (readHeader bytes).2 = ⟨P, true⟩ →
      (readHeader bytes).1.subChunk3Size = ((2 * n : Nat) : Int) → 0 < n →
      2 * n < 2147483648 → 2 * n ≤ P.length →
      ∃ data : List Int,
        readWaveData (some bytes) true
          = ReadResult.ok { (readHeader bytes).1 with data := data } ∧
        data.length = (n + 1) / 2 ∧
        ∀ k : Nat, k < data.length →
          ∃ lo hi : UInt8, P[4 * k]? = some lo ∧ P[4 * k + 1]? = some hi ∧
            data[k]? = some (toInt16 (leValue [lo, hi])) :=
  ⟨by decide, readWaveData_analysis_even⟩

/-- Witness for C13: the samples of the example container, whose payload holds two stereo
frames. -/
theorem readWaveData_analysis_spec_witness :
    (readHeader (exampleFixedFields ++ exampleDataSubchunk)).2
      = ⟨[1, 0, 2, 0, 255, 255, 4, 0], true⟩ ∧
    ∃ data : List Int,
      readWaveData (some (exampleFixedFields ++ exampleDataSubchunk)) true
        = ReadResult.ok
          { (readHeader (exampleFixedFields ++ exampleDataSubchunk)).1 with data := data } ∧
      data.length = (4 + 1) / 2 ∧
      ∀ k : Nat, k < data.length →
        ∃ lo hi : UInt8, ([1, 0, 2, 0, 255, 255, 4, 0] : List UInt8)[4 * k]? = some lo ∧
          ([1, 0, 2, 0, 255, 255, 4, 0] : List UInt8)[4 * k + 1]? = some hi ∧
          data[k]? = some (toInt16 (leValue [lo, hi])) :=
  ⟨by decide, readWaveData_analysis_spec.2 (exampleFixedFields ++ exampleDataSubchunk)
    [1, 0, 2, 0, 255, 255, 4, 0] 4 (by decide) (by decide) (by decide) (by decide)
    (by decide)⟩

/-! ## Writing and parsing again -/

theorem toInt16_range (v : Nat) : -32768 ≤ toInt16 v ∧ toInt16 v < 32768 := by
  unfold toInt16
  split <;> omega

theorem le4_roundtrip (x : Int) (h0 : 0 ≤ x) (h1 : x < 4294967296) :
    (leValue (leBytes 4 (x % 4294967296).toNat) : Int) = x := by
  rw [leValue_leBytes]
  have h256 : 256 ^ 4 = 4294967296 := by norm_num
  rw [h256]
  omega

theorem le2_roundtrip (x : Int) (h0 : -32768 ≤ x) (h1 : x < 32768) :
    toInt16 (leValue (leBytes 2 (x % 65536).toNat)) = x := by
  rw [leValue_leBytes]
  have h256 : 256 ^ 2 = 65536 := by norm_num
  rw [h256]
  unfold toInt16
  split <;> omega

theorem leValue_range (bs : List UInt8) (h : bs.length = 4) :
    0 ≤ (leValue bs : Int) ∧ (leValue bs : Int) < 4294967296 := by
  have := leValue_lt bs
  rw [h] at this
  omega

theorem readHeader_inRange (bytes : List UInt8) : FieldsInRange (readHeader bytes).1 := by
  have hz : zero4.length = 4 := rfl
  simp only [readHeader, readFixedFields, readDataSubchunk]
  split
  · exact ⟨⟨read_length _ _ _ hz, read_length _ _ _ hz, read_length _ _ _ hz,
        read_length _ _ _ (read_length _ _ _ hz)⟩,
      leValue_range _ (read_length _ _ _ hz), toInt16_range _, toInt16_range _,
      leValue_range _ (read_length _ _ _ hz), leValue_range _ (read_length _ _ _ hz),
      toInt16_range _, toInt16_range _,
      leValue_range _ (read_length _ _ _ (read_length _ _ _ hz))⟩
  · exact ⟨⟨read_length _ _ _ hz, read_length _ _ _ hz, read_length _ _ _ hz,
        read_length _ _ _ hz⟩,
      leValue_range _ (read_length _ _ _ hz), toInt16_range _, toInt16_range _,
      leValue_range _ (read_length _ _ _ hz), leValue_range _ (read_length _ _ _ hz),
      toInt16_range _, toInt16_range _, leValue_range _ (read_length _ _ _ hz)⟩

theorem readFixedFields_headerBytes (w : waveFileStruct) (hw : FieldsInRange w)
    (tail : List UInt8) :
    readFixedFields ⟨headerBytes w ++ tail, true⟩ =
      ({ w with fileSize := w.fileSize % 4294967296, subChunk3ID := zero4,
                subChunk3Size := 0, data := [], raw_data := [] },
        ⟨w.subChunk3ID ++ (leBytes 4 (w.subChunk3Size % 4294967296).toNat ++ tail), true⟩) := by
  obtain ⟨⟨g1, g2, g3, g4⟩, ⟨a1, a2⟩, ⟨b1, b2⟩, ⟨c1, c2⟩, ⟨d1, d2⟩, ⟨e1, e2⟩, ⟨f1, f2⟩,
    ⟨k1, k2⟩, -⟩ := hw
  have t1 : w.chunkID.take 4 = w.chunkID := List.take_of_length_le (by omega)
  have t2 : w.format.take 4 = w.format := List.take_of_length_le (by omega)
  have t3 : w.subChunk1ID.take 4 = w.subChunk1ID := List.take_of_length_le (by omega)
  have t4 : w.subChunk3ID.take 4 = w.subChunk3ID := List.take_of_length_le (by omega)
  have hfs : ((leValue (leBytes 4 (w.fileSize % 4294967296).toNat) : Nat) : Int)
      = w.fileSize % 4294967296 := by
    rw [leValue_leBytes]
    have h256 : 256 ^ 4 = 4294967296 := by norm_num
    rw [h256]
    omega
  simp only [headerBytes, t1, t2, t3, t4, List.append_assoc]
  simp (disch := first | assumption | exact leBytes_length _ _ | decide) only
    [readFixedFields, read_append]
  simp only [hfs, le4_roundtrip _ a1 a2, le4_roundtrip _ d1 d2, le4_roundtrip _ e1 e2,
    le2_roundtrip _ b1 b2, le2_roundtrip _ c1 c2, le2_roundtrip _ f1 f2,
    le2_roundtrip _ k1 k2]

theorem readDataSubchunk_plain_append (w : waveFileStruct) (tag sz tail : List UInt8)
    (htag : tag.length = 4) (hsz : sz.length = 4) (hno : tag ≠ fillerTag) :
    readDataSubchunk w ⟨tag ++ (sz ++ tail), true⟩ =
      ({ w with subChunk3ID := tag, subChunk3Size := (leValue sz : Int) }, ⟨tail, true⟩) := by
  simp only [readDataSubchunk, read_append tag _ zero4 4 htag (by decide),
    read_append sz _ zero4 4 hsz (by decide), hno, if_false]

theorem readDataSubchunk_filler_end (w : waveFileStruct) (szF fill : List UInt8)
    (hsz : szF.length = 4) (hF : leValue szF = fill.length) :
    readDataSubchunk w ⟨fillerTag ++ (szF ++ fill), true⟩ =
      ({ w with fileSize := w.fileSize - (fill.length : Int), subChunk3ID := fillerTag,
                subChunk3Size := (leValue szF : Int) }, ⟨[], false⟩) := by
  have h3 : IStream.seekForward ⟨fill, true⟩ fill.length = ⟨[], true⟩ := by
    simp [IStream.seekForward]
  have h4 : IStream.read ⟨[], true⟩ fillerTag 4 = (fillerTag, ⟨[], false⟩) := by decide
  have h5 : IStream.read ⟨[], false⟩ szF 4 = (szF, ⟨[], false⟩) := by
    simp [IStream.read]
  simp only [readDataSubchunk, read_append fillerTag _ zero4 4 rfl (by decide),
    read_append szF _ zero4 4 hsz (by decide), if_true, hF, h3, h4, h5]

theorem readHeader_headerBytes (w : waveFileStruct) (hw : FieldsInRange w)
    (tail : List UInt8) (htail : (tail.length : Int) = w.subChunk3Size) :
    ∃ (fs : Int) (st : IStream),
      readHeader (headerBytes w ++ tail)
        = ({ w with fileSize := fs, data := [], raw_data := [] }, st) ∧
      (w.subChunk3ID ≠ fillerTag → st = ⟨tail, true⟩) := by
  have hsz := le4_roundtrip w.subChunk3Size hw.2.2.2.2.2.2.2.2.1 hw.2.2.2.2.2.2.2.2.2
  simp only [readHeader, readFixedFields_headerBytes w hw tail]
  by_cases htag : w.subChunk3ID = fillerTag
  · refine ⟨w.fileSize % 4294967296 - (tail.length : Int), ⟨[], false⟩, ?_, ?_⟩
    · rw [htag, readDataSubchunk_filler_end _ _ _ (leBytes_length _ _) (by omega), hsz]
    · intro h
      exact absurd htag h
  · refine ⟨w.fileSize % 4294967296, ⟨tail, true⟩, ?_, ?_⟩
    · rw [readDataSubchunk_plain_append _ _ _ _ hw.1.2.2.2 (leBytes_length _ _) htag, hsz]
    · intro _
      rfl

theorem writeWaveFile_eq (w : waveFileStruct) (fname : String) (s e : Nat)
    (hm : e * 4 ≤ w.raw_data.length) (hse : s ≤ e) (hname : 4 ≤ fname.length) :
    writeWaveFile fname w [(s : Int), (e : Int)] = some
      { status := 0,
        wavename := String.mk ((fname.data.take (fname.length - 4)).takeWhile
          (fun ch => ch ≠ Char.ofNat 0)) ++ "-trimmed.wav",
        contents := headerBytes { w with
            fileSize := w.fileSize - ((s : Int) * 4 + (toInt32 w.subChunk3Size - (e : Int) * 4)),
            subChunk3Size := (((e - s) * 4 : Nat) : Int) }
          ++ (w.raw_data.drop (s * 4)).take ((e - s) * 4),
        wav_file := { w with
            fileSize := w.fileSize - ((s : Int) * 4 + (toInt32 w.subChunk3Size - (e : Int) * 4)),
            subChunk3Size := (((e - s) * 4 : Nat) : Int) } } := by
  have hcopy := copyLoop_eq w.raw_data (e * 4) hm ((e * 4 - s * 4) + 1) (s * 4)
    (by omega) (by omega)
  have hfuel : ((e : Int) * 4 - (s : Int) * 4).toNat + 1 = (e * 4 - s * 4) + 1 := by omega
  have hc1 : ((e : Int) * 4) = ((e * 4 : Nat) : Int) := by push_cast; rfl
  have hc2 : ((s : Int) * 4) = ((s * 4 : Nat) : Int) := by push_cast; rfl
  have hsub : e * 4 - s * 4 = (e - s) * 4 := by omega
  have hnn : ¬ ((e : Int) * 4 - (s : Int) * 4 < 0) := by omega
  have hnm : ¬ (fname.length < 4) := by omega
  have hszInt : ((e : Int) * 4 - (s : Int) * 4) = (((e - s) * 4 : Nat) : Int) := by omega
  have htake : ((w.raw_data.drop (s * 4)).take ((e - s) * 4)).take ((e - s) * 4)
      = (w.raw_data.drop (s * 4)).take ((e - s) * 4) := by
    rw [List.take_take, Nat.min_self]
  simp only [writeWaveFile, List.getElem?_cons_zero, List.getElem?_cons_succ, hnn, if_false,
    hfuel]
  rw [hc1, hc2, hcopy]
  simp only [trimmedName, hnm, if_false, hsub]
  rw [← hc1, ← hc2, hszInt]
  simp only [Int.toNat_ofNat, htake]

/-- C11: for a container read in rewrite mode whose payload is fully present, with
`dataSize < 2^31` so that the byte offsets `start * 4`, `end * 4` and `dataSize - end * 4`
are values of `int`, and a window `start < end` with `end * 4 ≤ dataSize`, the bytes that
`writeWaveFile` produces (given a file name of at least four characters) are parsed again,
in rewrite mode, to a struct whose data-subchunk size is `(end - start) * 4` and whose container tag, format tag,
format-subchunk tag and size, audio format code, channel count, sample rate, byte rate,
block alignment, bits per sample and data-subchunk tag are those of the container read; and
unless that data-subchunk tag is the filler tag, the payload parsed is the window. -/
theorem writeWaveFile_roundtrip (bytes : List UInt8) (w : waveFileStruct) (fname : String)
    (s e : Nat) (hread : readWaveData (some bytes) false = ReadResult.ok w)
    (hfull : (w.raw_data.length : Int) = w.subChunk3Size)
    (hsize : w.subChunk3Size < 2147483648) (hse : s < e)
    (he : (e : Int) * 4 ≤ w.subChunk3Size) (hname : 4 ≤ fname.length) :
    ∃ (r : WriteResult) (w2 : waveFileStruct),
      writeWaveFile fname w [(s : Int), (e : Int)] = some r ∧
      readWaveData (some r.contents) false = ReadResult.ok w2 ∧
      w2.subChunk3Size = (((e - s) * 4 : Nat) : Int) ∧
      w2.chunkID = w.chunkID ∧ w2.format = w.format ∧ w2.subChunk1ID = w.subChunk1ID ∧
      w2.subChunk1Size = w.subChunk1Size ∧ w2.audioFormat = w.audioFormat ∧
      w2.numChannels = w.numChannels ∧ w2.sampleRate = w.sampleRate ∧
      w2.byteRate = w.byteRate ∧ w2.blockAlign = w.blockAlign ∧
      w2.bitsPerSample = w.bitsPerSample ∧ w2.subChunk3ID = w.subChunk3ID ∧
      (w.subChunk3ID ≠ fillerTag →
        w2.raw_data = (w.raw_data.drop (s * 4)).take ((e - s) * 4)) := by
  have _hint := hsize
  have hm : e * 4 ≤ w.raw_data.length := by omega
  have hw := readWaveData_rewrite_header bytes w hread
  have hr : FieldsInRange w := by
    rw [hw]
    exact readHeader_inRange bytes
  obtain ⟨hr1, hr2, hr3, hr4, hr5, hr6, hr7, hr8, hr9, hr10⟩ := hr
  have hlo : (0 : Int) ≤ (((e - s) * 4 : Nat) : Int) := Int.ofNat_nonneg _
  have hhi : (((e - s) * 4 : Nat) : Int) < 4294967296 := by omega
  have hwrite := writeWaveFile_eq w fname s e hm (by omega) hname
  obtain ⟨sl, hsl⟩ : ∃ sl : List UInt8,
      sl = (w.raw_data.drop (s * 4)).take ((e - s) * 4) := ⟨_, rfl⟩
  have hslice : sl.length = (e - s) * 4 := by
    rw [hsl]
    simp only [List.length_take, List.length_drop]
    omega
  obtain ⟨w1, hw1⟩ : ∃ w1 : waveFileStruct, w1 = { w with
      fileSize := w.fileSize - ((s : Int) * 4 + (toInt32 w.subChunk3Size - (e : Int) * 4)),
      subChunk3Size := (((e - s) * 4 : Nat) : Int) } := ⟨_, rfl⟩
  rw [← hsl, ← hw1] at hwrite
  have hsize : w1.subChunk3Size = (((e - s) * 4 : Nat) : Int) := by rw [hw1]
  have hrange : FieldsInRange w1 := by
    rw [hw1]
    exact ⟨hr1, hr2, hr3, hr4, hr5, hr6, hr7, hr8, hlo, hhi⟩
  obtain ⟨fs, st, hhead, hst⟩ := readHeader_headerBytes w1 hrange sl
    (by rw [hslice, hsize])
  have hne : (readHeader (headerBytes w1 ++ sl)).1.subChunk3Size ≠ 0 := by
    rw [hhead]
    show w1.subChunk3Size ≠ 0
    omega
  have hparse := readWaveData_rewrite_eq (headerBytes w1 ++ sl) hne
  rw [hhead] at hparse
  refine ⟨_, _, hwrite, hparse, hsize, ?_, ?_, ?_, ?_, ?_, ?_, ?_, ?_, ?_, ?_, ?_, ?_⟩
  · show w1.chunkID = w.chunkID
    rw [hw1]
  · show w1.format = w.format
    rw [hw1]
  · show w1.subChunk1ID = w.subChunk1ID
    rw [hw1]
  · show w1.subChunk1Size = w.subChunk1Size
    rw [hw1]
  · show w1.audioFormat = w.audioFormat
    rw [hw1]
  · show w1.numChannels = w.numChannels
    rw [hw1]
  · show w1.sampleRate = w.sampleRate
    rw [hw1]
  · show w1.byteRate = w.byteRate
    rw [hw1]
  · show w1.blockAlign = w.blockAlign
    rw [hw1]
  · show w1.bitsPerSample = w.bitsPerSample
    rw [hw1]
  · show w1.subChunk3ID = w.subChunk3ID
    rw [hw1]
  · intro htag
    have htag1 : w1.subChunk3ID ≠ fillerTag := by
      rw [hw1]
      exact htag
    have hst2 := hst htag1
    subst hst2
    rw [← hsl]
    show (IStream.read ⟨sl, true⟩ [] w1.subChunk3Size.toNat).1 = sl
    rw [hsize, Int.toNat_ofNat, read_good _ _ _ (by omega) (by simp)]
    exact List.take_of_length_le (by omega)

/-- Witness for C11: the second stereo frame of the example container is written and
parsed again. -/
theorem writeWaveFile_roundtrip_witness :
    readWaveData (some (exampleFixedFields ++ exampleDataSubchunk)) false
      = ReadResult.ok exampleRaw ∧
    (exampleRaw.raw_data.length : Int) = exampleRaw.subChunk3Size ∧
    exampleRaw.subChunk3Size < 2147483648 ∧ 1 < 2 ∧
    ((2 : Nat) : Int) * 4 ≤ exampleRaw.subChunk3Size ∧ 4 ≤ "out.wav".length ∧
    ∃ (r : WriteResult) (w2 : waveFileStruct),
      writeWaveFile "out.wav" exampleRaw [((1 : Nat) : Int), ((2 : Nat) : Int)] = some r ∧
      readWaveData (some r.contents) false = ReadResult.ok w2 ∧
      w2.subChunk3Size = (((2 - 1) * 4 : Nat) : Int) ∧
      w2.chunkID = exampleRaw.chunkID ∧ w2.format = exampleRaw.format ∧
      w2.subChunk1ID = exampleRaw.subChunk1ID ∧
      w2.subChunk1Size = exampleRaw.subChunk1Size ∧
      w2.audioFormat = exampleRaw.audioFormat ∧
      w2.numChannels = exampleRaw.numChannels ∧ w2.sampleRate = exampleRaw.sampleRate ∧
      w2.byteRate = exampleRaw.byteRate ∧ w2.blockAlign = exampleRaw.blockAlign ∧
      w2.bitsPerSample = exampleRaw.bitsPerSample ∧
      w2.subChunk3ID = exampleRaw.subChunk3ID ∧
      (exampleRaw.subChunk3ID ≠ fillerTag →
        w2.raw_data = (exampleRaw.raw_data.drop (1 * 4)).take ((2 - 1) * 4)) :=
  ⟨by decide, by decide, by decide, by decide, by decide, by decide,
    writeWaveFile_roundtrip (exampleFixedFields ++ exampleDataSubchunk) exampleRaw "out.wav"
      1 2 (by decide) (by decide) (by decide) (by decide) (by decide) (by decide)⟩

/-! ## The file size written -/

/-- C12: with a filler subchunk the file size written is eight bytes too large.  The
container `fillerContainer` declares the file size 55 and 55 bytes follow the field; read in
rewrite mode, the filler's three bytes are taken off (52), not the eight bytes of its tag
and size; the file written for the window `[1, 2)` declares 48 where 40 bytes, that is
`36 + (2 - 1) * 4`, follow the field.  Without the filler subchunk (the example container,
which declares 44) the file written declares 40. -/
theorem writeWaveFile_fileSize_filler :
    leValue ((fillerContainer.drop 4).take 4) = 55 ∧ fillerContainer.length - 8 = 55 ∧
    readWaveData (some fillerContainer) false
      = ReadResult.ok { exampleRaw with fileSize := 52 } ∧
    writtenSizes { exampleRaw with fileSize := 52 } [1, 2] = some (48, 40) ∧
    leValue (((exampleFixedFields ++ exampleDataSubchunk).drop 4).take 4) = 44 ∧
    (exampleFixedFields ++ exampleDataSubchunk).length - 8 = 44 ∧
    readWaveData (some (exampleFixedFields ++ exampleDataSubchunk)) false
      = ReadResult.ok exampleRaw ∧
    writtenSizes exampleRaw [1, 2] = some (40, 40) := by
  decide

/-! ## No check of the format -/

theorem read_keeps_good (s : IStream) (buf : List UInt8) (n : Nat)
    (h : (s.read buf n).2.good = true) :
    s.good = true ∧ (s.read buf n).2.rest.length + n = s.rest.length := by
  unfold IStream.read at h ⊢
  by_cases hg : s.good = true
  · simp only [hg, if_true] at h ⊢
    have hl : (s.rest.take n).length = n := of_decide_eq_true h
    simp only [List.length_take] at hl
    simp only [List.length_drop, true_and]
    omega
  · simp only [hg] at h ⊢
    exact absurd h hg

theorem read_at_end (s : IStream) (buf : List UInt8) (n : Nat) (hn : 0 < n)
    (h : s.good = true → s.rest = []) :
    (s.read buf n).1 = buf ∧ (s.read buf n).2.good = false := by
  unfold IStream.read
  by_cases hg : s.good = true
  · have hr := h hg
    simp only [hg, if_true, hr, List.take_nil, List.length_nil, List.drop_zero, List.nil_append,
      true_and]
    exact decide_eq_false (by omega)
  · have hf : s.good = false := by simpa using hg
    simp [hf]

theorem seekForward_failed (s : IStream) (k : Nat) (h : s.good = false) :
    s.seekForward k = s := by
  simp [IStream.seekForward, h]

theorem readFixedFields_stream (bytes : List UInt8)
    (h : (readFixedFields ⟨bytes, true⟩).2.good = true) :
    (readFixedFields ⟨bytes, true⟩).2.rest.length + 36 = bytes.length := by
  simp only [readFixedFields] at h ⊢
  obtain ⟨h11, e11⟩ := read_keeps_good _ _ _ h
  obtain ⟨h10, e10⟩ := read_keeps_good _ _ _ h11
  obtain ⟨h9, e9⟩ := read_keeps_good _ _ _ h10
  obtain ⟨h8, e8⟩ := read_keeps_good _ _ _ h9
  obtain ⟨h7, e7⟩ := read_keeps_good _ _ _ h8
  obtain ⟨h6, e6⟩ := read_keeps_good _ _ _ h7
  obtain ⟨h5, e5⟩ := read_keeps_good _ _ _ h6
  obtain ⟨h4, e4⟩ := read_keeps_good _ _ _ h5
  obtain ⟨h3, e3⟩ := read_keeps_good _ _ _ h4
  obtain ⟨h2, e2⟩ := read_keeps_good _ _ _ h3
  obtain ⟨h1, e1⟩ := read_keeps_good _ _ _ h2
  simp only at e1
  omega

theorem readDataSubchunk_short (w : waveFileStruct) (s : IStream)
    (h : s.good = true → s.rest.length ≤ 4) :
    (readDataSubchunk w s).1.subChunk3Size = 0 := by
  have hs1 : (s.read zero4 4).2.good = true → (s.read zero4 4).2.rest = [] := by
    intro hg
    obtain ⟨g0, e0⟩ := read_keeps_good _ _ _ hg
    have := h g0
    exact List.length_eq_zero.mp (by omega)
  obtain ⟨b2, g2⟩ := read_at_end (s.read zero4 4).2 zero4 4 (by decide) hs1
  have hz : leValue zero4 = 0 := by decide
  simp only [readDataSubchunk]
  split
  · have hseek := seekForward_failed _ (leValue (((s.read zero4 4).2.read zero4 4).1)) g2
    obtain ⟨b3, g3⟩ := read_at_end ((s.read zero4 4).2.read zero4 4).2 (s.read zero4 4).1 4
      (by decide) (by rw [g2]; intro hc; exact absurd hc (by decide))
    obtain ⟨b4, -⟩ := read_at_end
      ((((s.read zero4 4).2.read zero4 4).2.read (s.read zero4 4).1 4).2)
      ((s.read zero4 4).2.read zero4 4).1 4 (by decide)
      (by rw [g3]; intro hc; exact absurd hc (by decide))
    simp only
    rw [hseek, b4, b2, hz]
    rfl
  · simp only
    rw [b2, hz]
    rfl

theorem readHeader_short (bytes : List UInt8) (h : bytes.length ≤ 40) :
    (readHeader bytes).1.subChunk3Size = 0 := by
  simp only [readHeader]
  apply readDataSubchunk_short
  intro hg
  have := readFixedFields_stream bytes hg
  omega

theorem trim_status (bytes : List UInt8) (outputFileName : String) (r : TrimResult)
    (h : trim (some bytes) outputFileName = some r) (hs : r.status ≠ 0) :
    readWaveData (some bytes) true = ReadResult.noData ∧ r = { status := 1, output := none } := by
  simp only [trim] at h
  split at h
  · rename_i hnd
    injection h with h
    exact ⟨hnd, h.symm⟩
  · exact Option.noConfusion h
  · split at h
    · exact Option.noConfusion h
    · split at h
      · exact Option.noConfusion h
      · split at h
        · split at h
          · exact Option.noConfusion h
          · injection h with h
            rw [← h] at hs
            exact absurd rfl hs
        · exact Option.noConfusion h

/-- C20: `readWaveData` has no check of the format: the only input it rejects is one whose
data-subchunk size, as it holds it after the reads of the header, is 0, and it does so with
the no-data exception.  That is the case of every input of at most 40 bytes, on which
`trim` returns 1 and writes no file; and whenever `trim` returns a non-zero status, it is 1,
no file is written and the first read has thrown the no-data exception. -/
theorem readWaveData_no_format_check (bytes : List UInt8) (initial_read : Bool)
    (outputFileName : String) :
    (readWaveData (some bytes) initial_read = ReadResult.noData ↔
      (readHeader bytes).1.subChunk3Size = 0) ∧
    (bytes.length ≤ 40 →
      readWaveData (some bytes) initial_read = ReadResult.noData ∧
      trim (some bytes) outputFileName = some { status := 1, output := none }) ∧
    (∀ r : TrimResult, trim (some bytes) outputFileName = some r → r.status ≠ 0 →
      readWaveData (some bytes) true = ReadResult.noData ∧
      r = { status := 1, output := none }) := by
  refine ⟨readWaveData_noData_iff_header bytes initial_read, fun h => ⟨?_, ?_⟩,
    fun r hr hs => trim_status bytes outputFileName r hr hs⟩
  · exact (readWaveData_noData_iff_header bytes initial_read).mpr (readHeader_short bytes h)
  · have hnd := (readWaveData_noData_iff_header bytes true).mpr (readHeader_short bytes h)
    simp only [trim, hnd]

/-- Witness for C20: an input of twelve bytes, `RIFF`, a size and `WAVE`, is rejected with
the no-data exception. -/
theorem readWaveData_no_format_check_witness :
    ([82, 73, 70, 70, 4, 0, 0, 0, 87, 65, 86, 69] : List UInt8).length ≤ 40 ∧
    readWaveData (some [82, 73, 70, 70, 4, 0, 0, 0, 87, 65, 86, 69]) true
      = ReadResult.noData ∧
    trim (some [82, 73, 70, 70, 4, 0, 0, 0, 87, 65, 86, 69]) "out.wav"
      = some { status := 1, output := none } :=
  ⟨by decide,
    (readWaveData_no_format_check [82, 73, 70, 70, 4, 0, 0, 0, 87, 65, 86, 69] true
      "out.wav").2.1 (by decide)⟩

/-! ## A run of `trim` -/

theorem parseLoop_zeros (n : Nat) :
    ∀ (fuel i : Nat), n - i < 2 * fuel - 1 →
      parseLoop (List.replicate (2 * n) 0) n fuel i
        = some (List.replicate ((n - i + 1) / 2) 0) := by
  intro fuel
  induction fuel with
  | zero =>
    intro i h
    omega
  | succ fuel ih =>
    intro i h
    by_cases hlt : i < n
    · have h0 : (List.replicate (2 * n) (0 : UInt8))[2 * i]? = some 0 := by
        rw [List.getElem?_replicate]
        simp
        omega
      have h1 : (List.replicate (2 * n) (0 : UInt8))[2 * i + 1]? = some 0 := by
        rw [List.getElem?_replicate]
        simp
        omega
      have hz : toInt16 ((0 : UInt8).toNat + 256 * (0 : UInt8).toNat) = 0 := by decide
      have hcount : (n - i + 1) / 2 = (n - (i + 2) + 1) / 2 + 1 := by omega
      simp only [parseLoop, hlt, if_true, h0, h1, ih (i + 2) (by omega), hz, hcount,
        List.replicate_succ]
    · have hcount : (n - i + 1) / 2 = 0 := by omega
      simp [parseLoop, hlt, hcount]

theorem readWaveData_analysis_eq (bytes : List UInt8) (w0 : waveFileStruct)
    (P : List UInt8) (n : Nat) (data : List Int)
    (hh : readHeader bytes = (w0, ⟨P, true⟩))
    (hsz : w0.subChunk3Size = ((2 * n : Nat) : Int)) (hn : 0 < n)
    (hlt : 2 * n < 2147483648) (hP : 2 * n ≤ P.length)
    (hd : parseLoop (P.take (2 * n)) n (n + 1) 0 = some data) :
    readWaveData (some bytes) true = ReadResult.ok { w0 with data := data } := by
  have htake : (P.take (2 * n)).length = 2 * n := by
    simp only [List.length_take]
    omega
  simp only [readWaveData, hh]
  rw [hsz]
  have h0 : ¬ (((2 * n : Nat) : Int) = 0) := by omega
  have h32 : toInt32 ((2 * n : Nat) : Int) = ((2 * n : Nat) : Int) := by
    simp only [toInt32]
    omega
  have hdiv : Int.tdiv ((2 * n : Nat) : Int) 2 = (n : Int) := by
    have e : ((2 * n : Nat) : Int) = 2 * (n : Int) := by push_cast; rfl
    rw [e]
    exact Int.mul_tdiv_cancel_left _ (by decide)
  have hneg : ¬ ((n : Int) < 0) := by omega
  have hread : IStream.read ⟨P, true⟩ [] (2 * n)
      = (P.take (2 * n), ⟨P.drop (2 * n), true⟩) :=
    read_good _ _ _ hP (by simp)
  have hfits : ¬ (2 * n < (P.take (2 * n)).length) := by omega
  rw [if_neg h0, if_pos trivial, h32, hdiv, if_neg hneg, Int.toNat_ofNat, Int.toNat_ofNat, hread]
  simp only
  rw [if_neg hfits, hd]

theorem readHeader_float (P : List UInt8) :
    readHeader (floatFixedFields ++ ([100, 97, 116, 97] ++ ([0, 32, 0, 0] ++ P)))
      = (floatHeader, ⟨P, true⟩) := by
  have hfix : (readFixedFields ⟨floatFixedFields, true⟩).1
      = { floatHeader with subChunk3ID := zero4, subChunk3Size := 0 } := by decide
  have hsz : leValue [0, 32, 0, 0] = 8192 := by decide
  rw [readHeader_append _ _ (by decide),
    readDataSubchunk_plain_append _ _ _ _ (by decide) (by decide) (by decide), hfix, hsz]
  rfl

theorem getTrimmingPoints_two_chunks :
    getTrimmingPoints [0, 0] defaultThreshold = some [((0 : Nat) : Int), ((2048 : Nat) : Int)] := by
  decide

set_option maxRecDepth 1000000 in
theorem constructAmpData_two_chunks :
    constructAmpData (List.replicate 2048 0) 1024 = some [0, 0] := by
  decide!

theorem trim_eq (input : Option (List UInt8)) (outputFileName : String)
    (waveFile toBeTrimmed : waveFileStruct) (rawAmpData : List Int) (pts : List Int)
    (written : WriteResult) (h1 : readWaveData input true = ReadResult.ok waveFile)
    (h2 : constructAmpData waveFile.data 1024 = some rawAmpData)
    (h3 : getTrimmingPoints rawAmpData defaultThreshold = some pts)
    (h4 : readWaveData input false = ReadResult.ok toBeTrimmed)
    (h5 : writeWaveFile outputFileName toBeTrimmed pts = some written) :
    trim input outputFileName
      = some { status := 0, output := some (written.wavename, written.contents) } := by
  simp only [trim, h1, h2, h3, h4, h5]

theorem trim_float (P : List UInt8) (hP : P = List.replicate (2 * 4096) 0) :
    trim (some (floatFixedFields ++ ([100, 97, 116, 97] ++ ([0, 32, 0, 0] ++ P)))) "out.wav"
      = some { status := 0,
               output := some ("out-trimmed.wav",
                 floatFixedFields ++ ([100, 97, 116, 97] ++ ([0, 32, 0, 0] ++ P))) } := by
  have hlen : P.length = 8192 := by
    rw [hP, List.length_replicate]
  have hh := readHeader_float P
  have hparse : parseLoop (P.take (2 * 4096)) 4096 (4096 + 1) 0
      = some (List.replicate 2048 0) := by
    rw [List.take_of_length_le (by omega), hP]
    exact parseLoop_zeros 4096 (4096 + 1) 0 (by omega)
  have h2 := readWaveData_analysis_eq _ floatHeader P 4096 _ hh rfl (by omega) (by omega)
    (by omega) hparse
  have hne : (readHeader (floatFixedFields
      ++ ([100, 97, 116, 97] ++ ([0, 32, 0, 0] ++ P)))).1.subChunk3Size ≠ 0 := by
    rw [hh]
    show floatHeader.subChunk3Size ≠ 0
    decide
  have h5 := readWaveData_rewrite_eq _ hne
  rw [hh] at h5
  have hread : (IStream.read ⟨P, true⟩ [] floatHeader.subChunk3Size.toNat).1 = P := by
    have e : floatHeader.subChunk3Size.toNat = 8192 := by decide
    rw [e, read_good _ _ _ (by omega) (by simp)]
    exact List.take_of_length_le (by omega)
  simp only [hread] at h5
  have h6 := writeWaveFile_eq { floatHeader with raw_data := P } "out.wav" 0 2048
    (by show 2048 * 4 ≤ P.length; omega) (by omega) (by decide)
  have hname : String.mk (("out.wav".data.take ("out.wav".length - 4)).takeWhile
      (fun ch => ch ≠ Char.ofNat 0)) ++ "-trimmed.wav" = "out-trimmed.wav" := by decide
  have hslice : (P.drop (0 * 4)).take ((2048 - 0) * 4) = P := by
    rw [Nat.zero_mul, List.drop_zero]
    exact List.take_of_length_le (by omega)
  have hhead : headerBytes { floatHeader with
      fileSize := floatHeader.fileSize
        - (((0 : Nat) : Int) * 4 + (toInt32 floatHeader.subChunk3Size - ((2048 : Nat) : Int) * 4)),
      subChunk3Size := (((2048 - 0) * 4 : Nat) : Int) }
      = floatFixedFields ++ ([100, 97, 116, 97] ++ [0, 32, 0, 0]) := by decide
  have hhead2 : headerBytes { ({ floatHeader with raw_data := P } : waveFileStruct) with
      fileSize := floatHeader.fileSize
        - (((0 : Nat) : Int) * 4 + (toInt32 floatHeader.subChunk3Size - ((2048 : Nat) : Int) * 4)),
      subChunk3Size := (((2048 - 0) * 4 : Nat) : Int) }
      = floatFixedFields ++ ([100, 97, 116, 97] ++ [0, 32, 0, 0]) := hhead
  rw [hname, hslice, hhead2] at h6
  have key := trim_eq _ "out.wav" _ _ _ _ _ h2 constructAmpData_two_chunks
    getTrimmingPoints_two_chunks h5 h6
  rw [key]
  simp only [List.append_assoc]

/-- C20: a counterexample.  The container `floatContainer`, whose audio format code is 3, is
not rejected: `trim` returns 0 and writes a file, with the same bytes as the input; and an
input of 42 bytes, cut in the middle of the size of its data subchunk, is parsed in rewrite
mode to a struct with the data size 8. -/
theorem trim_accepts_float_format :
    (readHeader floatContainer).1.audioFormat = 3 ∧
    trim (some floatContainer) "out.wav"
      = some { status := 0, output := some ("out-trimmed.wav", floatContainer) } ∧
    (exampleFixedFields ++ [100, 97, 116, 97, 8, 0]).length = 42 ∧
    readWaveData (some (exampleFixedFields ++ [100, 97, 116, 97, 8, 0])) false
      = ReadResult.ok { exampleHeader with subChunk3Size := 8 } := by
  refine ⟨?_, trim_float _ rfl, by decide, by decide⟩
  rw [floatContainer, readHeader_float]
  rfl

/-! ## The name of the file written -/

theorem max?_getD_of_ne_nil (l : List Int) (h : l ≠ []) : l.max? = some (l.max?.getD 0) := by
  cases hm : l.max? with
  | none => exact absurd (List.max?_eq_none_iff.mp hm) h
  | some v => rfl

theorem maxElement_chunk (data : List Int) (c j : Nat) (hc : 1 ≤ c)
    (hj : (j + 1) * c ≤ data.length) :
    maxElement data (j * c) ((j + 1) * c) = some (chunkMaximum data c j) := by
  have e1 : (j + 1) * c = j * c + c := by rw [Nat.add_mul, Nat.one_mul]
  have h1 : ¬ (data.length < (j + 1) * c) := by omega
  have h2 : j * c < (j + 1) * c := by omega
  have h3 : (j + 1) * c - j * c = c := by omega
  have hne : (data.drop (j * c)).take c ≠ [] := by
    intro h
    have := congrArg List.length h
    simp only [List.length_take, List.length_drop, List.length_nil] at this
    omega
  simp only [maxElement, h1, if_false, h2, if_true, h3, chunkMaximum]
  exact max?_getD_of_ne_nil _ hne

theorem maxElement_tail (data : List Int) (c q : Nat) (hlt : q * c < data.length)
    (hq : data.length < q * c + c) :
    maxElement data (q * c) data.length = some (chunkMaximum data c q) := by
  have h1 : ¬ (data.length < data.length) := by omega
  have ht1 : (data.drop (q * c)).take (data.length - q * c) = data.drop (q * c) :=
    List.take_of_length_le (by simp)
  have ht2 : (data.drop (q * c)).take c = data.drop (q * c) :=
    List.take_of_length_le (by simp only [List.length_drop]; omega)
  have hne : data.drop (q * c) ≠ [] := by
    intro h
    have := congrArg List.length h
    simp only [List.length_drop, List.length_nil] at this
    omega
  simp only [maxElement, h1, if_false, hlt, if_true, ht1, chunkMaximum, ht2]
  exact max?_getD_of_ne_nil _ hne

theorem constructAmpLoop_spec (data : List Int) (c q : Nat) (hc : 1 ≤ c)
    (hq : q * c ≤ data.length) :
    ∀ (d fuel j : Nat) (ampData : List Int), j + 1 + (d + 1) = q → d + 2 ≤ fuel →
      constructAmpLoop data c (q * c) fuel (j * c) ((j + 1) * c) ampData
        = some (ampData ++ (List.range' j (d + 2)).map (chunkMaximum data c), q * c) := by
  intro d
  induction d with
  | zero =>
    intro fuel j ampData hj hf
    obtain ⟨f, rfl⟩ : ∃ f, fuel = f + 2 := ⟨fuel - 2, by omega⟩
    have hq2 : q = j + 2 := by omega
    subst hq2
    have hne : ¬ ((j + 1) * c = (j + 2) * c) := by
      intro h
      have := Nat.eq_of_mul_eq_mul_right (by omega : 0 < c) h
      omega
    have hnext : (j + 1) * c + c = (j + 2) * c := by
      rw [Nat.add_mul j 2 c, Nat.add_mul j 1 c]
      omega
    have hm1 := maxElement_chunk data c j hc (by
      have : (j + 1) * c ≤ (j + 2) * c := Nat.mul_le_mul_right c (by omega)
      omega)
    have hm2 := maxElement_chunk data c (j + 1) hc hq
    simp only [constructAmpLoop, hne, if_false, hm1, hnext, if_true, hm2]
    simp [List.range'_succ]
  | succ d ih =>
    intro fuel j ampData hj hf
    obtain ⟨f, rfl⟩ : ∃ f, fuel = f + 1 := ⟨fuel - 1, by omega⟩
    have hlt1 : (j + 1) * c < q * c := Nat.mul_lt_mul_of_pos_right (by omega) (by omega)
    have hlt2 : (j + 2) * c < q * c := Nat.mul_lt_mul_of_pos_right (by omega) (by omega)
    have hne : ¬ ((j + 1) * c = q * c) := by omega
    have hnext : (j + 1) * c + c = (j + 1 + 1) * c := by
      rw [Nat.add_mul (j + 1) 1 c]
      omega
    have hne2 : ¬ ((j + 1 + 1) * c = q * c) := by
      have : (j + 1 + 1) * c = (j + 2) * c := rfl
      omega
    have hm1 := maxElement_chunk data c j hc (by omega)
    simp only [constructAmpLoop, hne, if_false, hm1, hnext, hne2]
    rw [ih f (j + 1) (ampData ++ [chunkMaximum data c j]) (by omega) (by omega)]
    simp [List.range'_succ]

theorem max?_spec (l : List Int) (h : l ≠ []) :
    l.max? = some (l.max?.getD 0) ∧ l.max?.getD 0 ∈ l ∧ ∀ x ∈ l, x ≤ l.max?.getD 0 := by
  have hm := max?_getD_of_ne_nil l h
  haveI : Std.Antisymm (fun (x1 x2 : Int) => x1 ≤ x2) :=
    ⟨fun h1 h2 => le_antisymm h1 h2⟩
  have := (List.max?_eq_some_iff (fun a => le_refl a) (fun a b => max_choice a b)
    (fun a b c => max_le_iff)).mp hm
  exact ⟨hm, this.1, this.2⟩

theorem chunk_count (n c : Nat) (hc : 1 ≤ c) :
    (n + c - 1) / c = n / c + (if c * (n / c) ≠ n then 1 else 0) := by
  have hdm := Nat.div_add_mod n c
  have hmod : n % c < c := Nat.mod_lt n (by omega)
  by_cases h : c * (n / c) = n
  · simp only [h, ne_eq, not_true_eq_false, if_false, Nat.add_zero]
    apply Nat.div_eq_of_lt_le
    · rw [Nat.mul_comm]
      omega
    · rw [Nat.add_mul, Nat.one_mul, Nat.mul_comm]
      omega
  · simp only [ne_eq, h, not_false_eq_true, if_true]
    apply Nat.div_eq_of_lt_le
    · rw [Nat.add_mul, Nat.one_mul, Nat.mul_comm]
      omega
    · rw [Nat.add_mul, Nat.add_mul, Nat.one_mul, Nat.mul_comm]
      omega

/-- C21: for a chunk size `c ≥ 1` and `n ≥ 2 * c` samples, `constructAmpData` returns the
list of `(n + c - 1) / c` entries, that is `ceil (n / c)`, whose entry `k` is the maximum of
the samples `k * c .. min ((k + 1) * c) n`: one entry for each of the `n / c` complete
chunks, in order, and one more for the trailing partial chunk exactly when `c` does not
divide `n`.  Each of these ranges holds a sample, and the entry is one of its samples and
at least every one of them. -/
theorem constructAmpData_spec (data : List Int) (c : Nat) (hc : 1 ≤ c)
    (hn : 2 * c ≤ data.length) :
    constructAmpData data (c : Int)
      = some ((List.range ((data.length + c - 1) / c)).map (chunkMaximum data c)) ∧
    (data.length + c - 1) / c
      = data.length / c + (if c * (data.length / c) ≠ data.length then 1 else 0) ∧
    ∀ k : Nat, k < (data.length + c - 1) / c →
      (data.drop (k * c)).take c ≠ [] ∧
      chunkMaximum data c k ∈ (data.drop (k * c)).take c ∧
      ∀ x ∈ (data.drop (k * c)).take c, x ≤ chunkMaximum data c k := by
  have hcount := chunk_count data.length c hc
  have hdm := Nat.div_add_mod data.length c
  have hmod : data.length % c < c := Nat.mod_lt _ (by omega)
  have hq2 : 2 ≤ data.length / c := by
    rw [Nat.le_div_iff_mul_le (by omega)]
    exact hn
  have hqc : data.length / c * c ≤ data.length := Nat.div_mul_le_self _ _
  refine ⟨?_, hcount, ?_⟩
  · have hpos : ¬ ((c : Int) ≤ 0) := by omega
    have hloop := constructAmpLoop_spec data c (data.length / c) hc hqc
      (data.length / c - 2) (data.length + 1) 0 [] (by omega)
      (by
        have : data.length / c ≤ data.length := Nat.div_le_self _ _
        omega)
    have hd2 : data.length / c - 2 + 2 = data.length / c := by omega
    rw [Nat.zero_mul, Nat.zero_add, Nat.one_mul, hd2, List.nil_append,
      ← List.range_eq_range'] at hloop
    simp only [constructAmpData, constructAmpDataFuel, hpos, if_false, Int.toNat_ofNat, hloop]
    by_cases h : c * (data.length / c) = data.length
    · rw [hcount]
      simp only [h, ne_eq, not_true_eq_false, if_false, Nat.add_zero]
    · have htail := maxElement_tail data c (data.length / c)
        (by rw [Nat.mul_comm]; omega) (by rw [Nat.mul_comm]; omega)
      rw [hcount]
      simp only [ne_eq, h, not_false_eq_true, if_true, htail, List.range_succ, List.map_append,
        List.map_cons, List.map_nil]
  · intro k hk
    have hkn : k * c < data.length := by
      rw [hcount] at hk
      by_cases h : c * (data.length / c) = data.length
      · simp only [h, ne_eq, not_true_eq_false, if_false, Nat.add_zero] at hk
        have : (k + 1) * c ≤ data.length / c * c := Nat.mul_le_mul_right c hk
        rw [Nat.add_mul, Nat.one_mul] at this
        omega
      · simp only [ne_eq, h, not_false_eq_true, if_true] at hk
        have : k * c ≤ data.length / c * c := Nat.mul_le_mul_right c (by omega)
        have h2 : data.length / c * c ≠ data.length := by
          rw [Nat.mul_comm]
          exact h
        omega
    have hne : (data.drop (k * c)).take c ≠ [] := by
      intro h
      have := congrArg List.length h
      simp only [List.length_take, List.length_drop, List.length_nil] at this
      omega
    have := max?_spec _ hne
    exact ⟨hne, this.2.1, this.2.2⟩

/-- Witness for C21: five samples in chunks of two. -/
theorem constructAmpData_spec_witness :
    1 ≤ 2 ∧ 2 * 2 ≤ ([3, 9, 4, 1, 7] : List Int).length ∧
    constructAmpData [3, 9, 4, 1, 7] ((2 : Nat) : Int) = some [9, 4, 7] ∧
    constructAmpData [3, 9, 4, 1, 7] ((2 : Nat) : Int)
      = some ((List.range ((([3, 9, 4, 1, 7] : List Int).length + 2 - 1) / 2)).map
          (chunkMaximum [3, 9, 4, 1, 7] 2)) :=
  ⟨by decide, by decide, by decide,
    (constructAmpData_spec [3, 9, 4, 1, 7] 2 (by decide) (by decide)).1⟩

/-! ## The rounding error of the floating-point operations -/

theorem bitLenAux_bounds :
    ∀ (fuel n : Nat), n ≤ fuel → 0 < n →
      2 ^ (bitLenAux fuel n - 1) ≤ n ∧ n < 2 ^ bitLenAux fuel n ∧ 1 ≤ bitLenAux fuel n := by
  intro fuel
  induction fuel with
  | zero =>
    intro n h0 h1
    omega
  | succ fuel ih =>
    intro n hle hpos
    have hne : ¬ (n = 0) := by omega
    simp only [bitLenAux, hne, if_false, Nat.add_sub_cancel]
    by_cases h2 : n / 2 = 0
    · have hn1 : n = 1 := by omega
      subst hn1
      cases fuel with
      | zero => simp [bitLenAux]
      | succ f => simp [bitLenAux]
    · obtain ⟨ha, hb, hc⟩ := ih (n / 2) (by omega) (by omega)
      obtain ⟨a, hae⟩ : ∃ a, bitLenAux fuel (n / 2) = a + 1 :=
        ⟨bitLenAux fuel (n / 2) - 1, by omega⟩
      rw [hae] at ha hb ⊢
      simp only [Nat.add_sub_cancel] at ha
      rw [pow_succ] at hb ⊢
      rw [pow_succ]
      refine ⟨by omega, by omega, by omega⟩

theorem bitLen_bounds (n : Nat) (h : 0 < n) :
    2 ^ (bitLen n - 1) ≤ n ∧ n < 2 ^ bitLen n ∧ 1 ≤ bitLen n :=
  bitLenAux_bounds n n (le_refl n) h

theorem divRoundEven_near (a b : Nat) (hb : 0 < b) :
    2 * b * divRoundEven a b ≤ 2 * a + b ∧ 2 * a ≤ 2 * b * divRoundEven a b + b := by
  have hdm := Nat.div_add_mod a b
  have hmod : a % b < b := Nat.mod_lt a hb
  have e1 : 2 * b * (a / b) = 2 * (b * (a / b)) := by ring
  have e2 : 2 * b * (a / b + 1) = 2 * (b * (a / b)) + 2 * b := by ring
  unfold divRoundEven
  simp only
  split
  · rw [e1]
    omega
  · split
    · rw [e2]
      omega
    · split
      · rw [e1]
        omega
      · rw [e2]
        omega

theorem roundAt_near (P n d : Nat) (e : Int) (hd : 0 < d)
    (hlg : (2 : ℚ) ^ (e + (P : Int)) ≤ (n : ℚ) / (d : ℚ)) :
    0 < (if 0 ≤ e then (divRoundEven n (d * 2 ^ e.toNat) * 2 ^ e.toNat, 1)
        else (divRoundEven (n * 2 ^ (-e).toNat) d, 2 ^ (-e).toNat)).2 ∧
    |(((if 0 ≤ e then (divRoundEven n (d * 2 ^ e.toNat) * 2 ^ e.toNat, 1)
        else (divRoundEven (n * 2 ^ (-e).toNat) d, 2 ^ (-e).toNat)).1 : Nat) : ℚ)
      / (((if 0 ≤ e then (divRoundEven n (d * 2 ^ e.toNat) * 2 ^ e.toNat, 1)
        else (divRoundEven (n * 2 ^ (-e).toNat) d, 2 ^ (-e).toNat)).2 : Nat) : ℚ)
      - (n : ℚ) / (d : ℚ)| ≤ (n : ℚ) / (d : ℚ) / 2 ^ (P + 1) := by
  have hdq : (0 : ℚ) < (d : ℚ) := by exact_mod_cast hd
  have h2 : (2 : ℚ) ≠ 0 := by norm_num
  have hP : (0 : ℚ) < 2 ^ P := by positivity
  obtain ⟨x, hx⟩ : ∃ x : ℚ, x = (n : ℚ) / (d : ℚ) := ⟨_, rfl⟩
  have hn : (n : ℚ) = x * d := by
    rw [hx]
    field_simp
  rw [← hx] at hlg ⊢
  rw [zpow_add₀ h2, zpow_natCast] at hlg
  by_cases he : 0 ≤ e
  · simp only [he, if_true]
    obtain ⟨E, hE⟩ : ∃ E : Nat, e = (E : Int) := ⟨e.toNat, (Int.toNat_of_nonneg he).symm⟩
    subst hE
    rw [zpow_natCast] at hlg
    simp only [Int.toNat_ofNat]
    have hS : (0 : ℚ) < 2 ^ E := by positivity
    obtain ⟨h1, h2'⟩ := divRoundEven_near n (d * 2 ^ E) (by positivity)
    have q1 : (2 : ℚ) * ((d : ℚ) * 2 ^ E) * (divRoundEven n (d * 2 ^ E) : ℚ)
        ≤ 2 * (n : ℚ) + (d : ℚ) * 2 ^ E := by exact_mod_cast h1
    have q2 : (2 : ℚ) * (n : ℚ)
        ≤ 2 * ((d : ℚ) * 2 ^ E) * (divRoundEven n (d * 2 ^ E) : ℚ) + (d : ℚ) * 2 ^ E := by
      exact_mod_cast h2'
    refine ⟨by norm_num, ?_⟩
    push_cast
    generalize (divRoundEven n (d * 2 ^ E) : ℚ) = D at q1 q2 ⊢
    rw [hn] at q1 q2
    have r1 : 2 * (2 ^ E * D) ≤ 2 * x + 2 ^ E := by
      have : (d : ℚ) * (2 * (2 ^ E * D)) ≤ (d : ℚ) * (2 * x + 2 ^ E) := by linarith
      exact le_of_mul_le_mul_left this hdq
    have r2 : 2 * x ≤ 2 * (2 ^ E * D) + 2 ^ E := by
      have : (d : ℚ) * (2 * x) ≤ (d : ℚ) * (2 * (2 ^ E * D) + 2 ^ E) := by linarith
      exact le_of_mul_le_mul_left this hdq
    have hb : (2 : ℚ) ^ E / 2 ≤ x / 2 ^ (P + 1) := by
      rw [div_le_div_iff₀ (by norm_num) (by positivity), pow_succ]
      linarith
    rw [div_one, abs_le]
    constructor <;> linarith
  · simp only [he, if_false]
    obtain ⟨F, hF⟩ : ∃ F : Nat, e = -(F : Int) := ⟨(-e).toNat, by omega⟩
    subst hF
    rw [zpow_neg, zpow_natCast] at hlg
    simp only [neg_neg, Int.toNat_ofNat]
    have hT : (0 : ℚ) < 2 ^ F := by positivity
    obtain ⟨h1, h2'⟩ := divRoundEven_near (n * 2 ^ F) d hd
    have q1 : (2 : ℚ) * (d : ℚ) * (divRoundEven (n * 2 ^ F) d : ℚ)
        ≤ 2 * ((n : ℚ) * 2 ^ F) + (d : ℚ) := by exact_mod_cast h1
    have q2 : (2 : ℚ) * ((n : ℚ) * 2 ^ F)
        ≤ 2 * (d : ℚ) * (divRoundEven (n * 2 ^ F) d : ℚ) + (d : ℚ) := by
      exact_mod_cast h2'
    refine ⟨by positivity, ?_⟩
    push_cast
    generalize (divRoundEven (n * 2 ^ F) d : ℚ) = D at q1 q2 ⊢
    rw [hn] at q1 q2
    have r1 : 2 * D ≤ 2 * (x * 2 ^ F) + 1 := by
      have : (d : ℚ) * (2 * D) ≤ (d : ℚ) * (2 * (x * 2 ^ F) + 1) := by linarith
      exact le_of_mul_le_mul_left this hdq
    have r2 : 2 * (x * 2 ^ F) ≤ 2 * D + 1 := by
      have : (d : ℚ) * (2 * (x * 2 ^ F)) ≤ (d : ℚ) * (2 * D + 1) := by linarith
      exact le_of_mul_le_mul_left this hdq
    have hb : (1 : ℚ) / (2 * 2 ^ F) ≤ x / 2 ^ (P + 1) := by
      rw [div_le_div_iff₀ (by positivity) (by positivity), pow_succ]
      have : ((2 : ℚ) ^ F)⁻¹ * 2 ^ P * 2 ^ F ≤ x * 2 ^ F :=
        mul_le_mul_of_nonneg_right hlg (le_of_lt hT)
      have e1 : ((2 : ℚ) ^ F)⁻¹ * 2 ^ P * 2 ^ F = 2 ^ P := by
        field_simp
      rw [e1] at this
      linarith
    have d1 : D / 2 ^ F - x ≤ 1 / (2 * 2 ^ F) := by
      rw [div_sub' _ _ _ (ne_of_gt hT), div_le_div_iff₀ hT (by positivity)]
      nlinarith
    have d2 : x - D / 2 ^ F ≤ 1 / (2 * 2 ^ F) := by
      rw [sub_div' _ _ _ (ne_of_gt hT), div_le_div_iff₀ hT (by positivity)]
      nlinarith
    rw [abs_le]
    constructor <;> linarith

theorem log_floor_le (n d : Nat) (hn : 0 < n) (hd : 0 < d) :
    ((if 0 ≤ (bitLen n : Int) - (bitLen d : Int)
        then decide (d * 2 ^ ((bitLen n : Int) - (bitLen d : Int)).toNat ≤ n)
        else decide (d ≤ n * 2 ^ (-((bitLen n : Int) - (bitLen d : Int))).toNat)) = true →
      (2 : ℚ) ^ ((bitLen n : Int) - (bitLen d : Int)) ≤ (n : ℚ) / (d : ℚ)) ∧
    (2 : ℚ) ^ ((bitLen n : Int) - (bitLen d : Int) - 1) ≤ (n : ℚ) / (d : ℚ) := by
  have hdq : (0 : ℚ) < (d : ℚ) := by exact_mod_cast hd
  have hnq : (0 : ℚ) ≤ (n : ℚ) := by exact_mod_cast Nat.zero_le n
  have h2 : (2 : ℚ) ≠ 0 := by norm_num
  obtain ⟨bn1, bn2, bn3⟩ := bitLen_bounds n hn
  obtain ⟨bd1, bd2, bd3⟩ := bitLen_bounds d hd
  constructor
  · intro hat
    by_cases hk : 0 ≤ (bitLen n : Int) - (bitLen d : Int)
    · simp only [hk, if_true, decide_eq_true_eq] at hat
      obtain ⟨K, hK⟩ : ∃ K : Nat, (bitLen n : Int) - (bitLen d : Int) = (K : Int) :=
        ⟨_, (Int.toNat_of_nonneg hk).symm⟩
      rw [hK] at hat ⊢
      rw [Int.toNat_ofNat] at hat
      rw [zpow_natCast, le_div_iff₀ hdq]
      have : ((d * 2 ^ K : Nat) : ℚ) ≤ (n : ℚ) := by exact_mod_cast hat
      push_cast at this
      linarith
    · simp only [hk, if_false, decide_eq_true_eq] at hat
      obtain ⟨K, hK⟩ : ∃ K : Nat, (bitLen n : Int) - (bitLen d : Int) = -(K : Int) :=
        ⟨(-((bitLen n : Int) - (bitLen d : Int))).toNat, by omega⟩
      rw [hK] at hat ⊢
      rw [neg_neg, Int.toNat_ofNat] at hat
      have hq : ((d : Nat) : ℚ) ≤ ((n * 2 ^ K : Nat) : ℚ) := by exact_mod_cast hat
      push_cast at hq
      rw [zpow_neg, zpow_natCast, le_div_iff₀ hdq, inv_mul_le_iff₀ (by positivity)]
      linarith
  · obtain ⟨a, ha⟩ : ∃ a : Nat, bitLen n = a + 1 := ⟨bitLen n - 1, by omega⟩
    rw [ha] at bn1 bn2 ⊢
    simp only [Nat.add_sub_cancel] at bn1
    have e : ((a + 1 : Nat) : Int) - (bitLen d : Int) - 1 = (a : Int) - (bitLen d : Int) := by
      push_cast
      ring
    rw [e, zpow_sub₀ h2, zpow_natCast, zpow_natCast]
    have q1 : ((2 : ℚ) ^ a) ≤ (n : ℚ) := by exact_mod_cast bn1
    have q2 : (d : ℚ) ≤ (2 : ℚ) ^ bitLen d := by exact_mod_cast (le_of_lt bd2)
    exact div_le_div₀ hnq q1 hdq q2

theorem roundMag_near (P n d : Nat) (hn : 0 < n) (hd : 0 < d) :
    0 < (roundMag (P + 1) n d).2 ∧
    |((roundMag (P + 1) n d).1 : ℚ) / ((roundMag (P + 1) n d).2 : ℚ) - (n : ℚ) / (d : ℚ)|
      ≤ (n : ℚ) / (d : ℚ) / 2 ^ (P + 1) := by
  have hne : ¬ (n = 0 ∨ d = 0) := by omega
  obtain ⟨l1, l2⟩ := log_floor_le n d hn hd
  by_cases hat : (if 0 ≤ (bitLen n : Int) - (bitLen d : Int)
        then decide (d * 2 ^ ((bitLen n : Int) - (bitLen d : Int)).toNat ≤ n)
        else decide (d ≤ n * 2 ^ (-((bitLen n : Int) - (bitLen d : Int))).toNat)) = true
  · have hlg : (2 : ℚ) ^ ((bitLen n : Int) - (bitLen d : Int) - (((P + 1 : Nat) : Int) - 1)
        + (P : Int)) ≤ (n : ℚ) / (d : ℚ) := by
      have e : (bitLen n : Int) - (bitLen d : Int) - (((P + 1 : Nat) : Int) - 1) + (P : Int)
          = (bitLen n : Int) - (bitLen d : Int) := by
        push_cast
        ring
      rw [e]
      exact l1 hat
    have key := roundAt_near P n d _ hd hlg
    simp only [roundMag, hne, if_false, hat, if_true]
    exact key
  · have hlg : (2 : ℚ) ^ ((bitLen n : Int) - (bitLen d : Int) - 1 - (((P + 1 : Nat) : Int) - 1)
        + (P : Int)) ≤ (n : ℚ) / (d : ℚ) := by
      have e : (bitLen n : Int) - (bitLen d : Int) - 1 - (((P + 1 : Nat) : Int) - 1) + (P : Int)
          = (bitLen n : Int) - (bitLen d : Int) - 1 := by
        push_cast
        ring
      rw [e]
      exact l2
    have key := roundAt_near P n d _ hd hlg
    simp only [roundMag, hne, if_false, hat]
    exact key

theorem roundTo_near (P : Nat) (num : Int) (den : Nat) (hnum : 0 ≤ num) (hden : 0 < den) :
    0 < (roundTo (P + 1) num den).den ∧ 0 ≤ (roundTo (P + 1) num den).num ∧
    (num : ℚ) / (den : ℚ) * (1 - 1 / 2 ^ (P + 1)) ≤ (roundTo (P + 1) num den).toRat ∧
    (roundTo (P + 1) num den).toRat ≤ (num : ℚ) / (den : ℚ) * (1 + 1 / 2 ^ (P + 1)) := by
  have hlt : ¬ (num < 0) := by omega
  obtain ⟨n, hn⟩ : ∃ n : Nat, num = (n : Int) := ⟨num.toNat, (Int.toNat_of_nonneg hnum).symm⟩
  subst hn
  simp only [roundTo, hlt, if_false, Int.natAbs_ofNat, FloatVal.toRat]
  by_cases h0 : n = 0
  · subst h0
    simp [roundMag]
  · obtain ⟨h1, h2⟩ := roundMag_near P n den (by omega) hden
    rw [abs_le] at h2
    refine ⟨h1, Int.ofNat_nonneg _, ?_, ?_⟩
    · push_cast
      have : (n : ℚ) / (den : ℚ) * (1 - 1 / 2 ^ (P + 1))
          = (n : ℚ) / (den : ℚ) - (n : ℚ) / (den : ℚ) / 2 ^ (P + 1) := by ring
      rw [this]
      linarith [h2.1]
    · push_cast
      have : (n : ℚ) / (den : ℚ) * (1 + 1 / 2 ^ (P + 1))
          = (n : ℚ) / (den : ℚ) + (n : ℚ) / (den : ℚ) / 2 ^ (P + 1) := by ring
      rw [this]
      linarith [h2.2]

theorem ofInt_near (x : Int) (hx : 0 ≤ x) :
    0 < (ofInt floatPrec x).den ∧ 0 ≤ (ofInt floatPrec x).num ∧
    (x : ℚ) * (1 - 1 / 2 ^ 24) ≤ (ofInt floatPrec x).toRat ∧
    (ofInt floatPrec x).toRat ≤ (x : ℚ) * (1 + 1 / 2 ^ 24) := by
  have := roundTo_near 23 x 1 hx (by decide)
  simpa [ofInt, floatPrec] using this

theorem fmul_near (a b : FloatVal) (ha : 0 < a.den) (ha2 : 0 ≤ a.num) (hb : 0 < b.den)
    (hb2 : 0 ≤ b.num) :
    0 < (fmul floatPrec a b).den ∧ 0 ≤ (fmul floatPrec a b).num ∧
    a.toRat * b.toRat * (1 - 1 / 2 ^ 24) ≤ (fmul floatPrec a b).toRat ∧
    (fmul floatPrec a b).toRat ≤ a.toRat * b.toRat * (1 + 1 / 2 ^ 24) := by
  have := roundTo_near 23 (a.num * b.num) (a.den * b.den) (Int.mul_nonneg ha2 hb2)
    (Nat.mul_pos ha hb)
  have e : ((a.num * b.num : Int) : ℚ) / ((a.den * b.den : Nat) : ℚ)
      = a.toRat * b.toRat := by
    simp only [FloatVal.toRat]
    push_cast
    rw [div_mul_div_comm]
  rw [e] at this
  exact this

theorem fdiv_near (a b : FloatVal) (ha : 0 < a.den) (ha2 : 0 ≤ a.num) (hb : 0 < b.den)
    (hb2 : 0 < b.num) :
    0 < (fdiv floatPrec a b).den ∧ 0 ≤ (fdiv floatPrec a b).num ∧
    a.toRat / b.toRat * (1 - 1 / 2 ^ 24) ≤ (fdiv floatPrec a b).toRat ∧
    (fdiv floatPrec a b).toRat ≤ a.toRat / b.toRat * (1 + 1 / 2 ^ 24) := by
  have hlt : ¬ (b.num < 0) := by omega
  have hnat : 0 < b.num.natAbs := by omega
  have := roundTo_near 23 (a.num * (b.den : Int)) (a.den * b.num.natAbs)
    (Int.mul_nonneg ha2 (Int.ofNat_nonneg _)) (Nat.mul_pos ha hnat)
  have habs : ((b.num.natAbs : Nat) : ℚ) = (b.num : ℚ) := by
    have h1 : ((b.num.natAbs : Nat) : ℚ) = (((b.num.natAbs : Nat) : Int) : ℚ) :=
      (Int.cast_natCast _).symm
    rw [h1, Int.natAbs_of_nonneg (by omega)]
  have hbq : (b.num : ℚ) ≠ 0 := by
    have : (0 : ℚ) < (b.num : ℚ) := by exact_mod_cast hb2
    exact ne_of_gt this
  have hbd : (b.den : ℚ) ≠ 0 := by
    have : (0 : ℚ) < (b.den : ℚ) := by exact_mod_cast hb
    exact ne_of_gt this
  have had : (a.den : ℚ) ≠ 0 := by
    have : (0 : ℚ) < (a.den : ℚ) := by exact_mod_cast ha
    exact ne_of_gt this
  have e : ((a.num * (b.den : Int) : Int) : ℚ) / ((a.den * b.num.natAbs : Nat) : ℚ)
      = a.toRat / b.toRat := by
    simp only [FloatVal.toRat]
    push_cast
    rw [habs]
    field_simp
  rw [e] at this
  simp only [fdiv, hlt, if_false]
  exact this

theorem truncToInt_near (v : FloatVal) (hd : 0 < v.den) (hn : 0 ≤ v.num) :
    ((truncToInt v : Int) : ℚ) ≤ v.toRat ∧ v.toRat < ((truncToInt v : Int) : ℚ) + 1 := by
  have hdz : (0 : Int) < (v.den : Int) := by exact_mod_cast hd
  have hdq : (0 : ℚ) < (v.den : ℚ) := by exact_mod_cast hd
  have h1 := Int.ediv_mul_le v.num (ne_of_gt hdz)
  have h2 := Int.lt_ediv_add_one_mul_self v.num hdz
  simp only [truncToInt, Int.tdiv_eq_ediv hn (le_of_lt hdz), FloatVal.toRat]
  have q1 : ((v.num / (v.den : Int) : Int) : ℚ) * (v.den : ℚ) ≤ (v.num : ℚ) := by
    exact_mod_cast h1
  have q2 : (v.num : ℚ) < (((v.num / (v.den : Int) : Int) : ℚ) + 1) * (v.den : ℚ) := by
    exact_mod_cast h2
  constructor
  · rw [le_div_iff₀ hdq]
    exact q1
  · rw [div_lt_iff₀ hdq]
    exact q2

/-! ## The error of rescale -/

theorem chain_bound (A B C a b q c p : ℚ) (hA : 0 ≤ A) (hB : 0 < B) (hC : 0 ≤ C)
    (ha1 : A * (1 - 1 / 2 ^ 24) ≤ a) (ha2 : a ≤ A * (1 + 1 / 2 ^ 24))
    (hb1 : B * (1 - 1 / 2 ^ 24) ≤ b) (hb2 : b ≤ B * (1 + 1 / 2 ^ 24))
    (hq1 : a / b * (1 - 1 / 2 ^ 24) ≤ q) (hq2 : q ≤ a / b * (1 + 1 / 2 ^ 24))
    (hc1 : C * (1 - 1 / 2 ^ 24) ≤ c) (hc2 : c ≤ C * (1 + 1 / 2 ^ 24))
    (hp1 : q * c * (1 - 1 / 2 ^ 24) ≤ p) (hp2 : p ≤ q * c * (1 + 1 / 2 ^ 24)) :
    A * C / B * (1 - 6 / 2 ^ 24) ≤ p ∧ p ≤ A * C / B * (1 + 6 / 2 ^ 24) := by
  obtain ⟨l, hl⟩ : ∃ l : ℚ, l = 1 - 1 / 2 ^ 24 := ⟨_, rfl⟩
  obtain ⟨u, hu⟩ : ∃ u : ℚ, u = 1 + 1 / 2 ^ 24 := ⟨_, rfl⟩
  rw [← hl] at ha1 hb1 hq1 hc1 hp1
  rw [← hu] at ha2 hb2 hq2 hc2 hp2
  have hl0 : 0 < l := by rw [hl]; norm_num
  have hu0 : 0 < u := by rw [hu]; norm_num
  have hBl : 0 < B * l := mul_pos hB hl0
  have hBu : 0 < B * u := mul_pos hB hu0
  have hb0 : 0 < b := lt_of_lt_of_le hBl hb1
  have ha0 : 0 ≤ a := le_trans (mul_nonneg hA (le_of_lt hl0)) ha1
  have hc0 : 0 ≤ c := le_trans (mul_nonneg hC (le_of_lt hl0)) hc1
  have hx0 : 0 ≤ a / b := div_nonneg ha0 (le_of_lt hb0)
  have hq0 : 0 ≤ q := le_trans (mul_nonneg hx0 (le_of_lt hl0)) hq1
  have hV : 0 ≤ A * C / B := div_nonneg (mul_nonneg hA hC) (le_of_lt hB)
  -- upper bounds
  have x2 : a / b ≤ A * u / (B * l) :=
    div_le_div₀ (mul_nonneg hA (le_of_lt hu0)) ha2 hBl hb1
  have q2 : q ≤ A * u / (B * l) * u :=
    le_trans hq2 (mul_le_mul_of_nonneg_right x2 (le_of_lt hu0))
  have y2 : q * c ≤ A * u / (B * l) * u * (C * u) :=
    mul_le_mul q2 hc2 hc0
      (mul_nonneg (div_nonneg (mul_nonneg hA (le_of_lt hu0)) (le_of_lt hBl)) (le_of_lt hu0))
  have p2 : p ≤ A * u / (B * l) * u * (C * u) * u :=
    le_trans hp2 (mul_le_mul_of_nonneg_right y2 (le_of_lt hu0))
  have eu : A * u / (B * l) * u * (C * u) * u = A * C / B * (u ^ 4 / l) := by
    field_simp
    ring
  have nu : u ^ 4 / l ≤ 1 + 6 / 2 ^ 24 := by
    rw [hu, hl]
    norm_num
  -- lower bounds
  have x1 : A * l / (B * u) ≤ a / b :=
    div_le_div₀ ha0 ha1 hb0 hb2
  have q1 : A * l / (B * u) * l ≤ q :=
    le_trans (mul_le_mul_of_nonneg_right x1 (le_of_lt hl0)) hq1
  have y1 : A * l / (B * u) * l * (C * l) ≤ q * c :=
    mul_le_mul q1 hc1 (mul_nonneg hC (le_of_lt hl0)) hq0
  have p1 : A * l / (B * u) * l * (C * l) * l ≤ p :=
    le_trans (mul_le_mul_of_nonneg_right y1 (le_of_lt hl0)) hp1
  have el : A * l / (B * u) * l * (C * l) * l = A * C / B * (l ^ 4 / u) := by
    field_simp
    ring
  have nl : 1 - 6 / 2 ^ 24 ≤ l ^ 4 / u := by
    rw [hu, hl]
    norm_num
  rw [eu] at p2
  rw [el] at p1
  exact ⟨le_trans (mul_le_mul_of_nonneg_left nl hV) p1,
    le_trans p2 (mul_le_mul_of_nonneg_left nu hV)⟩

theorem rescale_near (k L : Int) (hk : 0 ≤ k) (hL : 0 < L) (hkL : k ≤ L)
    (hN : L * 1024 < 2147483648) :
    ∃ r : Int, rescale k L (L * 1024) = some r ∧ k * 1024 - 768 ≤ r ∧ r ≤ k * 1024 + 768 := by
  have hne : ¬ (L = 0) := by omega
  obtain ⟨a1, a2, a3, a4⟩ := ofInt_near k hk
  obtain ⟨b1, b2, b3, b4⟩ := ofInt_near L (le_of_lt hL)
  obtain ⟨c1, c2, c3, c4⟩ := ofInt_near (L * 1024) (by omega)
  have hLq : (0 : ℚ) < (L : ℚ) := by exact_mod_cast hL
  have hkq : (0 : ℚ) ≤ (k : ℚ) := by exact_mod_cast hk
  have hbpos : 0 < (ofInt floatPrec L).toRat := by
    have : (0 : ℚ) < (L : ℚ) * (1 - 1 / 2 ^ 24) := mul_pos hLq (by norm_num)
    linarith
  have hbnum : 0 < (ofInt floatPrec L).num := by
    have hden : (0 : ℚ) < ((ofInt floatPrec L).den : ℚ) := by exact_mod_cast b1
    have := hbpos
    simp only [FloatVal.toRat] at this
    have hnum : (0 : ℚ) < ((ofInt floatPrec L).num : ℚ) := by
      by_contra hcon
      have hle : ((ofInt floatPrec L).num : ℚ) ≤ 0 := not_lt.mp hcon
      have := div_nonpos_of_nonpos_of_nonneg hle (le_of_lt hden)
      linarith
    exact_mod_cast hnum
  obtain ⟨q1, q2, q3, q4⟩ := fdiv_near (ofInt floatPrec k) (ofInt floatPrec L) a1 a2 b1 hbnum
  obtain ⟨p1, p2, p3, p4⟩ := fmul_near
    (fdiv floatPrec (ofInt floatPrec k) (ofInt floatPrec L)) (ofInt floatPrec (L * 1024))
    q1 q2 c1 c2
  obtain ⟨t1, t2⟩ := truncToInt_near _ p1 p2
  have hcq : (0 : ℚ) ≤ ((L * 1024 : Int) : ℚ) := by
    have : (0 : Int) ≤ L * 1024 := by omega
    exact_mod_cast this
  obtain ⟨lo, hi⟩ := chain_bound (k : ℚ) (L : ℚ) ((L * 1024 : Int) : ℚ) _ _ _ _ _ hkq hLq hcq
    a3 a4 b3 b4 q3 q4 c3 c4 p3 p4
  have hV : (k : ℚ) * ((L * 1024 : Int) : ℚ) / (L : ℚ) = (k : ℚ) * 1024 := by
    push_cast
    field_simp
    ring
  rw [hV] at lo hi
  have hkb : (k : ℚ) * 1024 ≤ 2147483648 := by
    have : k * 1024 ≤ 2147483648 := by omega
    exact_mod_cast this
  simp only [rescale, hne, if_false]
  refine ⟨_, rfl, ?_, ?_⟩
  · have h : ((k * 1024 - 768 - 1 : Int) : ℚ)
        < ((truncToInt (fmul floatPrec (fdiv floatPrec (ofInt floatPrec k) (ofInt floatPrec L))
          (ofInt floatPrec (L * 1024))) : Int) : ℚ) := by
      push_cast
      have e : (k : ℚ) * 1024 * (1 - 6 / 2 ^ 24) = (k : ℚ) * 1024 - (k : ℚ) * 1024 * (6 / 2 ^ 24) := by
        ring
      rw [e] at lo
      have : (k : ℚ) * 1024 * (6 / 2 ^ 24) ≤ 768 := by
        have := mul_le_mul_of_nonneg_right hkb (by norm_num : (0 : ℚ) ≤ 6 / 2 ^ 24)
        norm_num at this ⊢
        linarith
      linarith
    have h2 : k * 1024 - 768 - 1 < truncToInt (fmul floatPrec
        (fdiv floatPrec (ofInt floatPrec k) (ofInt floatPrec L))
        (ofInt floatPrec (L * 1024))) := by exact_mod_cast h
    omega
  · have h : ((truncToInt (fmul floatPrec (fdiv floatPrec (ofInt floatPrec k) (ofInt floatPrec L))
          (ofInt floatPrec (L * 1024))) : Int) : ℚ) ≤ ((k * 1024 + 768 : Int) : ℚ) := by
      push_cast
      have e : (k : ℚ) * 1024 * (1 + 6 / 2 ^ 24) = (k : ℚ) * 1024 + (k : ℚ) * 1024 * (6 / 2 ^ 24) := by
        ring
      rw [e] at hi
      have : (k : ℚ) * 1024 * (6 / 2 ^ 24) ≤ 768 := by
        have := mul_le_mul_of_nonneg_right hkb (by norm_num : (0 : ℚ) ≤ 6 / 2 ^ 24)
        norm_num at this ⊢
        linarith
      linarith
    exact_mod_cast h

/-! ## The trimming points of an amplitude array -/

theorem argMaxAmp_exists (a : List Int) (h : a ≠ []) :
    ∃ i : Nat, argMaxAmp a = some (i : Int) ∧ i < a.length := by
  cases a with
  | nil => exact absurd rfl h
  | cons x rest =>
    obtain ⟨mv, hlt, -⟩ := argMaxLoop_spec rest [x] x 0 (by simp) (by simp)
      (by
        intro k v hk hv
        have hk0 : k = 0 := by simpa using hk
        subst hk0
        simp at hv
        omega)
      (by
        intro k v hk
        omega)
    exact ⟨argMaxLoop rest 1 x 0, rfl, by simpa using hlt⟩

theorem startIndex_exists (a : List Int) (m : Nat) (hm : m < a.length) :
    ∃ s : Nat, determineStartIndex a (m : Int) = some (s : Int) ∧ s ≤ m := by
  obtain ⟨j, hj, hstart, hjm⟩ := determineStartPoint_exists a m hm
  exact ⟨j, by simp [determineStartIndex, hstart], hjm⟩

theorem endIndex_exists (a : List Int) (m : Nat) (hm : m < a.length) (percent : FloatVal)
    (allowedSilence : Int) :
    ∃ e : Nat, determineEndIndex a (m : Int) percent allowedSilence = some (e : Int) ∧
      m ≤ e ∧ e ≤ a.length - 1 := by
  have em : a[m]? = some a[m] := List.getElem?_eq_getElem hm
  have hnn : ¬ ((m : Int) < 0) := by omega
  have hb := endLoop_bounds a (silenceThreshold percent a[m]) allowedSilence
    (a.length - m) m 0 (by omega)
  have hmin := Nat.min_le_right (endLoop a (silenceThreshold percent a[m]) allowedSilence
    (a.length - m) m 0) (a.length - 1)
  have hl : min (endLoop a (silenceThreshold percent a[m]) allowedSilence
      (a.length - m) m 0) (a.length - 1) < a.length := by omega
  have hge : m ≤ min (endLoop a (silenceThreshold percent a[m]) allowedSilence
      (a.length - m) m 0) (a.length - 1) :=
    Nat.le_min.mpr ⟨hb.1, by omega⟩
  refine ⟨min (endLoop a (silenceThreshold percent a[m]) allowedSilence
      (a.length - m) m 0) (a.length - 1), ?_, hge, hmin⟩
  simp only [determineEndIndex, determineEndPoint, hnn, if_false, Int.toNat_ofNat, em,
    List.getElem?_eq_getElem hl, Option.map_some']

theorem padSndEnd_eq (r : Int) (a : List Int) (h0 : 0 ≤ r + 2048)
    (h1 : r + 2048 < 2147483648 + 4096) (h2 : (a.length : Int) * 1024 < 2147483648) :
    padSndEnd r 1024 a defaultPaddingChunks
      = if r + 2048 < (a.length : Int) * 1024 then r + 2048 else (a.length : Int) * 1024 := by
  have ht : toSizeT 1024 = 1024 := by decide
  have hpad : (defaultPaddingChunks : Int) * 1024 = 2048 := by decide
  have hs : toSizeT (r + 2048) = (r + 2048).toNat := by
    simp only [toSizeT]
    congr 1
    omega
  have hmod : (a.length * 1024) % 2 ^ 64 = a.length * 1024 := by
    apply Nat.mod_eq_of_lt
    omega
  simp only [padSndEnd, ht, hpad, hs, hmod]
  by_cases hlt : r + 2048 < (a.length : Int) * 1024
  · have : (r + 2048).toNat < a.length * 1024 := by omega
    simp only [this, hlt, if_true]
  · have : ¬ ((r + 2048).toNat < a.length * 1024) := by omega
    simp only [this, hlt, if_false]

theorem padSndStart_eq (r : Int) :
    padSndStart r 1024 defaultPaddingChunks = if r - 2048 > 0 then r - 2048 else 0 := by
  have hpad : (defaultPaddingChunks : Int) * 1024 = 2048 := by decide
  simp only [padSndStart, hpad]

theorem getTrimmingPoints_eq (ampData : List Int) (threshold : Int) (m s0 e0 : Nat)
    (hm : argMaxAmp (smoothAmpData ampData threshold) = some (m : Int))
    (hs : determineStartIndex (smoothAmpData ampData threshold) (m : Int) = some (s0 : Int))
    (he : determineEndIndex (smoothAmpData ampData threshold) (m : Int) defaultPercent
      defaultAllowedSilence = some (e0 : Int))
    (hs0 : s0 < ampData.length) (he0 : e0 < ampData.length)
    (hsize : (ampData.length : Int) * 1024 < 2147483648) :
    ∃ rs re : Int,
      (s0 : Int) * 1024 - 768 ≤ rs ∧ rs ≤ (s0 : Int) * 1024 + 768 ∧
      (e0 : Int) * 1024 - 768 ≤ re ∧ re ≤ (e0 : Int) * 1024 + 768 ∧
      getTrimmingPoints ampData threshold
        = some [if rs - 2048 > 0 then rs - 2048 else 0,
            if re + 2048 < (ampData.length : Int) * 1024 then re + 2048
            else (ampData.length : Int) * 1024] := by
  have hlen : (smoothAmpData ampData threshold).length = ampData.length := by
    simp [smoothAmpData]
  have hL : (0 : Int) < ((smoothAmpData ampData threshold).length : Int) := by
    rw [hlen]
    omega
  have hsz : ((smoothAmpData ampData threshold).length : Int) * 1024 < 2147483648 := by
    rw [hlen]
    exact hsize
  obtain ⟨rs, hrs, hrs1, hrs2⟩ := rescale_near (s0 : Int)
    ((smoothAmpData ampData threshold).length : Int) (by omega) hL (by rw [hlen]; omega) hsz
  obtain ⟨re, hre, hre1, hre2⟩ := rescale_near (e0 : Int)
    ((smoothAmpData ampData threshold).length : Int) (by omega) hL (by rw [hlen]; omega) hsz
  refine ⟨rs, re, hrs1, hrs2, hre1, hre2, ?_⟩
  have hpe := padSndEnd_eq re (smoothAmpData ampData threshold) (by omega) (by omega) hsz
  rw [hlen] at hpe
  simp only [getTrimmingPoints, hm, hs, determineSndStartPoint, hrs, he,
    determineSndEndPoint, hre, padSndStart_eq, hpe]

/-- C22: for a non-empty amplitude array of `L` entries with `L * 1024` in the range of
`int` and any threshold, `getTrimmingPoints` returns two points `s` and `e` with
`0 ≤ s ≤ m * 1024 < e ≤ L * 1024`, where `m` is the `argMaxAmp` of the smoothed array. -/
theorem getTrimmingPoints_bounds (ampData : List Int) (threshold : Int) (hne : ampData ≠ [])
    (hsize : (ampData.length : Int) * 1024 < 2147483648) :
    ∃ (s e : Int) (m : Nat),
      argMaxAmp (smoothAmpData ampData threshold) = some (m : Int) ∧
      getTrimmingPoints ampData threshold = some [s, e] ∧
      0 ≤ s ∧ s ≤ (m : Int) * 1024 ∧ (m : Int) * 1024 < e ∧
      e ≤ (ampData.length : Int) * 1024 := by
  have hlen : (smoothAmpData ampData threshold).length = ampData.length := by
    simp [smoothAmpData]
  have hne2 : smoothAmpData ampData threshold ≠ [] := by
    intro h
    have := congrArg List.length h
    rw [hlen] at this
    exact hne (List.length_eq_zero.mp this)
  obtain ⟨m, hm, hml⟩ := argMaxAmp_exists _ hne2
  obtain ⟨s0, hs, hsm⟩ := startIndex_exists _ m hml
  obtain ⟨e0, he, hme, hel⟩ := endIndex_exists _ m hml defaultPercent defaultAllowedSilence
  rw [hlen] at hml hel
  obtain ⟨rs, re, b1, b2, b3, b4, hget⟩ := getTrimmingPoints_eq ampData threshold m s0 e0
    hm hs he (by omega) (by omega) hsize
  refine ⟨_, _, m, hm, hget, ?_, ?_, ?_, ?_⟩
  · split <;> omega
  · split <;> omega
  · split <;> omega
  · split <;> omega

set_option maxRecDepth 100000 in
/-- Witness for C22: 21 amplitudes with the peak at index 5, for which the points are 1024
and 18432. -/
theorem getTrimmingPoints_bounds_witness :
    ([0, 0, 150, 0, 200, 300, 250, 0, 0, 0, 0, 0, 0, 0, 0, 0, 0, 0, 0, 0, 0] : List Int) ≠ [] ∧
    getTrimmingPoints [0, 0, 150, 0, 200, 300, 250, 0, 0, 0, 0, 0, 0, 0, 0, 0, 0, 0, 0, 0, 0]
      defaultThreshold = some [1024, 18432] ∧
    ∃ (s e : Int) (m : Nat),
      argMaxAmp (smoothAmpData
        [0, 0, 150, 0, 200, 300, 250, 0, 0, 0, 0, 0, 0, 0, 0, 0, 0, 0, 0, 0, 0]
        defaultThreshold) = some (m : Int) ∧
      getTrimmingPoints [0, 0, 150, 0, 200, 300, 250, 0, 0, 0, 0, 0, 0, 0, 0, 0, 0, 0, 0, 0, 0]
        defaultThreshold = some [s, e] ∧
      0 ≤ s ∧ s ≤ (m : Int) * 1024 ∧ (m : Int) * 1024 < e ∧
      e ≤ (([0, 0, 150, 0, 200, 300, 250, 0, 0, 0, 0, 0, 0, 0, 0, 0, 0, 0, 0, 0, 0]
        : List Int).length : Int) * 1024 :=
  ⟨by decide, by decide,
    getTrimmingPoints_bounds
      [0, 0, 150, 0, 200, 300, 250, 0, 0, 0, 0, 0, 0, 0, 0, 0, 0, 0, 0, 0, 0] defaultThreshold
      (by decide) (by decide)⟩

theorem smoothAmpData_zeros (ampData : List Int) (threshold : Int)
    (hall : ∀ pt ∈ ampData, pt ≤ threshold) :
    smoothAmpData ampData threshold = List.replicate ampData.length 0 := by
  induction ampData with
  | nil => rfl
  | cons x rest ih =>
    have hx : ¬ (x > threshold) := by
      have := hall x (List.mem_cons_self x rest)
      omega
    have hrest := ih (fun pt hpt => hall pt (List.mem_cons_of_mem x hpt))
    simp only [smoothAmpData, List.map_cons, hx, if_false, List.length_cons,
      List.replicate_succ] at hrest ⊢
    rw [hrest]

theorem argMaxLoop_zeros (n : Nat) : ∀ i : Nat, argMaxLoop (List.replicate n 0) i 0 0 = 0 := by
  induction n with
  | zero =>
    intro i
    rfl
  | succ n ih =>
    intro i
    have h : ¬ ((0 : Int) > 0) := by decide
    simp only [List.replicate_succ, argMaxLoop, h, if_false, ih]

theorem endLoop_zeros (L : Nat) (T : FloatVal) (allowed : Int)
    (hT : intLtFloat 0 T = false) :
    ∀ (fuel i : Nat), fuel + i = L →
      endLoop (List.replicate L 0) T allowed fuel i 0 = L := by
  intro fuel
  induction fuel with
  | zero =>
    intro i h
    simp only [endLoop]
    omega
  | succ fuel ih =>
    intro i h
    have hi : (List.replicate L (0 : Int))[i]? = some 0 := by
      rw [List.getElem?_replicate]
      simp
      omega
    simp only [endLoop, hi, hT, Bool.false_eq_true, if_false]
    exact ih (i + 1) (by omega)

theorem endIndex_zeros (L : Nat) (hL : 0 < L) :
    determineEndIndex (List.replicate L 0) ((0 : Nat) : Int) defaultPercent
      defaultAllowedSilence = some ((L - 1 : Nat) : Int) := by
  have h0 : (List.replicate L (0 : Int))[0]? = some 0 := by
    rw [List.getElem?_replicate]
    simp
    omega
  have hl : (List.replicate L (0 : Int))[L - 1]? = some 0 := by
    rw [List.getElem?_replicate]
    simp
    omega
  have hT : intLtFloat 0 (silenceThreshold defaultPercent 0) = false := by decide
  have hloop := endLoop_zeros L (silenceThreshold defaultPercent 0) defaultAllowedSilence hT
    L 0 (by omega)
  have hnn : ¬ (((0 : Nat) : Int) < 0) := by decide
  have hmin : min L (L - 1) = L - 1 := Nat.min_eq_right (Nat.sub_le L 1)
  simp only [determineEndIndex, determineEndPoint, hnn, if_false, Int.toNat_ofNat, h0,
    List.length_replicate, Nat.sub_zero, hloop, hmin, hl, Option.map_some']

/-- C23: for a non-empty amplitude array of `L` entries with `L * 1024` in the range of
`int`, none of them above the threshold, the smoothed array is all zeros, its `argMaxAmp`
is 0, the silence threshold `0.1 * 0` has no entry strictly below it, and
`getTrimmingPoints` returns `[0, L * 1024]`: nothing is trimmed. -/
theorem getTrimmingPoints_silence (ampData : List Int) (threshold : Int)
    (hne : ampData ≠ []) (hsize : (ampData.length : Int) * 1024 < 2147483648)
    (hall : ∀ pt ∈ ampData, pt ≤ threshold) :
    smoothAmpData ampData threshold = List.replicate ampData.length 0 ∧
    argMaxAmp (smoothAmpData ampData threshold) = some 0 ∧
    intLtFloat 0 (silenceThreshold defaultPercent 0) = false ∧
    getTrimmingPoints ampData threshold = some [0, (ampData.length : Int) * 1024] := by
  have hz := smoothAmpData_zeros ampData threshold hall
  have hpos : 0 < ampData.length := List.length_pos.mpr hne
  have hm : argMaxAmp (smoothAmpData ampData threshold) = some ((0 : Nat) : Int) := by
    rw [hz]
    obtain ⟨n, hn⟩ : ∃ n, ampData.length = n + 1 := ⟨ampData.length - 1, by omega⟩
    rw [hn, List.replicate_succ]
    simp only [argMaxAmp, argMaxLoop_zeros]
  obtain ⟨s0, hs, hs0⟩ := startIndex_exists (smoothAmpData ampData threshold) 0
    (by rw [hz, List.length_replicate]; exact hpos)
  have hs00 : s0 = 0 := by omega
  subst hs00
  have he : determineEndIndex (smoothAmpData ampData threshold) ((0 : Nat) : Int)
      defaultPercent defaultAllowedSilence = some ((ampData.length - 1 : Nat) : Int) := by
    rw [hz]
    exact endIndex_zeros ampData.length hpos
  obtain ⟨rs, re, b1, b2, b3, b4, hget⟩ := getTrimmingPoints_eq ampData threshold 0 0
    (ampData.length - 1) hm hs he hpos (by omega) hsize
  have c1 : ¬ (rs - 2048 > 0) := by omega
  have c2 : ¬ (re + 2048 < (ampData.length : Int) * 1024) := by omega
  rw [if_neg c1, if_neg c2] at hget
  exact ⟨hz, hm, by decide, hget⟩

/-- Witness for C23: three amplitudes, none above the default threshold. -/
theorem getTrimmingPoints_silence_witness :
    ([12, 100, 7] : List Int) ≠ [] ∧
    (([12, 100, 7] : List Int).length : Int) * 1024 < 2147483648 ∧
    (∀ pt ∈ ([12, 100, 7] : List Int), pt ≤ defaultThreshold) ∧
    getTrimmingPoints [12, 100, 7] defaultThreshold
      = some [0, (([12, 100, 7] : List Int).length : Int) * 1024] :=
  ⟨by decide, by decide, by decide,
    (getTrimmingPoints_silence [12, 100, 7] defaultThreshold (by decide) (by decide)
      (by decide)).2.2.2⟩
/-! ## The end point and the exact threshold -/

theorem natAbs_rat_of_nonneg (x : Int) (h : 0 ≤ x) : ((x.natAbs : Nat) : ℚ) = (x : ℚ) := by
  rw [← Int.cast_natCast, Int.natAbs_of_nonneg h]

theorem natAbs_rat_of_neg (x : Int) (h : x < 0) : ((x.natAbs : Nat) : ℚ) = -(x : ℚ) := by
  rw [← Int.cast_natCast, Int.ofNat_natAbs_of_nonpos (le_of_lt h), Int.cast_neg]

theorem divRoundEven_one (a : Nat) : divRoundEven a 1 = a := by
  simp [divRoundEven, Nat.mod_one]

theorem roundMag_exact (n : Nat) (hn : 0 < n) (h53 : n < 2 ^ 53) :
    0 < (roundMag doublePrec n 1).2 ∧
    ((roundMag doublePrec n 1).1 : ℚ) / ((roundMag doublePrec n 1).2 : ℚ) = (n : ℚ) := by
  have hne : ¬ (n = 0 ∨ 1 = 0) := by omega
  have hb1 : bitLen 1 = 1 := by decide
  obtain ⟨bn1, bn2, bn3⟩ := bitLen_bounds n hn
  have hbl : bitLen n ≤ 53 := by
    by_contra hcon
    have : 2 ^ 53 ≤ 2 ^ (bitLen n - 1) := Nat.pow_le_pow_right (by decide) (by omega)
    omega
  have key : ∀ e : Int, e ≤ 0 →
      0 < (if 0 ≤ e then (divRoundEven n (1 * 2 ^ e.toNat) * 2 ^ e.toNat, 1)
        else (divRoundEven (n * 2 ^ (-e).toNat) 1, 2 ^ (-e).toNat)).2 ∧
      (((if 0 ≤ e then (divRoundEven n (1 * 2 ^ e.toNat) * 2 ^ e.toNat, 1)
        else (divRoundEven (n * 2 ^ (-e).toNat) 1, 2 ^ (-e).toNat)).1 : Nat) : ℚ)
        / (((if 0 ≤ e then (divRoundEven n (1 * 2 ^ e.toNat) * 2 ^ e.toNat, 1)
        else (divRoundEven (n * 2 ^ (-e).toNat) 1, 2 ^ (-e).toNat)).2 : Nat) : ℚ) = (n : ℚ) := by
    intro e he
    by_cases h0 : 0 ≤ e
    · have e0 : e = 0 := by omega
      subst e0
      simp [divRoundEven_one]
    · simp only [h0, if_false, divRoundEven_one]
      refine ⟨by positivity, ?_⟩
      push_cast
      field_simp
  by_cases hat : (if 0 ≤ (bitLen n : Int) - (bitLen 1 : Int)
        then decide (1 * 2 ^ ((bitLen n : Int) - (bitLen 1 : Int)).toNat ≤ n)
        else decide (1 ≤ n * 2 ^ (-((bitLen n : Int) - (bitLen 1 : Int))).toNat)) = true
  · have := key ((bitLen n : Int) - (bitLen 1 : Int) - (((doublePrec : Nat) : Int) - 1))
      (by rw [hb1]; simp only [doublePrec]; omega)
    simp only [roundMag, hne, if_false, hat, if_true]
    exact this
  · have := key ((bitLen n : Int) - (bitLen 1 : Int) - 1 - (((doublePrec : Nat) : Int) - 1))
      (by rw [hb1]; simp only [doublePrec]; omega)
    simp only [roundMag, hne, if_false, hat]
    exact this

theorem ofInt_double_exact (x : Int) (h1 : -(2 ^ 53) < x) (h2 : x < 2 ^ 53) :
    0 < (ofInt doublePrec x).den ∧ (ofInt doublePrec x).toRat = (x : ℚ) := by
  simp only [ofInt, roundTo, FloatVal.toRat]
  by_cases h0 : x = 0
  · subst h0
    simp [roundMag]
  · have hn : 0 < x.natAbs := Int.natAbs_pos.mpr h0
    have h53 : x.natAbs < 2 ^ 53 := by omega
    obtain ⟨r1, r2⟩ := roundMag_exact x.natAbs hn h53
    refine ⟨r1, ?_⟩
    by_cases hneg : x < 0
    · simp only [hneg, if_true]
      push_cast
      rw [neg_div, r2]
      rw [natAbs_rat_of_neg x hneg, neg_neg]
    · simp only [hneg, if_false]
      push_cast
      rw [r2]
      exact natAbs_rat_of_nonneg x (by omega)

theorem roundTo_near_signed (P : Nat) (num : Int) (den : Nat) (hden : 0 < den) :
    0 < (roundTo (P + 1) num den).den ∧
    |(roundTo (P + 1) num den).toRat - (num : ℚ) / (den : ℚ)|
      ≤ |(num : ℚ) / (den : ℚ)| / 2 ^ (P + 1) := by
  have hdq : (0 : ℚ) < (den : ℚ) := by exact_mod_cast hden
  by_cases hneg : num < 0
  · have hn : 0 < num.natAbs := Int.natAbs_pos.mpr (by omega)
    obtain ⟨r1, r2⟩ := roundMag_near P num.natAbs den hn hden
    have hq : ((num.natAbs : Nat) : ℚ) = -(num : ℚ) := natAbs_rat_of_neg num hneg
    have hnq : (num : ℚ) < 0 := by exact_mod_cast hneg
    have habs : |(num : ℚ) / (den : ℚ)| = -(num : ℚ) / (den : ℚ) := by
      rw [abs_of_neg (div_neg_of_neg_of_pos hnq hdq), neg_div]
    simp only [roundTo, hneg, if_true, FloatVal.toRat]
    refine ⟨r1, ?_⟩
    rw [habs]
    rw [hq] at r2
    push_cast
    have e : -((roundMag (P + 1) num.natAbs den).1 : ℚ) / ((roundMag (P + 1) num.natAbs den).2 : ℚ)
        - (num : ℚ) / (den : ℚ)
        = -(((roundMag (P + 1) num.natAbs den).1 : ℚ) / ((roundMag (P + 1) num.natAbs den).2 : ℚ)
          - -(num : ℚ) / (den : ℚ)) := by ring
    rw [e, abs_neg]
    exact r2
  · obtain ⟨a1, a2, a3, a4⟩ := roundTo_near P num den (by omega) hden
    have hnq : (0 : ℚ) ≤ (num : ℚ) := by
      have : 0 ≤ num := by omega
      exact_mod_cast this
    have habs : |(num : ℚ) / (den : ℚ)| = (num : ℚ) / (den : ℚ) :=
      abs_of_nonneg (div_nonneg hnq (le_of_lt hdq))
    refine ⟨a1, ?_⟩
    rw [habs, abs_le]
    constructor
    · have : (num : ℚ) / (den : ℚ) * (1 - 1 / 2 ^ (P + 1))
          = (num : ℚ) / (den : ℚ) - (num : ℚ) / (den : ℚ) / 2 ^ (P + 1) := by ring
      linarith
    · have : (num : ℚ) / (den : ℚ) * (1 + 1 / 2 ^ (P + 1))
          = (num : ℚ) / (den : ℚ) + (num : ℚ) / (den : ℚ) / 2 ^ (P + 1) := by ring
      linarith

theorem silenceThreshold_near (percent : FloatVal) (hden : 0 < percent.den) (maxVal : Int)
    (h1 : -2147483648 ≤ maxVal) (h2 : maxVal < 2147483648) :
    0 < (silenceThreshold percent maxVal).den ∧
    |(silenceThreshold percent maxVal).toRat - percent.toRat * (maxVal : ℚ)|
      ≤ |percent.toRat * (maxVal : ℚ)| / 2 ^ 53 := by
  obtain ⟨c1, c2⟩ := ofInt_double_exact maxVal (by omega) (by omega)
  have := roundTo_near_signed 52 (percent.num * (ofInt doublePrec maxVal).num)
    (percent.den * (ofInt doublePrec maxVal).den) (Nat.mul_pos hden c1)
  have e : ((percent.num * (ofInt doublePrec maxVal).num : Int) : ℚ)
      / ((percent.den * (ofInt doublePrec maxVal).den : Nat) : ℚ)
      = percent.toRat * (maxVal : ℚ) := by
    rw [← c2]
    simp only [FloatVal.toRat]
    push_cast
    rw [div_mul_div_comm]
  rw [e] at this
  exact this

theorem intLtFloat_iff (x : Int) (t : FloatVal) (ht : 0 < t.den) :
    intLtFloat x t = true ↔ (x : ℚ) < t.toRat := by
  have hq : (0 : ℚ) < (t.den : ℚ) := by exact_mod_cast ht
  simp only [intLtFloat, decide_eq_true_eq, FloatVal.toRat]
  rw [lt_div_iff₀ hq]
  constructor
  · intro h
    exact_mod_cast h
  · intro h
    exact_mod_cast h

theorem silentRun_iff (a : List Int) (t : FloatVal) (ht : 0 < t.den) (maxInd s i : Nat) :
    SilentRunEndsAt a t maxInd s i ↔ SilentRunBelow a t.toRat maxInd s i := by
  simp only [SilentRunEndsAt, SilentRunBelow, intLtFloat_iff _ t ht]

/-- C4: for a non-empty array of fewer than `2^31` values of `int`, `0 ≤ maxInd < length`,
`allowedSilence ≥ 1` and a finite `percent`, the threshold `T` that `determineEndPoint` compares with is the
product `percent * a[maxInd]` as `double` arithmetic gives it: it differs from the exact
product by at most the `2 ^ 53`-th part of it.  `determineEndPoint` returns the least index
`i ≥ maxInd` at which a run of `allowedSilence` consecutive entries strictly below `T`, all
at indices `≥ maxInd`, ends; if there is no such index it returns the last index
`length - 1`.  The returned `yCoord` is the entry at the returned index. -/
theorem determineEndPoint_spec (a : List Int) (maxInd : Nat) (hm : maxInd < a.length)
    (percent : FloatVal) (hden : 0 < percent.den) (allowedSilence : Int)
    (hs : 1 ≤ allowedSilence) (hlen : a.length < 2147483648)
    (hint : ∀ x ∈ a, -2147483648 ≤ x ∧ x < 2147483648) :
    ∃ (T : ℚ) (r : Nat) (hr : r < a.length),
      T = (silenceThreshold percent a[maxInd]).toRat ∧
      |T - percent.toRat * (a[maxInd] : ℚ)| ≤ |percent.toRat * (a[maxInd] : ℚ)| / 2 ^ 53 ∧
      determineEndPoint a (maxInd : Int) percent allowedSilence = some ⟨(r : Int), a[r]⟩ ∧
      ((SilentRunBelow a T maxInd allowedSilence.toNat r ∧
          ∀ i : Nat, i < r → ¬ SilentRunBelow a T maxInd allowedSilence.toNat i) ∨
        ((∀ i : Nat, ¬ SilentRunBelow a T maxInd allowedSilence.toNat i) ∧
          r = a.length - 1)) := by
  have _hsize := hlen
  have hmax := hint a[maxInd] (List.getElem_mem hm)
  obtain ⟨t1, t2⟩ := silenceThreshold_near percent hden a[maxInd] hmax.1 hmax.2
  obtain ⟨r, hr, hres, hcases⟩ := determineEndPoint_scan a maxInd hm percent allowedSilence hs
  refine ⟨_, r, hr, rfl, t2, hres, ?_⟩
  simp only [silentRun_iff a _ t1] at hcases
  exact hcases

set_option maxRecDepth 100000 in
/-- Witness for C4: after the peak 90 at index 1 the threshold is 9, and the two entries
below it end the scan at index 3. -/
theorem determineEndPoint_spec_witness :
    (1 < ([0, 90, 1, 1, 50] : List Int).length) ∧ 0 < defaultPercent.den ∧ ((1 : Int) ≤ 2) ∧
    ([0, 90, 1, 1, 50] : List Int).length < 2147483648 ∧
    (∀ x ∈ ([0, 90, 1, 1, 50] : List Int), -2147483648 ≤ x ∧ x < 2147483648) ∧
    determineEndPoint [0, 90, 1, 1, 50] ((1 : Nat) : Int) defaultPercent 2 = some ⟨3, 1⟩ ∧
    intLtFloat 8 (silenceThreshold defaultPercent 90) = true ∧
    intLtFloat 9 (silenceThreshold defaultPercent 90) = false ∧
    ∃ (T : ℚ) (r : Nat) (hr : r < ([0, 90, 1, 1, 50] : List Int).length),
      T = (silenceThreshold defaultPercent ([0, 90, 1, 1, 50] : List Int)[1]).toRat ∧
      |T - defaultPercent.toRat * ((([0, 90, 1, 1, 50] : List Int)[1] : Int) : ℚ)|
        ≤ |defaultPercent.toRat * ((([0, 90, 1, 1, 50] : List Int)[1] : Int) : ℚ)| / 2 ^ 53 ∧
      determineEndPoint [0, 90, 1, 1, 50] ((1 : Nat) : Int) defaultPercent 2
        = some ⟨(r : Int), ([0, 90, 1, 1, 50] : List Int)[r]⟩ ∧
      ((SilentRunBelow [0, 90, 1, 1, 50] T 1 (2 : Int).toNat r ∧
          ∀ i : Nat, i < r → ¬ SilentRunBelow [0, 90, 1, 1, 50] T 1 (2 : Int).toNat i) ∨
        ((∀ i : Nat, ¬ SilentRunBelow [0, 90, 1, 1, 50] T 1 (2 : Int).toNat i) ∧
          r = ([0, 90, 1, 1, 50] : List Int).length - 1)) :=
  ⟨by decide, by decide, by decide, by decide, by decide, by decide, by decide, by decide,
    determineEndPoint_spec [0, 90, 1, 1, 50] 1 (by decide) defaultPercent (by decide) 2
      (by decide) (by decide) (by decide)⟩

end WingKit
